import Mathlib

/-!
# Trade-Track: the day-lock / loss-disclosure workflow

A shallow embedding of the event handlers of `src/src/App.jsx` (the React
component `App`) together with the properties of the lock engine and of the
loss-disclosure gate.

Modelling conventions

* A JavaScript value stored in a trade entry is a string or an integer number
  (`JSVal`); `undefined` is `none`.
* A JavaScript object with string keys is a property list (`Dict`): a read
  returns the first binding of the key, a write replaces that binding or
  appends a new one, `delete` removes the key.
* The ledger `trades` is indexed by week and day; a missing week or day is
  `none`, so that `trades[w]?.[d] || []` and the `TypeError` raised by
  `trades[w][d][r].x` on a missing bucket or row are both visible.
* A handler that can raise a `TypeError` returns `Option AppState`; `none`
  means the exception escaped before any `setState` call, i.e. the React state
  is what it was.
* `Date.now()`, `getTodayKey()`, `getCurrentWeekIndex()` and
  `getCurrentDayIndex()` are read from an explicit environment `Env`.
* `JSON.parse(JSON.stringify(x))` is the identity on the values above.
* Timers (`setTimeout`, `setInterval`) are not part of the model: the toast
  list only grows and the lock alert is recorded through `lockAlertData`.
* The totals (`calculateDayTotal`, `calculateWeekTotal`, `calculateStats`) take
  the arithmetic of JavaScript numbers as a parameter (`NumOps`); `exactOps` is
  the instance without rounding, used to evaluate examples on small integers.
  The win rate is computed with the IEEE 754 rounding of its two operations
  (`roundDouble`) and the integer selection of `toFixed(1)`.
* The calendar functions are also given on their inputs: `getTodayKey` on year,
  zero-based month and day, `getCurrentDayIndex` on the native weekday number,
  `getCurrentWeekIndex` on the day of month with the quotient rounded to a
  double.
* The service `src/src/services/aiCategorizer.js` is modelled over the stored
  key and the category cache (`ServiceState`). The external request is a
  parameter (`FetchOutcome`), a promise settles as `Settled` or as an
  `Option`, `Math.random()` is a rational draw, and the locale-dependent
  methods `toLowerCase` and `toLocaleString` enter as parameters. String
  lengths are counted in UTF-16 code units.
-/

namespace TradeTrack

/-! ## JavaScript values, objects and strings -/

/-- A JavaScript primitive kept in a trade entry: a string or an integer number. -/
inductive JSVal where
  | str (s : String)
  | num (n : Int)
deriving DecidableEq, Repr

/-- A JavaScript object with string keys, as a property list. -/
abbrev Dict (α : Type) := List (String × α)

/-- Property read `o[key]`; `none` is `undefined`. -/
def objGet {α : Type} : Dict α → String → Option α
  | [], _ => none
  | (k, v) :: rest, key => if k = key then some v else objGet rest key

/-- Property write `o[key] = v`: replaces the binding in place or appends it. -/
def objSet {α : Type} : Dict α → String → α → Dict α
  | [], key, v => [(key, v)]
  | (k, x) :: rest, key, v =>
    if k = key then (key, v) :: rest else (k, x) :: objSet rest key v

/-- Property removal `delete o[key]`. -/
def objDelete {α : Type} (o : Dict α) (key : String) : Dict α :=
  o.filter (fun kv => decide (kv.1 ≠ key))

/-- The list `Object.keys(o)`. -/
def objKeys {α : Type} (o : Dict α) : List String :=
  o.map Prod.fst

/-- JavaScript truthiness of a (possibly undefined) value. -/
def truthy : Option JSVal → Bool
  | none => false
  | some (JSVal.str s) => decide (s ≠ "")
  | some (JSVal.num n) => decide (n ≠ 0)

/-- The characters removed by `String.prototype.trim` and skipped by
`parseFloat`: ECMAScript `WhiteSpace` and `LineTerminator`. -/
def isStrWhiteSpaceChar (c : Char) : Bool :=
  let n := c.toNat
  n == 0x09 || n == 0x0A || n == 0x0B || n == 0x0C || n == 0x0D || n == 0x20 ||
  n == 0xA0 || n == 0x1680 || (0x2000 ≤ n && n ≤ 0x200A) || n == 0x2028 ||
  n == 0x2029 || n == 0x202F || n == 0x205F || n == 0x3000 || n == 0xFEFF

/-- Strips leading white space from a character list. -/
def trimStart (cs : List Char) : List Char :=
  cs.dropWhile isStrWhiteSpaceChar

/-- JavaScript `s.trim()`. -/
def jsTrim (s : String) : String :=
  String.mk (trimStart (trimStart s.data.reverse).reverse)

/-! ## `parseFloat` -/

/-- The mathematical value read by `parseFloat` before rounding to a double:
`NaN`, a signed infinity, or `± mantissa * 10 ^ exp10`. -/
inductive ParsedFloat where
  | nan
  | infinity (neg : Bool)
  | finite (neg : Bool) (mantissa : Nat) (exp10 : Int)
deriving DecidableEq, Repr

/-- Value of a run of decimal digits. -/
def digitsValue (ds : List Char) : Nat :=
  ds.foldl (fun acc c => 10 * acc + (c.toNat - 48)) 0

/-- Reads `SignedInteger` digits: the value of the leading digit run, or
`none` when there is no digit. -/
def readDigits (cs : List Char) : Option Nat :=
  let ds := cs.takeWhile Char.isDigit
  if ds = [] then none else some (digitsValue ds)

/-- The optional `ExponentPart` of a `StrDecimalLiteral`; an exponent indicator
that is not followed by digits is not part of the longest literal prefix. -/
def parseExponent : List Char → Int
  | [] => 0
  | c :: rest =>
    if c = 'e' ∨ c = 'E' then
      match rest with
      | '+' :: r => match readDigits r with
        | some n => (n : Int)
        | none => 0
      | '-' :: r => match readDigits r with
        | some n => - (n : Int)
        | none => 0
      | r => match readDigits r with
        | some n => (n : Int)
        | none => 0
    else 0

/-- The longest prefix that is a `StrUnsignedDecimalLiteral`, with the sign
already consumed. -/
def parseUnsigned (neg : Bool) (cs : List Char) : ParsedFloat :=
  if "Infinity".data.isPrefixOf cs then ParsedFloat.infinity neg
  else
    let ip := cs.takeWhile Char.isDigit
    match cs.dropWhile Char.isDigit with
    | '.' :: r =>
      let fp := r.takeWhile Char.isDigit
      if ip = [] ∧ fp = [] then ParsedFloat.nan
      else ParsedFloat.finite neg (digitsValue (ip ++ fp))
        (parseExponent (r.dropWhile Char.isDigit) - (fp.length : Int))
    | r =>
      if ip = [] then ParsedFloat.nan
      else ParsedFloat.finite neg (digitsValue ip) (parseExponent r)

/-- JavaScript `parseFloat` on a string, up to the final rounding. -/
def parseFloat (s : String) : ParsedFloat :=
  match trimStart s.data with
  | '+' :: r => parseUnsigned false r
  | '-' :: r => parseUnsigned true r
  | r => parseUnsigned false r

/-- The comparison `x > 0` on the double nearest to the parsed value. A
positive real rounds to a double above zero exactly when it exceeds half the
least subnormal, `2 ^ (-1075)`. -/
def ParsedFloat.gtZero : ParsedFloat → Bool
  | ParsedFloat.nan => false
  | ParsedFloat.infinity neg => !neg
  | ParsedFloat.finite neg m e =>
    !neg && (if 0 ≤ e then decide (0 < m) else decide (10 ^ e.natAbs < m * 2 ^ 1075))

/-- The test `parseFloat(v) > 0` on a possibly undefined value (`parseFloat`
first converts its argument with `ToString`). -/
def parseFloatGtZero : Option JSVal → Bool
  | none => false
  | some (JSVal.str s) => (parseFloat s).gtZero
  | some (JSVal.num n) => decide (0 < n)

/-! ## Data model -/

/-- A trade entry: the object pushed by `addNewTrade`. -/
abbrev TradeEntry := Dict JSVal

/-- The ledger `trades`: week index, then day index, then the ordered rows. -/
abbrev Ledger := Nat → Option (Nat → Option (List TradeEntry))

/-- A value of the `lockedDays` table. -/
structure LockRecord where
  dateKey : String
  timestamp : Nat
deriving DecidableEq, Repr

/-- The `lockedDays` table, keyed by `"week-day"`. -/
abbrev LockTable := Dict LockRecord

/-- The staging object `pendingLossData`. -/
structure PendingLossData where
  weekIdx : Nat
  dayIdx : Nat
  rowIdx : Nat
  isSecondLoss : Bool
  amount : Option JSVal
deriving DecidableEq, Repr

/-- One toast: message and kind. -/
structure Toast where
  message : String
  kind : String
deriving DecidableEq, Repr

/-- The object `lockAlertData`. -/
structure LockAlertData where
  weekIdx : Nat
  dayIdx : Nat
  dayName : Option String
  weekName : Option String
deriving DecidableEq, Repr

/-- What the handlers read from the clock. -/
structure Env where
  today : String
  currentWeekIdx : Nat
  currentDayIdx : Nat
  now : Nat

/-- The React state of `App` used by the workflow, with the
`"yesterdayLocked"` item of local storage. -/
structure AppState where
  trades : Ledger
  lockedDays : LockTable
  hasPromised : Dict Bool
  yesterdayLocked : Option String
  pendingLossData : Option PendingLossData
  lossReasonInput : String
  confessionChecked : Bool
  showLossReasonModal : Bool
  lockAlertData : Option LockAlertData
  showPromiseModal : Bool
  promiseInput : String
  toasts : List Toast

/-- The constant `DAYS`. -/
def DAYS : List String :=
  ["Senin", "Selasa", "Rabu", "Kamis", "Jumat", "Sabtu", "Minggu"]

/-- The constant `WEEKS`. -/
def WEEKS : List String := ["Week 1", "Week 2", "Week 3", "Week 4"]

/-- The constant `MAX_LOSSES_PER_DAY`. -/
def MAX_LOSSES_PER_DAY : Nat := 2

/-- The empty ledger built by the `useState` initialiser: every week of
`WEEKS` and day of `DAYS` holds an empty list. -/
def initialTrades : Ledger := fun w =>
  if w < WEEKS.length then
    some (fun d => if d < DAYS.length then some [] else none)
  else none

/-- The state of a first visit (nothing in local storage). -/
def initialState : AppState where
  trades := initialTrades
  lockedDays := []
  hasPromised := []
  yesterdayLocked := none
  pendingLossData := none
  lossReasonInput := ""
  confessionChecked := false
  showLossReasonModal := false
  lockAlertData := none
  showPromiseModal := false
  promiseInput := ""
  toasts := []

/-! ## Queries -/

/-- The lock key: the template string of week and day index joined by a dash. -/
def lockKey (weekIdx dayIdx : Nat) : String :=
  toString weekIdx ++ "-" ++ toString dayIdx

/-- The read `trades[weekIdx]?.[dayIdx] || []`. -/
def bucketOrEmpty (trades : Ledger) (weekIdx dayIdx : Nat) : List TradeEntry :=
  match trades weekIdx with
  | none => []
  | some days => (days dayIdx).getD []

/-- The read `newTrades[weekIdx][dayIdx]`; `none` when the week is missing (a
`TypeError`) or the day is missing (`undefined`, a `TypeError` on the next
property access). -/
def bucketAt (trades : Ledger) (weekIdx dayIdx : Nat) : Option (List TradeEntry) :=
  match trades weekIdx with
  | none => none
  | some days => days dayIdx

/-- The read `trades[weekIdx][dayIdx][rowIdx]` of one entry; `none` when the
bucket or the row is missing. -/
def entryAt (trades : Ledger) (weekIdx dayIdx rowIdx : Nat) : Option TradeEntry :=
  match bucketAt trades weekIdx dayIdx with
  | none => none
  | some rows => rows[rowIdx]?

/-- The write `newTrades[weekIdx][dayIdx] = rows` on the cloned ledger,
creating the week object when absent. -/
def setBucket (trades : Ledger) (weekIdx dayIdx : Nat) (rows : List TradeEntry) : Ledger :=
  Function.update trades weekIdx
    (some (Function.update ((trades weekIdx).getD (fun _ => none)) dayIdx (some rows)))

/-- The filter callback `t.type === "loss" && t.amount && parseFloat(t.amount) > 0`. -/
def isCompletedLoss (t : TradeEntry) : Bool :=
  decide (objGet t "type" = some (JSVal.str "loss")) &&
    truthy (objGet t "amount") && parseFloatGtZero (objGet t "amount")

/-- The function `countLosses`. -/
def countLosses (trades : Ledger) (weekIdx dayIdx : Nat) : Nat :=
  ((bucketOrEmpty trades weekIdx dayIdx).filter isCompletedLoss).length

/-- The function `isDayLocked`. -/
def isDayLocked (env : Env) (lockedDays : LockTable) (weekIdx dayIdx : Nat) : Bool :=
  match objGet lockedDays (lockKey weekIdx dayIdx) with
  | some lock => decide (lock.dateKey = env.today)
  | none => false

/-- The function `isToday`. -/
def isToday (env : Env) (weekIdx dayIdx : Nat) : Bool :=
  decide (weekIdx = env.currentWeekIdx) && decide (dayIdx = env.currentDayIdx)

/-- The function `addToast`, without its removal timer. -/
def addToast (s : AppState) (message kind : String) : AppState :=
  { s with toasts := s.toasts ++ [{ message := message, kind := kind }] }

/-! ## Handlers -/

/-- The handler `addNewTrade`. -/
def addNewTrade (env : Env) (s : AppState) : AppState :=
  if isDayLocked env s.lockedDays env.currentWeekIdx env.currentDayIdx then
    addToast s "Hari ini sudah terkunci karena 2x Loss!" "error"
  else
    let rows := (bucketAt s.trades env.currentWeekIdx env.currentDayIdx).getD []
    { s with
      trades := setBucket s.trades env.currentWeekIdx env.currentDayIdx
        (rows ++ [[("type", JSVal.str ""), ("amount", JSVal.str ""),
          ("id", JSVal.num (env.now : Int))]]) }

/-- The handler `handleTradeChange`. -/
def handleTradeChange (env : Env) (s : AppState) (weekIdx dayIdx rowIdx : Nat)
    (field : String) (value : JSVal) : Option AppState :=
  if !isToday env weekIdx dayIdx then
    some (addToast s "Hanya bisa edit hari ini!" "warning")
  else if isDayLocked env s.lockedDays weekIdx dayIdx then
    some (addToast s "Hari ini sudah terkunci! Coba lagi besok." "error")
  else if field = "type" ∧ value = JSVal.str "loss" then
    match bucketAt s.trades weekIdx dayIdx with
    | none => none
    | some rows =>
      match rows[rowIdx]? with
      | none => none
      | some row =>
        some { s with
          pendingLossData := some
            { weekIdx := weekIdx, dayIdx := dayIdx, rowIdx := rowIdx,
              isSecondLoss := decide (countLosses s.trades weekIdx dayIdx ≥ 1),
              amount := objGet row "amount" },
          lossReasonInput := "",
          confessionChecked := false,
          showLossReasonModal := true }
  else
    match bucketAt s.trades weekIdx dayIdx with
    | none => none
    | some rows =>
      match rows[rowIdx]? with
      | none => none
      | some row =>
        some { s with
          trades := setBucket s.trades weekIdx dayIdx
            (rows.set rowIdx (objSet row field value)) }

/-- The handler `confirmLossWithReason`. -/
def confirmLossWithReason (env : Env) (s : AppState) : Option AppState :=
  match s.pendingLossData with
  | none => some s
  | some p =>
    if jsTrim s.lossReasonInput = "" then
      some (addToast s "Harus isi alasan kenapa loss!" "error")
    else if p.isSecondLoss && !s.confessionChecked then
      some (addToast s "Harus centang pengakuan!" "error")
    else
      match bucketAt s.trades p.weekIdx p.dayIdx with
      | none => none
      | some rows =>
        match rows[p.rowIdx]? with
        | none => none
        | some row =>
          let updatedDayTrades := rows.set p.rowIdx
            (objSet (objSet row "type" (JSVal.str "loss")) "reason"
              (JSVal.str (jsTrim s.lossReasonInput)))
          let newTrades := setBucket s.trades p.weekIdx p.dayIdx updatedDayTrades
          let completedLossCount := (updatedDayTrades.filter isCompletedLoss).length
          if completedLossCount ≥ MAX_LOSSES_PER_DAY then
            some { s with
              yesterdayLocked := some env.today,
              lockedDays := objSet s.lockedDays (lockKey p.weekIdx p.dayIdx)
                { dateKey := env.today, timestamp := env.now },
              lockAlertData := some
                { weekIdx := p.weekIdx, dayIdx := p.dayIdx,
                  dayName := DAYS[p.dayIdx]?, weekName := WEEKS[p.weekIdx]? },
              showLossReasonModal := false,
              pendingLossData := none,
              trades := newTrades }
          else
            some (addToast
              { s with trades := newTrades, showLossReasonModal := false,
                       pendingLossData := none }
              "Loss tercatat dengan alasan." "warning")

/-- The handler `cancelLossSelection`. -/
def cancelLossSelection (s : AppState) : AppState :=
  { s with showLossReasonModal := false, pendingLossData := none,
           lossReasonInput := "", confessionChecked := false }

/-- The pledge text of `submitPromise`. -/
def requiredPromise : String :=
  "Saya berjanji tidak akan mengulangi kesalahan yang sama"

/-- The handler `submitPromise`. -/
def submitPromise (env : Env) (s : AppState) : AppState :=
  if jsTrim s.promiseInput ≠ requiredPromise then
    addToast s "Ketik janji dengan benar!" "error"
  else
    addToast
      { s with hasPromised := objSet s.hasPromised env.today true,
               yesterdayLocked := none,
               showPromiseModal := false,
               promiseInput := "" }
      "Janji diterima. Semoga hari ini lebih baik!" "success"

/-- The handler `deleteTrade`. -/
def deleteTrade (env : Env) (s : AppState) (weekIdx dayIdx rowIdx : Nat) :
    Option AppState :=
  if !isToday env weekIdx dayIdx then
    some (addToast s "Hanya bisa hapus trade hari ini!" "warning")
  else
    match bucketAt s.trades weekIdx dayIdx with
    | none => none
    | some rows =>
      some (addToast
        { s with trades := setBucket s.trades weekIdx dayIdx (rows.eraseIdx rowIdx) }
        "Trade dihapus!" "success")

/-! ## The expiry sweep -/

/-- The variables of one run of `checkLocks`: the captured state value
`lockedDays`, the spread copy `updatedLocks` and the flag `changed`. -/
structure SweepVars where
  lockedDays : LockTable
  updatedLocks : LockTable
  changed : Bool
deriving DecidableEq, Repr

/-- The body of the `forEach` callback of `checkLocks` for one key. A key with
no binding in the copy leaves the variables as they are. -/
def sweepKey (today : String) (v : SweepVars) (key : String) : SweepVars :=
  match objGet v.updatedLocks key with
  | some lock =>
    if lock.dateKey ≠ today then
      { v with updatedLocks := objDelete v.updatedLocks key, changed := true }
    else v
  | none => v

/-- The loop of `checkLocks`: the copy, then the callback over
`Object.keys(updatedLocks)` taken before the first iteration. -/
def sweep (today : String) (lockedDays : LockTable) : SweepVars :=
  (objKeys lockedDays).foldl (sweepKey today)
    { lockedDays := lockedDays, updatedLocks := lockedDays, changed := false }

/-- The effect `checkLocks`: `setLockedDays(updatedLocks)` only when `changed`. -/
def checkLocks (env : Env) (s : AppState) : AppState :=
  let v := sweep env.today s.lockedDays
  if v.changed then { s with lockedDays := v.updatedLocks } else s

/-! ## Event traces -/

/-- A user or timer event of the page. -/
inductive Event where
  | addNewTrade
  | handleTradeChange (weekIdx dayIdx rowIdx : Nat) (field : String) (value : JSVal)
  | confirmLossWithReason
  | cancelLossSelection
  | deleteTrade (weekIdx dayIdx rowIdx : Nat)
  | checkLocks
  | submitPromise
  | setLossReasonInput (value : String)
  | setConfessionChecked (checked : Bool)
  | setPromiseInput (value : String)
deriving DecidableEq, Repr

/-- The state after one event; an escaped `TypeError` leaves the state as it was. -/
def step (env : Env) (s : AppState) : Event → AppState
  | Event.addNewTrade => addNewTrade env s
  | Event.handleTradeChange w d r field value =>
    (handleTradeChange env s w d r field value).getD s
  | Event.confirmLossWithReason => (confirmLossWithReason env s).getD s
  | Event.cancelLossSelection => cancelLossSelection s
  | Event.deleteTrade w d r => (deleteTrade env s w d r).getD s
  | Event.checkLocks => checkLocks env s
  | Event.submitPromise => submitPromise env s
  | Event.setLossReasonInput value => { s with lossReasonInput := value }
  | Event.setConfessionChecked checked => { s with confessionChecked := checked }
  | Event.setPromiseInput value => { s with promiseInput := value }

/-- The state after a sequence of events, each paired with the reading of
`Date.now()` at that event; the calendar day is fixed by `env`. -/
def run (env : Env) (s : AppState) (events : List (Nat × Event)) : AppState :=
  events.foldl (fun acc te => step { env with now := te.1 } acc te.2) s

/-! ## Scenarios -/

/-- A calendar day used by the scenarios: key "2026-10-5", a Thursday of the
first week of the month. -/
def scenarioEnv : Env :=
  { today := "2026-10-5", currentWeekIdx := 0, currentDayIdx := 3, now := 0 }

/-- First loss of the day: add a trade, type the amount "100", choose "loss",
give the reason "no SL" and confirm. -/
def firstLossEvents : List (Nat × Event) :=
  [(1, Event.addNewTrade),
   (2, Event.handleTradeChange 0 3 0 "amount" (JSVal.str "100")),
   (3, Event.handleTradeChange 0 3 0 "type" (JSVal.str "loss")),
   (4, Event.setLossReasonInput "no SL"),
   (5, Event.confirmLossWithReason)]

/-- Second loss of the day up to the open draft: amount "50", reason typed and
confession ticked, confirm not yet pressed. -/
def secondLossDraftEvents : List (Nat × Event) :=
  [(6, Event.addNewTrade),
   (7, Event.handleTradeChange 0 3 1 "amount" (JSVal.str "50")),
   (8, Event.handleTradeChange 0 3 1 "type" (JSVal.str "loss")),
   (9, Event.setLossReasonInput "no SL"),
   (10, Event.setConfessionChecked true)]

/-- The state in which the second loss waits for its confirmation. -/
def secondLossDraftState : AppState :=
  run scenarioEnv initialState (firstLossEvents ++ secondLossDraftEvents)

/-- The state after both losses have been confirmed (the second at time 11). -/
def lockedState : AppState :=
  step { scenarioEnv with now := 11 } secondLossDraftState Event.confirmLossWithReason

/-- Two losses entered with the amount "0" and confirmed, each amount raised
only after its confirmation. The type selector is enabled because "0" is a
non-empty amount. -/
def lateAmountEvents : List (Nat × Event) :=
  [(1, Event.addNewTrade),
   (2, Event.handleTradeChange 0 3 0 "amount" (JSVal.str "0")),
   (3, Event.handleTradeChange 0 3 0 "type" (JSVal.str "loss")),
   (4, Event.setLossReasonInput "no SL"),
   (5, Event.confirmLossWithReason),
   (6, Event.handleTradeChange 0 3 0 "amount" (JSVal.str "100")),
   (7, Event.addNewTrade),
   (8, Event.handleTradeChange 0 3 1 "amount" (JSVal.str "0")),
   (9, Event.handleTradeChange 0 3 1 "type" (JSVal.str "loss")),
   (10, Event.setLossReasonInput "revenge trade"),
   (11, Event.setConfessionChecked true),
   (12, Event.confirmLossWithReason),
   (13, Event.handleTradeChange 0 3 1 "amount" (JSVal.str "50"))]

/-- A lock table with one record of an earlier day and one of the scenario day. -/
def mixedLocks : LockTable :=
  [("0-2", { dateKey := "2026-10-4", timestamp := 7 }),
   ("0-3", { dateKey := "2026-10-5", timestamp := 11 })]

/-! ## Specification-side definitions -/

/-- Follows the specification's words for a completed loss: type "loss" and an
amount that parses to a number above zero. Compared with `isCompletedLoss`,
the callback of the source. -/
def specCompletedLoss (t : TradeEntry) : Bool :=
  decide (objGet t "type" = some (JSVal.str "loss")) && parseFloatGtZero (objGet t "amount")

/-! ## The promise gate -/

/-- The effect "check if user was locked yesterday and needs to promise",
run on load and after every change of `hasPromised`: the stored marker is
truthy when present and non-empty, `hasPromised[today]` is falsy when absent
or false. -/
def promiseCheck (env : Env) (s : AppState) : AppState :=
  let markerTruthy : Bool :=
    match s.yesterdayLocked with
    | some key => decide (key ≠ "")
    | none => false
  if markerTruthy && !((objGet s.hasPromised env.today).getD false) then
    { s with showPromiseModal := true }
  else s

/-- A visit on the scenario day with the promise modal open, a marker stored
by a lock of the day before, and the given text typed into the input. -/
def promiseModalState (input : String) : AppState :=
  { initialState with showPromiseModal := true,
                      yesterdayLocked := some "2026-10-4",
                      promiseInput := input }

/-- The locked scenario state with the pledge recorded for "2026-10-6". -/
def promisedState : AppState :=
  { lockedState with hasPromised := [("2026-10-6", true)] }

/-! ## Traces over several days -/

/-- The state after a sequence of events, each with its own reading of the
clock and calendar. -/
def runWith (s : AppState) (events : List (Env × Event)) : AppState :=
  events.foldl (fun acc ee => step ee.1 acc ee.2) s

/-- The first confirmed loss of the scenario, then the type of that entry
changed to "profit" through the selector. -/
def lossThenProfitEvents : List (Nat × Event) :=
  firstLossEvents ++ [(6, Event.handleTradeChange 0 3 0 "type" (JSVal.str "profit"))]

/-! ## Specification-side definitions: counting and reasons -/

/-- Follows the specification's words for `countLosses`: walk the bucket and
count one for each entry whose type is "loss" and whose amount is non-empty
and parses to a number above zero. -/
def specCountLosses : List TradeEntry → Nat
  | [] => 0
  | t :: rest =>
    (if objGet t "type" = some (JSVal.str "loss") ∧ truthy (objGet t "amount") = true ∧
        parseFloatGtZero (objGet t "amount") = true then 1 else 0) + specCountLosses rest

/-- The data-model sentence "reason: present only when type is loss", read on a
ledger: every entry that carries a reason has type "loss". -/
def ReasonOnlyOnLoss (trades : Ledger) : Prop :=
  ∀ (w d i : Nat) (e : TradeEntry), entryAt trades w d i = some e →
    objGet e "reason" ≠ none → objGet e "type" = some (JSVal.str "loss")

/-- An event that leaves reasons to the gate: a `handleTradeChange` whose field
is not "reason" and which, when its field is "type", addresses an entry that
carries no reason. Every other event qualifies. -/
def leavesReasonToGate (s : AppState) : Event → Bool
  | Event.handleTradeChange w d r field _ =>
    decide (field ≠ "reason") &&
      (decide (field ≠ "type") ||
        decide ((entryAt s.trades w d r).bind (fun e => objGet e "reason") = none))
  | _ => true

/-- A trace all of whose events leave reasons to the gate, each judged in the
state it is applied to. -/
def reasonsLeftToGate (s : AppState) : List (Env × Event) → Bool
  | [] => true
  | ee :: rest => leavesReasonToGate s ee.2 && reasonsLeftToGate (step ee.1 s ee.2) rest

/-- A fresh entry whose field "reason" is written directly through
`handleTradeChange`. -/
def reasonFieldEvents : List (Nat × Event) :=
  [(1, Event.addNewTrade),
   (2, Event.handleTradeChange 0 3 0 "reason" (JSVal.str "typed by hand"))]

/-- The first loss of the scenario as a trace with its calendar readings. -/
def firstLossEventsWith : List (Env × Event) :=
  firstLossEvents.map (fun te => ({ scenarioEnv with now := te.1 }, te.2))

/-! ## Totals -/

/-- The arithmetic of JavaScript numbers that the totals use, as a parameter:
the value `0`, the operators `+` and `-`, the number denoted by a parsed
literal, and the test behind `x || 0` (true for `NaN` and for zero). What is
proved for every `NumOps` holds for IEEE doubles as for exact arithmetic. -/
structure NumOps (N : Type) where
  zero : N
  add : N → N → N
  sub : N → N → N
  ofParsed : ParsedFloat → N
  isFalsy : N → Bool

/-- The literal read by `parseFloat(v)`: a number is first printed by
`ToString`, which for an integer gives back its digits. -/
def parseFloatOf : JSVal → ParsedFloat
  | JSVal.str s => parseFloat s
  | JSVal.num n => ParsedFloat.finite (decide (n < 0)) n.natAbs 0

/-- The expression `parseFloat(trade.amount) || 0`. -/
def amountOrZero {N : Type} (ops : NumOps N) (v : JSVal) : N :=
  if ops.isFalsy (ops.ofParsed (parseFloatOf v)) then ops.zero
  else ops.ofParsed (parseFloatOf v)

/-- The `reduce` callback of `calculateDayTotal`. -/
def dayTotalStep {N : Type} (ops : NumOps N) (sum : N) (trade : TradeEntry) : N :=
  match objGet trade "amount" with
  | none => sum
  | some v =>
    if !truthy (some v) then sum
    else if objGet trade "type" = some (JSVal.str "profit") then
      ops.add sum (amountOrZero ops v)
    else ops.sub sum (amountOrZero ops v)

/-- The function `calculateDayTotal`. -/
def calculateDayTotal {N : Type} (ops : NumOps N) (trades : Ledger) (weekIdx dayIdx : Nat) : N :=
  (bucketOrEmpty trades weekIdx dayIdx).foldl (dayTotalStep ops) ops.zero

/-- The function `calculateWeekTotal`: `DAYS.reduce` over the day indices. -/
def calculateWeekTotal {N : Type} (ops : NumOps N) (trades : Ledger) (weekIdx : Nat) : N :=
  (List.range DAYS.length).foldl
    (fun sum dayIdx => ops.add sum (calculateDayTotal ops trades weekIdx dayIdx)) ops.zero

/-- A JavaScript number in exact arithmetic: `NaN`, a signed infinity or a
rational. -/
inductive ExactNum where
  | nan
  | inf (neg : Bool)
  | fin (q : ℚ)
deriving DecidableEq

/-- Negation on `ExactNum`. -/
def ExactNum.neg : ExactNum → ExactNum
  | ExactNum.nan => ExactNum.nan
  | ExactNum.inf b => ExactNum.inf (!b)
  | ExactNum.fin q => ExactNum.fin (-q)

/-- Addition on `ExactNum`: opposite infinities give `NaN`. -/
def ExactNum.add : ExactNum → ExactNum → ExactNum
  | ExactNum.nan, _ => ExactNum.nan
  | _, ExactNum.nan => ExactNum.nan
  | ExactNum.inf a, ExactNum.inf b => if a = b then ExactNum.inf a else ExactNum.nan
  | ExactNum.inf a, ExactNum.fin _ => ExactNum.inf a
  | ExactNum.fin _, ExactNum.inf b => ExactNum.inf b
  | ExactNum.fin p, ExactNum.fin q => ExactNum.fin (p + q)

/-- The number model in which no operation rounds. It agrees with IEEE doubles
on every computation whose operands and results are integers below 2 ^ 53. -/
def exactOps : NumOps ExactNum where
  zero := ExactNum.fin 0
  add := ExactNum.add
  sub := fun x y => ExactNum.add x (ExactNum.neg y)
  ofParsed := fun p =>
    match p with
    | ParsedFloat.nan => ExactNum.nan
    | ParsedFloat.infinity neg => ExactNum.inf neg
    | ParsedFloat.finite neg m e =>
      ExactNum.fin ((if neg then -1 else 1) * (m : ℚ) * (10 : ℚ) ^ e)
  isFalsy := fun x =>
    match x with
    | ExactNum.nan => true
    | ExactNum.inf _ => false
    | ExactNum.fin q => decide (q = 0)

/-- The ledger after a trade was added and the amount "100" typed, the type
selector not yet touched. -/
def untypedAmountLedger : Ledger :=
  (run scenarioEnv initialState
    [(1, Event.addNewTrade),
     (2, Event.handleTradeChange 0 3 0 "amount" (JSVal.str "100"))]).trades

/-! ## Specification-side definitions: totals -/

/-- Follows the specification's words: the parsed amount of an entry, where an
empty or unparseable amount contributes 0. -/
def specAmount {N : Type} (ops : NumOps N) (t : TradeEntry) : N :=
  match objGet t "amount" with
  | none => ops.zero
  | some v => if truthy (some v) then amountOrZero ops v else ops.zero

/-- Follows the specification's words: the sum, in list order, of the parsed
amounts of the entries of one type. -/
def specSumOfType {N : Type} (ops : NumOps N) (type : String) (rows : List TradeEntry) : N :=
  (rows.filter (fun t => decide (objGet t "type" = some (JSVal.str type)))).foldl
    (fun acc t => ops.add acc (specAmount ops t)) ops.zero

/-- Follows the specification's words for the day total: the sum of the profit
amounts minus the sum of the loss amounts. -/
def specDayTotal {N : Type} (ops : NumOps N) (rows : List TradeEntry) : N :=
  ops.sub (specSumOfType ops "profit" rows) (specSumOfType ops "loss" rows)

instance instZeroExactNum : Zero ExactNum := ⟨ExactNum.fin 0⟩

instance instAddExactNum : Add ExactNum := ⟨ExactNum.add⟩

instance instAddCommMonoidExactNum : AddCommMonoid ExactNum where
  nsmul := nsmulRec
  add_assoc := by
    intro a b c
    show ExactNum.add (ExactNum.add a b) c = ExactNum.add a (ExactNum.add b c)
    rcases a with _ | (_ | _) | p <;> rcases b with _ | (_ | _) | q <;>
      rcases c with _ | (_ | _) | r <;> simp [ExactNum.add, add_assoc]
  zero_add := by
    intro a
    show ExactNum.add (ExactNum.fin 0) a = a
    cases a <;> simp [ExactNum.add]
  add_zero := by
    intro a
    show ExactNum.add a (ExactNum.fin 0) = a
    cases a <;> simp [ExactNum.add]
  add_comm := by
    intro a b
    show ExactNum.add a b = ExactNum.add b a
    rcases a with _ | (_ | _) | p <;> rcases b with _ | (_ | _) | q <;>
      simp [ExactNum.add, add_comm]

/-! ## Overall statistics -/

/-- Rounding of a rational to an integer, ties to the even neighbour. -/
def roundHalfEven (q : ℚ) : Int :=
  if q - ⌊q⌋ < 1 / 2 then ⌊q⌋
  else if 1 / 2 < q - ⌊q⌋ then ⌊q⌋ + 1
  else if ⌊q⌋ % 2 = 0 then ⌊q⌋ else ⌊q⌋ + 1

/-- The IEEE 754 double nearest to a rational `q` with `2 ^ (-1022) ≤ q <
2 ^ 1024` (round to nearest, ties to even): with `2 ^ e ≤ q < 2 ^ (e + 1)`
the 53-bit significand `q / 2 ^ (e - 52)` is rounded to an integer. Zero is
kept. These are the only arguments that occur in the win rate. -/
def roundDouble (q : ℚ) : ℚ :=
  if q ≤ 0 then 0
  else (roundHalfEven (q / (2 : ℚ) ^ (Int.log 2 q - 52)) : ℚ) * (2 : ℚ) ^ (Int.log 2 q - 52)

/-- The double computed by `(winCount / totalTrades) * 100`: both operations
round their exact result. -/
def winRateDouble (winCount totalTrades : Nat) : ℚ :=
  roundDouble (roundDouble ((winCount : ℚ) / (totalTrades : ℚ)) * 100)

/-- The integer `n` chosen by `x.toFixed(1)` for `0 ≤ x < 10 ^ 21`: `n / 10` is
as close to `x` as possible, the larger `n` on a tie. -/
def toFixedTenths (x : ℚ) : Int := ⌊10 * x + 1 / 2⌋

/-- The string that `toFixed(1)` prints for the integer `n ≥ 0`. -/
def tenthsText (n : Int) : String :=
  toString (n / 10) ++ "." ++ toString (n % 10)

/-- The value of `winRate`: the number 0, or the string printed by
`toFixed(1)`, kept as its integer of tenths. -/
inductive WinRate where
  | zero
  | fixed (tenths : Int)
deriving DecidableEq, Repr

/-- The four accumulators of `calculateStats`. The counters are natural
numbers: `++` and `+` on doubles are exact below 2 ^ 53, and 28 arrays hold
fewer than 28 * 2 ^ 32 entries. -/
structure StatsAcc (N : Type) where
  totalProfit : N
  totalLoss : N
  winCount : Nat
  lossCount : Nat

/-- The innermost `forEach` callback of `calculateStats`. -/
def statsStep {N : Type} (ops : NumOps N) (acc : StatsAcc N) (trade : TradeEntry) :
    StatsAcc N :=
  match objGet trade "amount" with
  | none => acc
  | some v =>
    if !truthy (some v) then acc
    else if objGet trade "type" = some (JSVal.str "profit") then
      { acc with totalProfit := ops.add acc.totalProfit (amountOrZero ops v),
                 winCount := acc.winCount + 1 }
    else if objGet trade "type" = some (JSVal.str "loss") then
      { acc with totalLoss := ops.add acc.totalLoss (amountOrZero ops v),
                 lossCount := acc.lossCount + 1 }
    else acc

/-- The three nested `forEach` loops of `calculateStats`. -/
def statsScan {N : Type} (ops : NumOps N) (trades : Ledger) : StatsAcc N :=
  (List.range WEEKS.length).foldl
    (fun acc weekIdx =>
      (List.range DAYS.length).foldl
        (fun acc dayIdx => (bucketOrEmpty trades weekIdx dayIdx).foldl (statsStep ops) acc)
        acc)
    { totalProfit := ops.zero, totalLoss := ops.zero, winCount := 0, lossCount := 0 }

/-- The object returned by `calculateStats`. -/
structure Stats (N : Type) where
  totalProfit : N
  totalLoss : N
  netTotal : N
  winRate : WinRate
  totalTrades : Nat

/-- The function `calculateStats`. -/
def calculateStats {N : Type} (ops : NumOps N) (trades : Ledger) : Stats N :=
  let acc := statsScan ops trades
  let totalTrades := acc.winCount + acc.lossCount
  { totalProfit := acc.totalProfit,
    totalLoss := acc.totalLoss,
    netTotal := ops.sub acc.totalProfit acc.totalLoss,
    winRate :=
      if totalTrades > 0 then
        WinRate.fixed (toFixedTenths (winRateDouble acc.winCount totalTrades))
      else WinRate.zero,
    totalTrades := totalTrades }

/-! ## Specification-side definitions: statistics -/

/-- All entries of the 4 weeks x 7 days, week by week and day by day. -/
def allEntries (trades : Ledger) : List TradeEntry :=
  ((List.range 4).map (fun w =>
    ((List.range 7).map (fun d => bucketOrEmpty trades w d)).flatten)).flatten

/-- Follows the specification's words: an entry counts as a win when its type
is "profit" and its amount is non-empty. -/
def countsAsWin (t : TradeEntry) : Bool :=
  decide (objGet t "type" = some (JSVal.str "profit")) && truthy (objGet t "amount")

/-- Follows the specification's words: an entry counts as a loss when its type
is "loss" and its amount is non-empty. -/
def countsAsLoss (t : TradeEntry) : Bool :=
  decide (objGet t "type" = some (JSVal.str "loss")) && truthy (objGet t "amount")

/-- Follows the specification's words: the number of wins of a ledger. -/
def specWins (trades : Ledger) : Nat := ((allEntries trades).filter countsAsWin).length

/-- Follows the specification's words: the number of losses of a ledger. -/
def specLosses (trades : Ledger) : Nat := ((allEntries trades).filter countsAsLoss).length

/-- Follows the specification's words: the sum, in scan order, of the parsed
amounts of the counted entries. -/
def specTotal {N : Type} (ops : NumOps N) (counted : TradeEntry → Bool) (trades : Ledger) : N :=
  ((allEntries trades).filter counted).foldl (fun acc t => ops.add acc (specAmount ops t))
    ops.zero

/-- One profit of "100" and one confirmed loss of "50" on the scenario day. -/
def winThenLossEvents : List (Nat × Event) :=
  [(1, Event.addNewTrade),
   (2, Event.handleTradeChange 0 3 0 "amount" (JSVal.str "100")),
   (3, Event.handleTradeChange 0 3 0 "type" (JSVal.str "profit")),
   (4, Event.addNewTrade),
   (5, Event.handleTradeChange 0 3 1 "amount" (JSVal.str "50")),
   (6, Event.handleTradeChange 0 3 1 "type" (JSVal.str "loss")),
   (7, Event.setLossReasonInput "late entry"),
   (8, Event.confirmLossWithReason)]

/-- The ledger after `winThenLossEvents`. -/
def winThenLossLedger : Ledger :=
  (run scenarioEnv initialState winThenLossEvents).trades

/-! ## Calendar -/

/-- The function `getTodayKey` on a date with a non-negative year: the year,
the zero-based month and the day of month, joined by dashes. -/
def getTodayKey (year month day : Nat) : String :=
  toString year ++ "-" ++ toString month ++ "-" ++ toString day

/-- The function `getCurrentDayIndex` on the native weekday number
(Sunday = 0, .., Saturday = 6). -/
def getCurrentDayIndex (dayOfWeek : Nat) : Nat :=
  if dayOfWeek = 0 then 6 else dayOfWeek - 1

/-- The function `getCurrentWeekIndex` on the day of month: `day / 7` is a
double, `Math.ceil`, the subtraction and `Math.min` are exact on it. -/
def getCurrentWeekIndex (day : Nat) : Int :=
  min (⌈roundDouble ((day : ℚ) / 7)⌉ - 1) 3

/-- The readings of the clock on a day of a month whose weekdays advance by one
per day: day `day` has native weekday `(weekdayOffset + day) % 7`. -/
def envOfDate (year month day weekdayOffset now : Nat) : Env :=
  { today := getTodayKey year month day,
    currentWeekIdx := (getCurrentWeekIndex day).toNat,
    currentDayIdx := getCurrentDayIndex ((weekdayOffset + day) % 7),
    now := now }

/-- The bucket (week index, day index) that the page uses on a day of such a
month. -/
def bucketOfDay (weekdayOffset day : Nat) : Int × Nat :=
  (getCurrentWeekIndex day, getCurrentDayIndex ((weekdayOffset + day) % 7))

/-! ## The AI service: key storage and categorisation -/

/-- The `length` of a JavaScript string: its number of UTF-16 code units. -/
def utf16Length (s : String) : Nat :=
  s.data.foldl (fun n c => n + (if c.toNat < 65536 then 1 else 2)) 0

/-- State read and written by the service module: the item
"openrouter_api_key" of `localStorage` (`none` when absent) and the map
`categoryCache`. -/
structure ServiceState where
  storedKey : Option String
  categoryCache : Dict String
deriving DecidableEq, Repr

/-- The function `getApiKey`: `localStorage.getItem(..) || ""`. -/
def getApiKey (st : ServiceState) : String :=
  st.storedKey.getD ""

/-- The function `setApiKey`. -/
def setApiKey (st : ServiceState) (key : String) : ServiceState :=
  { st with storedKey := some key }

/-- The function `hasApiKey`, as the truthiness of `key && key.length > 10`. -/
def hasApiKey (st : ServiceState) : Bool :=
  decide (getApiKey st ≠ "") && decide (utf16Length (getApiKey st) > 10)

/-- The function `clearCache`. -/
def clearCache (st : ServiceState) : ServiceState :=
  { st with categoryCache := [] }

/-- How a promise returned by the service settles. -/
inductive Settled where
  | resolves (value : String)
  | rejects (message : String)
deriving DecidableEq, Repr

/-- What the request to the external service does, as far as the service can
tell: `fetch` throws; the response has `ok` false; the response is ok but
`response.json()` rejects or reading `choices[0].message.content.trim()` raises
a `TypeError`; the optional chain ends in `undefined` or `null`; or the chain
reaches the string `text`. -/
inductive FetchOutcome where
  | rejects
  | notOk
  | unreadable
  | noContent
  | content (text : String)
deriving DecidableEq, Repr

/-- Whether a character is one of the two quotes of `/^["']|["']$/g`. -/
def isQuoteChar (c : Char) : Bool :=
  c.toNat = 34 || c.toNat = 39

/-- The replacement `.replace(/^["']|["']$/g, "")`: one quote is removed at the
start, then one at the end of what is left. -/
def stripQuotes (cs : List Char) : List Char :=
  let afterStart :=
    match cs with
    | [] => []
    | c :: rest => if isQuoteChar c then rest else c :: rest
  match afterStart.getLast? with
  | some c => if isQuoteChar c then afterStart.dropLast else afterStart
  | none => afterStart

/-- The line terminators, which `.` does not match. -/
def isLineTerminator (c : Char) : Bool :=
  c.toNat = 10 || c.toNat = 13 || c.toNat = 8232 || c.toNat = 8233

/-- The replacement `.replace(/\n.*/g, "")`: every line feed is removed together
with the characters after it up to the next line terminator. -/
def removeNewlineRuns : Bool → List Char → List Char
  | _, [] => []
  | inMatch, c :: rest =>
    if c.toNat = 10 then removeNewlineRuns true rest
    else if inMatch && !isLineTerminator c then removeNewlineRuns true rest
    else c :: removeNewlineRuns false rest

/-- The clean-up of a category in `categorizeReason`. -/
def cleanCategory (category : String) : String :=
  jsTrim (String.mk (removeNewlineRuns false (stripQuotes category.data)))

/-- The first `n` UTF-16 code units of a text. A surrogate pair cut in the
middle leaves a lone surrogate in JavaScript, which a string here cannot hold:
it is dropped. -/
def takeUtf16 : Nat → List Char → List Char
  | _, [] => []
  | n, c :: rest =>
    if n = 0 then []
    else if c.toNat < 65536 then c :: takeUtf16 (n - 1) rest
    else if n = 1 then []
    else c :: takeUtf16 (n - 2) rest

/-- The value returned by the `catch` block of `categorizeReason`:
`reason.length > 25 ? reason.substring(0, 25) + "..." : reason`. -/
def fallbackLabel (reason : String) : String :=
  if utf16Length reason > 25 then String.mk (takeUtf16 25 reason.data) ++ "..." else reason

/-- One call of `categorizeReason`: how it settles, the state it leaves and the
number of requests it sent. -/
structure CategorizeResult where
  result : Settled
  service : ServiceState
  requests : Nat
deriving DecidableEq, Repr

/-- The function `categorizeReason`. `toLowerCase` is the method of that name,
which depends on the Unicode tables; `outcome` is what the request does if it
is sent. -/
def categorizeReason (toLowerCase : String → String) (st : ServiceState) (reason : String)
    (outcome : FetchOutcome) : CategorizeResult :=
  let cacheKey := jsTrim (toLowerCase reason)
  match objGet st.categoryCache cacheKey with
  | some label => { result := Settled.resolves label, service := st, requests := 0 }
  | none =>
    if getApiKey st = "" then
      { result := Settled.rejects "API key not configured", service := st, requests := 0 }
    else
      let succeed (content : String) : CategorizeResult :=
        let category := if jsTrim content = "" then reason else jsTrim content
        { result := Settled.resolves (cleanCategory category),
          service := { st with
            categoryCache := objSet st.categoryCache cacheKey (cleanCategory category) },
          requests := 1 }
      match outcome with
      | FetchOutcome.content text => succeed text
      | FetchOutcome.noContent => succeed ""
      | _ => { result := Settled.resolves (fallbackLabel reason), service := st, requests := 1 }

/-- ASCII lower-casing: `toLowerCase` on a text whose upper-case letters are
all ASCII. -/
def asciiLower (s : String) : String :=
  String.mk (s.data.map Char.toLower)

/-- State of the page `RegretPage` around its settings form. `aiCategories`
keeps the count of each category. -/
structure RegretState where
  service : ServiceState
  apiKeyInput : String
  showSettings : Bool
  error : String
  aiCategories : Dict Nat
deriving DecidableEq, Repr

/-- The handler `saveApiKey` of `RegretPage`. -/
def saveApiKey (s : RegretState) : RegretState :=
  if utf16Length (jsTrim s.apiKeyInput) < 10 then
    { s with error := "API key terlalu pendek" }
  else
    { s with
      service := clearCache (setApiKey s.service (jsTrim s.apiKeyInput)),
      showSettings := false,
      apiKeyInput := "",
      aiCategories := [] }

/-- A settings form in which a key of ten characters has been typed; no key is
stored yet. -/
def tenCharKeyState : RegretState :=
  { service := { storedKey := none, categoryCache := [] },
    apiKeyInput := "sk-or-v1-x", showSettings := true, error := "", aiCategories := [] }

/-- A service with a key stored and nothing cached. -/
def keyedService : ServiceState :=
  { storedKey := some "sk-or-v1-0123456789", categoryCache := [] }

/-! ## The AI service: reactions and summaries -/

/-- The pool `FALLBACK_WIN_REACTIONS`. -/
def FALLBACK_WIN_REACTIONS : List String :=
  ["Profit $AMOUNT! 🔥 Mantap jiwa! Tapi inget ya, satu trade profit bukan berarti kamu Warren Buffett. Stay humble! 😎",
   "CUAN $AMOUNT! 💰 Gas terus! Tapi jangan lupa take profit, jangan sampe unrealized profit jadi realized loss 🤡",
   "Ijo $AMOUNT! 🌿 Alhamdulillah rezeki. Tapi jangan keenakan, market bisa balik kapan aja. Lock profit! 🔒",
   "+$AMOUNT masuk kantong! 🎯 Skill atau hoki? Yang penting profit dulu! Jangan lupa catat strateginya biar bisa diulang 📝",
   "Profit $AMOUNT! ✅ Selamat! Tapi inget, overconfidence adalah musuh trader. Next trade tetap disiplin ya! 💪",
   "CUAN $AMOUNT! 🚀 Mantul! Sekarang reward yourself, tapi jangan langsung all-in lagi ya. Slow and steady! 🐢"]

/-- The pool `FALLBACK_LOSS_REACTIONS`. -/
def FALLBACK_LOSS_REACTIONS : List String :=
  ["Loss $AMOUNT... 😬 Yaudah gapapa, anggap bayar SPP belajar trading. Yang penting jangan ulangi kesalahan yang sama! 💪",
   "-$AMOUNT yah... 🥲 It's okay, even the best traders lose. Yang bedain trader pro sama amateur itu gimana handle loss-nya. Bangkit! 🔥",
   "Minus $AMOUNT... 😔 Gapapa, loss itu bagian dari game. Review apa yang salah, catat, dan move on. Besok perang lagi! ⚔️",
   "Loss $AMOUNT 📉 Ouch. Tapi hey, setidaknya kamu jujur catat. Itu step pertama jadi trader disiplin. Keep going! 🎯",
   "-$AMOUNT masuk ke market 😅 Yaudah, kasih makan bandar. Besok ambil balik! Yang penting mental jangan down. 💎",
   "Duit $AMOUNT gone... 🫠 Gpp, trading itu marathon bukan sprint. Satu loss ga define kamu. Evaluasi dan lanjut! 🏃"]

/-- The pool `FALLBACK_SUMMARY_WIN`. -/
def FALLBACK_SUMMARY_WIN : List String :=
  ["Hari ini ijo! 🌿 Total AMOUNT. Good job! Tapi jangan keenakan, besok tetap harus disiplin. Rest well dan prepare for tomorrow! 😴",
   "Profit AMOUNT hari ini! 🔥 Mantap! Sekarang tutup chart, nikmati profit-nya. Jangan greedy mau nambah-nambah lagi ya! 🛑",
   "Today was a good day! +AMOUNT 💰 Inget, consistency is key. Jangan ubah strategy cuma gara-gara satu hari profit. Stay the course! 🎯"]

/-- The pool `FALLBACK_SUMMARY_LOSS`. -/
def FALLBACK_SUMMARY_LOSS : List String :=
  ["Hari ini merah AMOUNT... 😔 Gapapa, every trader punya bad days. Review mistakes, learn, dan besok bangkit lagi! 💪",
   "Minus AMOUNT today 📉 Ouch. Tapi hey, loss hari ini bukan end of the world. Evaluate, rest, come back stronger tomorrow! 🔥",
   "Hari yang berat, -AMOUNT 🥲 It happens. Yang penting: 1) Jangan revenge trade, 2) Catat lesson learned, 3) Rest. Besok hari baru! ☀️"]

/-- `GetSubstitution` of ECMAScript for a pattern without capture groups, read
over the replacement text: "$$" gives a dollar sign, "$&" the matched text,
a dollar sign before a grave accent (code 96) the text before the match, before
an apostrophe (code 39) the text after it; a dollar sign before anything else
(a digit included, as there is no group to refer to) stands for itself.
`pending` tells that the character just read was a dollar sign not yet
written. -/
def getSubstitutionFrom (matched before after : List Char) : Bool → List Char → List Char
  | pending, [] => if pending then ['$'] else []
  | pending, c :: rest =>
    if pending then
      if c = '$' then '$' :: getSubstitutionFrom matched before after false rest
      else if c = '&' then matched ++ getSubstitutionFrom matched before after false rest
      else if c.toNat = 96 then before ++ getSubstitutionFrom matched before after false rest
      else if c.toNat = 39 then after ++ getSubstitutionFrom matched before after false rest
      else '$' :: c :: getSubstitutionFrom matched before after false rest
    else if c = '$' then getSubstitutionFrom matched before after true rest
    else c :: getSubstitutionFrom matched before after false rest

/-- The text that `replace` writes for one match. -/
def getSubstitution (matched before after replacement : List Char) : List Char :=
  getSubstitutionFrom matched before after false replacement

/-- The call `reaction.replace(/\$?AMOUNT/g, replacement)` from a position of
the subject: `before` holds the characters already passed and `skip` the
characters of the current match still to pass. -/
def replaceAmountFrom (replacement : List Char) : List Char → Nat → List Char → List Char
  | _, _, [] => []
  | before, skip + 1, c :: rest => replaceAmountFrom replacement (before ++ [c]) skip rest
  | before, 0, c :: rest =>
    if "$AMOUNT".data.isPrefixOf (c :: rest) then
      getSubstitution "$AMOUNT".data before (rest.drop 6) replacement ++
        replaceAmountFrom replacement (before ++ [c]) 6 rest
    else if "AMOUNT".data.isPrefixOf (c :: rest) then
      getSubstitution "AMOUNT".data before (rest.drop 5) replacement ++
        replaceAmountFrom replacement (before ++ [c]) 5 rest
    else c :: replaceAmountFrom replacement (before ++ [c]) 0 rest

/-- The template with its placeholders replaced, as `getRandomFallback` does it:
the replacement text is a dollar sign followed by `formatted`, the text of
`Math.abs(amount).toLocaleString()`. -/
def fillAmount (reaction formatted : String) : String :=
  String.mk (replaceAmountFrom ('$' :: formatted.data) [] 0 reaction.data)

/-- The function `getRandomFallback`. `random` is the value of `Math.random()`;
its product with the length is a double and `Math.floor` is exact. An index
outside the array would raise a `TypeError` (`none`). For a product below
`2 ^ (-1022)` `roundDouble` is not the double, but both have floor 0. -/
def getRandomFallback (random : ℚ) (array : List String) (formatted : String) :
    Option String :=
  match array[(⌊roundDouble (random * (array.length : ℚ))⌋).toNat]? with
  | some reaction => some (fillAmount reaction formatted)
  | none => none

/-- The function `getTradeReaction`; `none` is a rejected promise. `formatted`
is the text of `Math.abs(amount).toLocaleString()`, `random1` the value of
`Math.random()` in the first call of `getRandomFallback` and `random2` its
value in the `catch` block. The prompt does not enter the result. -/
def getTradeReaction (st : ServiceState) (random1 random2 : ℚ) (type : JSVal)
    (formatted : String) (outcome : FetchOutcome) : Option String :=
  let pool :=
    if type = JSVal.str "profit" then FALLBACK_WIN_REACTIONS else FALLBACK_LOSS_REACTIONS
  if getApiKey st = "" then getRandomFallback random1 pool formatted
  else
    let attempt : Option String :=
      match outcome with
      | FetchOutcome.rejects => none
      | FetchOutcome.unreadable => none
      | FetchOutcome.notOk => getRandomFallback random1 pool formatted
      | FetchOutcome.noContent => getRandomFallback random1 pool formatted
      | FetchOutcome.content text =>
        if jsTrim text = "" then getRandomFallback random1 pool formatted
        else some (jsTrim text)
    match attempt with
    | some reaction => some reaction
    | none => getRandomFallback random2 pool formatted

/-- The comparison `x >= 0` on a number. -/
def ExactNum.geZero : ExactNum → Bool
  | ExactNum.nan => false
  | ExactNum.inf neg => !neg
  | ExactNum.fin q => decide (0 ≤ q)

/-- The function `getDailySummary` on an array of entries; `none` is a rejected
promise. The entries enter the prompt only. -/
def getDailySummary (st : ServiceState) (random1 random2 : ℚ) (_todayTrades : List TradeEntry)
    (dayTotal : ExactNum) (formatted : String) (outcome : FetchOutcome) : Option String :=
  let pool := if dayTotal.geZero then FALLBACK_SUMMARY_WIN else FALLBACK_SUMMARY_LOSS
  if getApiKey st = "" then getRandomFallback random1 pool formatted
  else
    let attempt : Option String :=
      match outcome with
      | FetchOutcome.rejects => none
      | FetchOutcome.unreadable => none
      | FetchOutcome.notOk => getRandomFallback random1 pool formatted
      | FetchOutcome.noContent => getRandomFallback random1 pool formatted
      | FetchOutcome.content text =>
        if jsTrim text = "" then getRandomFallback random1 pool formatted
        else some (jsTrim text)
    match attempt with
    | some summary => some summary
    | none => getRandomFallback random2 pool formatted

/-- Follows the specification's words: every placeholder "AMOUNT", with the
dollar sign in front of it when there is one, is replaced by the text `filling`
as it stands. Compared with `replaceAmountFrom`, which reads the replacement
text with the dollar patterns of `replace`. -/
def specFillFrom (filling : List Char) : Nat → List Char → List Char
  | _, [] => []
  | skip + 1, _ :: rest => specFillFrom filling skip rest
  | 0, c :: rest =>
    if "$AMOUNT".data.isPrefixOf (c :: rest) then filling ++ specFillFrom filling 6 rest
    else if "AMOUNT".data.isPrefixOf (c :: rest) then filling ++ specFillFrom filling 5 rest
    else c :: specFillFrom filling 0 rest

/-- A formatted amount that `replace` inserts as it stands and that brings no
new placeholder: no dollar sign, no capital A, and not starting with an
ampersand, a grave accent or an apostrophe. The texts of `toLocaleString` for a
number (digits, separators, "NaN", "∞") are of this kind. -/
def plainAmountText (f : List Char) : Bool :=
  f.all (fun c => c != '$' && c != 'A') &&
    match f with
    | [] => true
    | d :: _ => d != '&' && d.toNat != 96 && d.toNat != 39

/-- A service with no key stored. -/
def keylessService : ServiceState :=
  { storedKey := none, categoryCache := [] }

/-! ## Property lists -/

theorem objGet_objSet_self {α : Type} (o : Dict α) (k : String) (v : α) :
    objGet (objSet o k v) k = some v := by
  induction o with
  | nil => simp [objSet, objGet]
  | cons kv rest ih =>
    obtain ⟨k0, x⟩ := kv
    by_cases h : k0 = k
    · simp [objSet, objGet, h]
    · simp [objSet, objGet, h, ih]

theorem objGet_objSet_ne {α : Type} (o : Dict α) (k k1 : String) (v : α) (h : k1 ≠ k) :
    objGet (objSet o k v) k1 = objGet o k1 := by
  induction o with
  | nil => simp [objSet, objGet, Ne.symm h]
  | cons kv rest ih =>
    obtain ⟨k0, x⟩ := kv
    by_cases h0 : k0 = k
    · subst h0
      simp [objSet, objGet, Ne.symm h]
    · by_cases h1 : k0 = k1
      · subst h1
        simp [objSet, objGet, h0]
      · simp [objSet, objGet, h0, h1, ih]

theorem objGet_objDelete {α : Type} (o : Dict α) (k k1 : String) :
    objGet (objDelete o k) k1 = if k1 = k then none else objGet o k1 := by
  induction o with
  | nil => simp [objDelete, objGet]
  | cons kv rest ih =>
    obtain ⟨k0, x⟩ := kv
    simp only [objDelete] at ih
    by_cases h0 : k0 = k
    · subst h0
      by_cases h1 : k1 = k0
      · subst h1
        simpa [objDelete, List.filter_cons] using ih
      · have h2 : ¬ k0 = k1 := fun e => h1 e.symm
        simpa [objDelete, List.filter_cons, objGet, h1, h2] using ih
    · by_cases h1 : k0 = k1
      · subst h1
        simp [objDelete, List.filter_cons, objGet, h0]
      · simpa [objDelete, List.filter_cons, objGet, h0, h1] using ih

theorem objGet_isSome_iff_mem_keys {α : Type} (o : Dict α) (k : String) :
    (objGet o k).isSome = true ↔ k ∈ objKeys o := by
  induction o with
  | nil => simp [objGet, objKeys]
  | cons kv rest ih =>
    obtain ⟨k0, x⟩ := kv
    by_cases h : k0 = k
    · simp [objGet, objKeys, h]
    · have h2 : ¬ k = k0 := fun e => h e.symm
      simpa [objGet, objKeys, h, h2] using ih

/-! ## Ledger reads and writes -/

theorem bucketOrEmpty_eq (trades : Ledger) (w d : Nat) :
    bucketOrEmpty trades w d = (bucketAt trades w d).getD [] := by
  unfold bucketOrEmpty bucketAt
  cases trades w <;> rfl

theorem bucketAt_setBucket_self (trades : Ledger) (w d : Nat) (rows : List TradeEntry) :
    bucketAt (setBucket trades w d rows) w d = some rows := by
  simp [bucketAt, setBucket]

theorem bucketAt_setBucket_ne (trades : Ledger) (w d w1 d1 : Nat) (rows : List TradeEntry)
    (h : ¬ (w1 = w ∧ d1 = d)) :
    bucketAt (setBucket trades w d rows) w1 d1 = bucketAt trades w1 d1 := by
  unfold bucketAt setBucket
  by_cases hw : w1 = w
  · subst hw
    have hd : d1 ≠ d := fun e => h ⟨rfl, e⟩
    cases hx : trades w1 <;> simp [Function.update_noteq hd]
  · simp [Function.update_noteq hw]

theorem countLosses_setBucket_self (trades : Ledger) (w d : Nat) (rows : List TradeEntry) :
    countLosses (setBucket trades w d rows) w d = (rows.filter isCompletedLoss).length := by
  simp [countLosses, bucketOrEmpty_eq, bucketAt_setBucket_self]

theorem countLosses_of_bucketAt (trades : Ledger) (w d : Nat) (rows : List TradeEntry)
    (h : bucketAt trades w d = some rows) :
    countLosses trades w d = (rows.filter isCompletedLoss).length := by
  simp [countLosses, bucketOrEmpty_eq, h]

/-! ## Completed losses -/

theorem truthy_of_parseFloatGtZero (v : Option JSVal) (h : parseFloatGtZero v = true) :
    truthy v = true := by
  cases v with
  | none => simp [parseFloatGtZero] at h
  | some x =>
    cases x with
    | str s =>
      by_cases hs : s = ""
      · subst hs
        revert h
        decide
      · simp [truthy, hs]
    | num n =>
      simp only [parseFloatGtZero, decide_eq_true_eq] at h
      simp only [truthy, decide_eq_true_eq]
      omega

theorem isCompletedLoss_eq_spec (t : TradeEntry) : isCompletedLoss t = specCompletedLoss t := by
  unfold isCompletedLoss specCompletedLoss
  cases hp : parseFloatGtZero (objGet t "amount")
  · simp
  · simp [truthy_of_parseFloatGtZero _ hp]

theorem filter_set_length_le {α : Type} (q : α → Bool) (l : List α) (i : Nat) (x : α) :
    ((l.set i x).filter q).length ≤ (l.filter q).length + 1 := by
  induction l generalizing i with
  | nil => simp
  | cons a rest ih =>
    cases i with
    | zero =>
      simp only [List.set_cons_zero, List.filter_cons]
      cases q x <;> cases q a <;> first | (simp; done) | (simp; omega)
    | succ j =>
      have := ih j
      simp only [List.set_cons_succ, List.filter_cons]
      cases q a <;> simp <;> omega

/-! ## The loss-disclosure gate: lock creation -/

/-- An accepted confirm: the shape of the state it returns. -/
theorem confirmLossWithReason_accept (env : Env) (s : AppState) (p : PendingLossData)
    (rows : List TradeEntry) (row : TradeEntry)
    (hp : s.pendingLossData = some p)
    (hrows : bucketAt s.trades p.weekIdx p.dayIdx = some rows)
    (hrow : rows[p.rowIdx]? = some row)
    (hreason : jsTrim s.lossReasonInput ≠ "")
    (hconf : p.isSecondLoss = true → s.confessionChecked = true) :
    ∃ s1, confirmLossWithReason env s = some s1 ∧
      s1.trades = setBucket s.trades p.weekIdx p.dayIdx
        (rows.set p.rowIdx (objSet (objSet row "type" (JSVal.str "loss")) "reason"
          (JSVal.str (jsTrim s.lossReasonInput)))) ∧
      s1.pendingLossData = none ∧
      s1.showLossReasonModal = false ∧
      (2 ≤ countLosses s1.trades p.weekIdx p.dayIdx →
        s1.lockedDays = objSet s.lockedDays (lockKey p.weekIdx p.dayIdx)
          { dateKey := env.today, timestamp := env.now } ∧
        s1.yesterdayLocked = some env.today) ∧
      (countLosses s1.trades p.weekIdx p.dayIdx < 2 →
        s1.lockedDays = s.lockedDays ∧ s1.yesterdayLocked = s.yesterdayLocked) := by
  have hgate : (p.isSecondLoss && !s.confessionChecked) = false := by
    cases h1 : p.isSecondLoss
    · rfl
    · simp [hconf h1]
  by_cases hc : MAX_LOSSES_PER_DAY ≤ ((rows.set p.rowIdx (objSet (objSet row "type"
      (JSVal.str "loss")) "reason" (JSVal.str (jsTrim s.lossReasonInput)))).filter
      isCompletedLoss).length
  · simp only [confirmLossWithReason, hp, hreason, hgate, hrows, hrow, if_false,
      Bool.false_eq_true, ge_iff_le, hc, if_true]
    refine ⟨_, rfl, rfl, rfl, rfl, fun _ => ⟨rfl, rfl⟩, fun h => ?_⟩
    exfalso
    simp only [countLosses_setBucket_self] at h
    unfold MAX_LOSSES_PER_DAY at hc
    omega
  · simp only [confirmLossWithReason, hp, hreason, hgate, hrows, hrow, if_false,
      Bool.false_eq_true, ge_iff_le, hc]
    refine ⟨_, rfl, rfl, rfl, rfl, fun h => ?_, fun _ => ⟨rfl, rfl⟩⟩
    exfalso
    simp only [addToast, countLosses_setBucket_self] at h
    unfold MAX_LOSSES_PER_DAY at hc
    omega

/-- C1: with an open draft for bucket (w,d) on an in-range row, a reason that
is non-blank after trimming and the confession ticked whenever the draft is a
second loss, `confirmLossWithReason` returns a state in which, when the bucket
now counts two or more completed losses (type "loss" and amount parsing above
zero), the lock table holds under key "w-d" the record dated today and stamped
now, every other key reads as before and the "yesterdayLocked" marker is
today's key; when it counts fewer than two, the lock table and the marker are
unchanged. A bucket without a completed loss before the confirm counts at most
one afterwards and gets no lock record. -/
theorem confirmLossWithReason_locks_iff_two_losses (env : Env) (s : AppState)
    (p : PendingLossData) (rows : List TradeEntry)
    (hp : s.pendingLossData = some p)
    (hrows : bucketAt s.trades p.weekIdx p.dayIdx = some rows)
    (hr : p.rowIdx < rows.length)
    (hreason : jsTrim s.lossReasonInput ≠ "")
    (hconf : p.isSecondLoss = true → s.confessionChecked = true) :
    ∃ s1, confirmLossWithReason env s = some s1 ∧
      countLosses s1.trades p.weekIdx p.dayIdx =
        ((bucketOrEmpty s1.trades p.weekIdx p.dayIdx).filter specCompletedLoss).length ∧
      (2 ≤ countLosses s1.trades p.weekIdx p.dayIdx →
        objGet s1.lockedDays (lockKey p.weekIdx p.dayIdx) =
          some { dateKey := env.today, timestamp := env.now } ∧
        (∀ k, k ≠ lockKey p.weekIdx p.dayIdx →
          objGet s1.lockedDays k = objGet s.lockedDays k) ∧
        s1.yesterdayLocked = some env.today) ∧
      (countLosses s1.trades p.weekIdx p.dayIdx < 2 →
        s1.lockedDays = s.lockedDays ∧ s1.yesterdayLocked = s.yesterdayLocked) ∧
      (countLosses s.trades p.weekIdx p.dayIdx = 0 →
        countLosses s1.trades p.weekIdx p.dayIdx ≤ 1 ∧
        s1.lockedDays = s.lockedDays ∧ s1.yesterdayLocked = s.yesterdayLocked) := by
  obtain ⟨row, hrow⟩ : ∃ row, rows[p.rowIdx]? = some row :=
    ⟨rows[p.rowIdx], List.getElem?_eq_getElem hr⟩
  obtain ⟨s1, h1, htr, _, _, hge, hlt⟩ :=
    confirmLossWithReason_accept env s p rows row hp hrows hrow hreason hconf
  refine ⟨s1, h1, ?_, fun h => ?_, hlt, fun h0 => ?_⟩
  · unfold countLosses
    congr 1
    exact List.filter_congr (fun t _ => isCompletedLoss_eq_spec t)
  · obtain ⟨hl, hm⟩ := hge h
    refine ⟨?_, fun k hk => ?_, hm⟩
    · rw [hl, objGet_objSet_self]
    · rw [hl, objGet_objSet_ne _ _ _ _ hk]
  · have hcount : countLosses s1.trades p.weekIdx p.dayIdx ≤ 1 := by
      rw [htr, countLosses_setBucket_self]
      have := filter_set_length_le isCompletedLoss rows p.rowIdx
        (objSet (objSet row "type" (JSVal.str "loss")) "reason"
          (JSVal.str (jsTrim s.lossReasonInput)))
      rw [countLosses_of_bucketAt _ _ _ _ hrows] at h0
      omega
    exact ⟨hcount, hlt (by omega)⟩

/-- C1, the scenario of the specification: after the first loss (amount "100",
reason "no SL") the bucket counts one completed loss and has no lock; the
confirm of the second loss (amount "50") gives count two, a lock record dated
today under key "0-3" and the marker armed. -/
theorem confirmLossWithReason_locks_iff_two_losses_witness :
    countLosses (run scenarioEnv initialState firstLossEvents).trades 0 3 = 1 ∧
    (run scenarioEnv initialState firstLossEvents).lockedDays = [] ∧
    (run scenarioEnv initialState firstLossEvents).yesterdayLocked = none ∧
    ∃ s1, confirmLossWithReason { scenarioEnv with now := 11 } secondLossDraftState = some s1 ∧
      countLosses s1.trades 0 3 = 2 ∧
      objGet s1.lockedDays "0-3" = some { dateKey := "2026-10-5", timestamp := 11 } ∧
      s1.yesterdayLocked = some "2026-10-5" := by
  refine ⟨by decide, by decide, by decide, ?_⟩
  obtain ⟨s1, h1, _, hge, _, _⟩ :=
    confirmLossWithReason_locks_iff_two_losses { scenarioEnv with now := 11 }
      secondLossDraftState
      { weekIdx := 0, dayIdx := 3, rowIdx := 1, isSecondLoss := true,
        amount := some (JSVal.str "50") }
      [[("type", JSVal.str "loss"), ("amount", JSVal.str "100"), ("id", JSVal.num 1),
        ("reason", JSVal.str "no SL")],
       [("type", JSVal.str ""), ("amount", JSVal.str "50"), ("id", JSVal.num 6)]]
      (by decide) (by decide) (by decide) (by decide) (by decide)
  have hs1 : s1 = lockedState := by
    have h2 : confirmLossWithReason { scenarioEnv with now := 11 } secondLossDraftState
        = some lockedState := by
      unfold lockedState step
      cases h : confirmLossWithReason { scenarioEnv with now := 11 } secondLossDraftState with
      | none => rw [h] at h1; cases h1
      | some x => rfl
    rw [h2] at h1
    exact (Option.some.inj h1).symm
  have hc : countLosses s1.trades 0 3 = 2 := by
    rw [hs1]
    decide
  obtain ⟨hk, _, hm⟩ := hge (by simp only [hc]; exact le_refl 2)
  exact ⟨s1, h1, hc, hk, hm⟩

/-! ## The lock predicate -/

/-- C2: for every lock table, today key and bucket (w,d), `isDayLocked` is true
exactly when the table holds under key "w-d" a record whose `dateKey` is
today's key; for the same table read on a day whose key differs from the
record's `dateKey`, `isDayLocked` is false, no unlock having run. -/
theorem isDayLocked_iff_record_dated_today (env : Env) (lockedDays : LockTable)
    (w d : Nat) :
    lockKey w d = toString w ++ "-" ++ toString d ∧
    (isDayLocked env lockedDays w d = true ↔
      ∃ r, objGet lockedDays (lockKey w d) = some r ∧ r.dateKey = env.today) ∧
    (∀ r later, objGet lockedDays (lockKey w d) = some r → later ≠ r.dateKey →
      isDayLocked { env with today := later } lockedDays w d = false) := by
  refine ⟨rfl, ?_, ?_⟩
  · unfold isDayLocked
    cases h : objGet lockedDays (lockKey w d) with
    | none => simp
    | some lock => simp
  · intro r later hr hne
    unfold isDayLocked
    simp only [hr, decide_eq_false_iff_not]
    exact fun e => hne e.symm

/-- C2 on the locked scenario state: bucket (0,3) is locked on "2026-10-5" and
reads as unlocked on "2026-10-6" with the same table. -/
theorem isDayLocked_iff_record_dated_today_witness :
    isDayLocked scenarioEnv lockedState.lockedDays 0 3 = true ∧
    isDayLocked { scenarioEnv with today := "2026-10-6" } lockedState.lockedDays 0 3 = false :=
  ⟨(isDayLocked_iff_record_dated_today scenarioEnv lockedState.lockedDays 0 3).2.1.mpr
      ⟨{ dateKey := "2026-10-5", timestamp := 11 }, by decide, rfl⟩,
    (isDayLocked_iff_record_dated_today scenarioEnv lockedState.lockedDays 0 3).2.2
      { dateKey := "2026-10-5", timestamp := 11 } "2026-10-6" (by decide) (by decide)⟩

/-! ## The loss-disclosure gate: validation -/

/-- C3: `confirmLossWithReason` is rejected, with the ledger, the lock table,
the "yesterdayLocked" marker and the open draft (with its reason input,
checkbox and modal) unchanged, (a) whenever the reason is empty after trimming,
whatever the checkbox holds, and (b) whenever the draft is a second loss and
the checkbox is unticked, whatever the reason holds; (c) for a draft that is
not a second loss the checkbox does not influence the outcome. -/
theorem confirmLossWithReason_rejects (env : Env) (s : AppState) :
    (jsTrim s.lossReasonInput = "" →
      ∃ s1, confirmLossWithReason env s = some s1 ∧
        s1.trades = s.trades ∧ s1.lockedDays = s.lockedDays ∧
        s1.yesterdayLocked = s.yesterdayLocked ∧
        s1.pendingLossData = s.pendingLossData ∧
        s1.lossReasonInput = s.lossReasonInput ∧
        s1.confessionChecked = s.confessionChecked ∧
        s1.showLossReasonModal = s.showLossReasonModal ∧
        (s.pendingLossData ≠ none →
          s1.toasts = s.toasts ++
            [{ message := "Harus isi alasan kenapa loss!", kind := "error" }])) ∧
    (∀ p, s.pendingLossData = some p → p.isSecondLoss = true →
      s.confessionChecked = false →
      ∃ s1, confirmLossWithReason env s = some s1 ∧
        s1.trades = s.trades ∧ s1.lockedDays = s.lockedDays ∧
        s1.yesterdayLocked = s.yesterdayLocked ∧
        s1.pendingLossData = s.pendingLossData ∧
        s1.lossReasonInput = s.lossReasonInput ∧
        s1.confessionChecked = s.confessionChecked ∧
        s1.showLossReasonModal = s.showLossReasonModal ∧
        ∃ t, s1.toasts = s.toasts ++ [t] ∧ t.kind = "error") ∧
    (∀ p, s.pendingLossData = some p → p.isSecondLoss = false →
      ∀ b : Bool, confirmLossWithReason env { s with confessionChecked := b } =
        (confirmLossWithReason env s).map (fun s1 => { s1 with confessionChecked := b })) := by
  refine ⟨fun hblank => ?_, fun p hp hsecond hunticked => ?_, fun p hp hfirst b => ?_⟩
  · by_cases hnone : s.pendingLossData = none
    · exact ⟨s, by simp [confirmLossWithReason, hnone], rfl, rfl, rfl, rfl, rfl, rfl, rfl,
        fun h => absurd hnone h⟩
    · obtain ⟨p, hp⟩ := Option.ne_none_iff_exists'.mp hnone
      exact ⟨addToast s "Harus isi alasan kenapa loss!" "error",
        by simp [confirmLossWithReason, hp, hblank], rfl, rfl, rfl, rfl, rfl, rfl, rfl,
        fun _ => rfl⟩
  · by_cases hblank : jsTrim s.lossReasonInput = ""
    · exact ⟨addToast s "Harus isi alasan kenapa loss!" "error",
        by simp [confirmLossWithReason, hp, hblank], rfl, rfl, rfl, rfl, rfl, rfl, rfl,
        ⟨_, rfl, rfl⟩⟩
    · exact ⟨addToast s "Harus centang pengakuan!" "error",
        by simp [confirmLossWithReason, hp, hblank, hsecond, hunticked], rfl, rfl, rfl, rfl,
        rfl, rfl, rfl, ⟨_, rfl, rfl⟩⟩
  · simp only [confirmLossWithReason, hp, hfirst, Bool.false_and, Bool.false_eq_true, if_false]
    by_cases hblank : jsTrim s.lossReasonInput = ""
    · simp [hblank, addToast, hp]
    · simp only [hblank, if_false]
      cases hb : bucketAt s.trades p.weekIdx p.dayIdx with
      | none => rfl
      | some rows =>
        dsimp only
        cases hrow : rows[p.rowIdx]? with
        | none => rfl
        | some row =>
          dsimp only
          by_cases hc : ((rows.set p.rowIdx (objSet (objSet row "type" (JSVal.str "loss"))
              "reason" (JSVal.str (jsTrim s.lossReasonInput)))).filter
              isCompletedLoss).length ≥ MAX_LOSSES_PER_DAY
          · simp only [hc, if_true, Option.map_some']
          · simp only [hc, if_false, Option.map_some', addToast]

/-- C3 on the second-loss draft of the scenario: an empty reason is rejected,
and so is the non-blank reason once the confession is unticked. -/
theorem confirmLossWithReason_rejects_witness :
    (∃ s1, confirmLossWithReason scenarioEnv
        { secondLossDraftState with lossReasonInput := "  " } = some s1 ∧
      s1.lockedDays = [] ∧ s1.pendingLossData ≠ none) ∧
    (∃ s1, confirmLossWithReason scenarioEnv
        { secondLossDraftState with confessionChecked := false } = some s1 ∧
      s1.lockedDays = [] ∧ s1.pendingLossData ≠ none) := by
  constructor
  · obtain ⟨s1, h1, _, hl, _, hd, _⟩ :=
      (confirmLossWithReason_rejects scenarioEnv
        { secondLossDraftState with lossReasonInput := "  " }).1 (by decide)
    exact ⟨s1, h1, by rw [hl]; decide, by rw [hd]; decide⟩
  · obtain ⟨s1, h1, _, hl, _, hd, _⟩ :=
      (confirmLossWithReason_rejects scenarioEnv
        { secondLossDraftState with confessionChecked := false }).2.1
        { weekIdx := 0, dayIdx := 3, rowIdx := 1, isSecondLoss := true,
          amount := some (JSVal.str "50") } (by decide) rfl rfl
    exact ⟨s1, h1, by rw [hl]; decide, by rw [hd]; decide⟩

/-! ## Two completed losses without a lock -/

/-- C4, evaluated on the trace `lateAmountEvents` (all events on one calendar
day, starting from the empty ledger): today's bucket ends with two completed
losses while the lock table is empty, `isDayLocked` is false, and both
`addNewTrade` and `handleTradeChange` are still accepted. The count is only
compared with the threshold inside `confirmLossWithReason`; an amount typed
into an entry that is already a loss raises it afterwards. -/
theorem lateAmount_two_completed_losses_unlocked :
    countLosses (run scenarioEnv initialState lateAmountEvents).trades 0 3 = 2 ∧
    (run scenarioEnv initialState lateAmountEvents).lockedDays = [] ∧
    isDayLocked scenarioEnv (run scenarioEnv initialState lateAmountEvents).lockedDays
      scenarioEnv.currentWeekIdx scenarioEnv.currentDayIdx = false ∧
    (bucketOrEmpty (addNewTrade scenarioEnv
      (run scenarioEnv initialState lateAmountEvents)).trades 0 3).length = 3 ∧
    (∃ s1, handleTradeChange scenarioEnv (run scenarioEnv initialState lateAmountEvents)
        0 3 0 "amount" (JSVal.str "7") = some s1 ∧
      (entryAt s1.trades 0 3 0).bind (fun e => objGet e "amount") = some (JSVal.str "7")) := by
  refine ⟨by decide, by decide, by decide, by decide, ?_⟩
  cases h : handleTradeChange scenarioEnv (run scenarioEnv initialState lateAmountEvents)
      0 3 0 "amount" (JSVal.str "7") with
  | none =>
    exfalso
    have hs : (handleTradeChange scenarioEnv (run scenarioEnv initialState lateAmountEvents)
      0 3 0 "amount" (JSVal.str "7")).isSome = true := by decide
    rw [h] at hs
    cases hs
  | some s1 =>
    refine ⟨s1, rfl, ?_⟩
    have hv : ((handleTradeChange scenarioEnv (run scenarioEnv initialState lateAmountEvents)
      0 3 0 "amount" (JSVal.str "7")).bind (fun s2 => (entryAt s2.trades 0 3 0).bind
        (fun e => objGet e "amount"))) = some (JSVal.str "7") := by decide
    rw [h] at hv
    exact hv

/-! ## The loss-disclosure gate: opening and cancelling a draft -/

/-- A change accepted by `handleTradeChange` never makes an entry a loss: an
entry of the new ledger whose type is "loss" had type "loss" at the same
position before. -/
theorem handleTradeChange_no_new_loss (env : Env) (s s1 : AppState) (w d r : Nat)
    (field : String) (value : JSVal)
    (h : handleTradeChange env s w d r field value = some s1)
    (w1 d1 i : Nat) (e1 : TradeEntry)
    (he : entryAt s1.trades w1 d1 i = some e1)
    (hl : objGet e1 "type" = some (JSVal.str "loss")) :
    ∃ e0, entryAt s.trades w1 d1 i = some e0 ∧ objGet e0 "type" = some (JSVal.str "loss") := by
  unfold handleTradeChange at h
  split at h
  · cases h; exact ⟨e1, he, hl⟩
  split at h
  · cases h; exact ⟨e1, he, hl⟩
  split at h
  · cases hb : bucketAt s.trades w d with
    | none => simp [hb] at h
    | some rows =>
      cases hrow : rows[r]? with
      | none => simp [hb, hrow] at h
      | some row =>
        simp only [hb, hrow] at h
        cases h
        exact ⟨e1, he, hl⟩
  · rename_i hfv
    cases hb : bucketAt s.trades w d with
    | none => simp [hb] at h
    | some rows =>
      cases hrow : rows[r]? with
      | none => simp [hb, hrow] at h
      | some row =>
        simp only [hb, hrow] at h
        cases h
        by_cases hwd : w1 = w ∧ d1 = d
        · obtain ⟨rfl, rfl⟩ := hwd
          simp only [entryAt, bucketAt_setBucket_self] at he
          by_cases hi : i = r
          · subst hi
            have hlt : i < rows.length := by
              by_contra hge
              have : rows[i]? = none := List.getElem?_eq_none (by omega)
              rw [this] at hrow
              cases hrow
            rw [List.getElem?_set_self hlt] at he
            cases he
            by_cases hf : field = "type"
            · subst hf
              rw [objGet_objSet_self] at hl
              exact absurd ⟨rfl, Option.some.inj hl⟩ hfv
            · rw [objGet_objSet_ne _ _ _ _ (fun e => hf e.symm)] at hl
              exact ⟨row, by simp [entryAt, hb, hrow], hl⟩
          · rw [List.getElem?_set_ne (fun e => hi e.symm)] at he
            exact ⟨e1, by simp [entryAt, hb, he], hl⟩
        · refine ⟨e1, ?_, hl⟩
          simp only [entryAt, bucketAt_setBucket_ne _ _ _ _ _ _ hwd] at he
          simpa [entryAt] using he

/-- C5: for today's unlocked bucket and an in-range row, choosing "loss" leaves
the ledger (and the lock table) unchanged and opens a draft holding the bucket,
the row, `isSecondLoss = (countLosses >= 1)` and the row's current amount, with
the reason input empty and the confession unticked; `cancelLossSelection` then
discards the draft with the ledger and the lock table unchanged. Neither
`handleTradeChange` (any bucket, row, field and value) nor
`cancelLossSelection` turns an entry whose type is not "loss" into a loss. -/
theorem handleTradeChange_loss_opens_draft (env : Env) :
    (∀ (s : AppState) (r : Nat) (rows : List TradeEntry) (row : TradeEntry),
      isDayLocked env s.lockedDays env.currentWeekIdx env.currentDayIdx = false →
      bucketAt s.trades env.currentWeekIdx env.currentDayIdx = some rows →
      rows[r]? = some row →
      ∃ s1, handleTradeChange env s env.currentWeekIdx env.currentDayIdx r "type"
          (JSVal.str "loss") = some s1 ∧
        s1.trades = s.trades ∧ s1.lockedDays = s.lockedDays ∧
        s1.pendingLossData = some
          { weekIdx := env.currentWeekIdx, dayIdx := env.currentDayIdx, rowIdx := r,
            isSecondLoss := decide (countLosses s.trades env.currentWeekIdx
              env.currentDayIdx ≥ 1),
            amount := objGet row "amount" } ∧
        s1.lossReasonInput = "" ∧ s1.confessionChecked = false ∧
        s1.showLossReasonModal = true ∧
        (cancelLossSelection s1).pendingLossData = none ∧
        (cancelLossSelection s1).showLossReasonModal = false ∧
        (cancelLossSelection s1).trades = s.trades ∧
        (cancelLossSelection s1).lockedDays = s.lockedDays) ∧
    (∀ (s s1 : AppState) (w d r : Nat) (field : String) (value : JSVal),
      handleTradeChange env s w d r field value = some s1 →
      ∀ (w1 d1 i : Nat) (e1 : TradeEntry), entryAt s1.trades w1 d1 i = some e1 →
        objGet e1 "type" = some (JSVal.str "loss") →
        ∃ e0, entryAt s.trades w1 d1 i = some e0 ∧
          objGet e0 "type" = some (JSVal.str "loss")) ∧
    (∀ s : AppState, (cancelLossSelection s).trades = s.trades ∧
      (cancelLossSelection s).lockedDays = s.lockedDays ∧
      (cancelLossSelection s).pendingLossData = none) := by
  refine ⟨fun s r rows row hunlocked hrows hrow => ?_,
    fun s s1 w d r field value h w1 d1 i e1 he hl =>
      handleTradeChange_no_new_loss env s s1 w d r field value h w1 d1 i e1 he hl,
    fun s => ⟨rfl, rfl, rfl⟩⟩
  have htoday : isToday env env.currentWeekIdx env.currentDayIdx = true := by
    simp [isToday]
  simp only [handleTradeChange, htoday, hunlocked, hrows, hrow, Bool.not_true,
    Bool.false_eq_true, if_false, and_self, if_true]
  exact ⟨_, rfl, rfl, rfl, rfl, rfl, rfl, rfl, rfl, rfl, rfl, rfl⟩

/-- C5 on the scenario: after the first confirmed loss, choosing "loss" on the
second row opens a second-loss draft holding the amount "50". -/
theorem handleTradeChange_loss_opens_draft_witness :
    ∃ s1, handleTradeChange scenarioEnv
        (run scenarioEnv initialState (firstLossEvents ++ secondLossDraftEvents.take 2))
        0 3 1 "type" (JSVal.str "loss") = some s1 ∧
      s1.pendingLossData = some
        { weekIdx := 0, dayIdx := 3, rowIdx := 1, isSecondLoss := true,
          amount := some (JSVal.str "50") } := by
  obtain ⟨s1, h1, _, _, hd, _⟩ :=
    (handleTradeChange_loss_opens_draft scenarioEnv).1
      (run scenarioEnv initialState (firstLossEvents ++ secondLossDraftEvents.take 2)) 1
      [[("type", JSVal.str "loss"), ("amount", JSVal.str "100"), ("id", JSVal.num 1),
        ("reason", JSVal.str "no SL")],
       [("type", JSVal.str ""), ("amount", JSVal.str "50"), ("id", JSVal.num 6)]]
      [("type", JSVal.str ""), ("amount", JSVal.str "50"), ("id", JSVal.num 6)]
      (by decide) (by decide) (by decide)
  refine ⟨s1, h1, ?_⟩
  rw [hd]
  decide

/-! ## The loss-disclosure gate: the ledger write -/

/-- C6: on an accepted `confirmLossWithReason` (draft for bucket (w,d), in-range
row r, non-blank reason, confession ticked if required) the new ledger holds at
(w,d,r) an entry with type "loss" and reason equal to the trimmed input, whose
amount, id and every other property are those of the old entry; the bucket
keeps its length and every other row, every other bucket is unchanged, and the
draft is cleared. -/
theorem confirmLossWithReason_writes_row (env : Env) (s : AppState)
    (p : PendingLossData) (rows : List TradeEntry) (row : TradeEntry)
    (hp : s.pendingLossData = some p)
    (hrows : bucketAt s.trades p.weekIdx p.dayIdx = some rows)
    (hrow : rows[p.rowIdx]? = some row)
    (hreason : jsTrim s.lossReasonInput ≠ "")
    (hconf : p.isSecondLoss = true → s.confessionChecked = true) :
    ∃ s1 rows1 row1, confirmLossWithReason env s = some s1 ∧
      bucketAt s1.trades p.weekIdx p.dayIdx = some rows1 ∧
      rows1[p.rowIdx]? = some row1 ∧
      objGet row1 "type" = some (JSVal.str "loss") ∧
      objGet row1 "reason" = some (JSVal.str (jsTrim s.lossReasonInput)) ∧
      objGet row1 "amount" = objGet row "amount" ∧
      objGet row1 "id" = objGet row "id" ∧
      (∀ k, k ≠ "type" → k ≠ "reason" → objGet row1 k = objGet row k) ∧
      rows1.length = rows.length ∧
      (∀ i, i ≠ p.rowIdx → rows1[i]? = rows[i]?) ∧
      (∀ w1 d1, ¬ (w1 = p.weekIdx ∧ d1 = p.dayIdx) →
        bucketAt s1.trades w1 d1 = bucketAt s.trades w1 d1) ∧
      s1.pendingLossData = none ∧ s1.showLossReasonModal = false := by
  obtain ⟨s1, h1, htr, hdraft, hmodal, _, _⟩ :=
    confirmLossWithReason_accept env s p rows row hp hrows hrow hreason hconf
  have hlt : p.rowIdx < rows.length := by
    by_contra hge
    have : rows[p.rowIdx]? = none := List.getElem?_eq_none (by omega)
    rw [this] at hrow
    cases hrow
  have hother : ∀ k, k ≠ "type" → k ≠ "reason" →
      objGet (objSet (objSet row "type" (JSVal.str "loss")) "reason"
        (JSVal.str (jsTrim s.lossReasonInput))) k = objGet row k := by
    intro k hk1 hk2
    rw [objGet_objSet_ne _ _ _ _ hk2, objGet_objSet_ne _ _ _ _ hk1]
  refine ⟨s1, _, _, h1, ?_, List.getElem?_set_self hlt, ?_, ?_, ?_, ?_, hother, ?_, ?_, ?_,
    hdraft, hmodal⟩
  · rw [htr, bucketAt_setBucket_self]
  · rw [objGet_objSet_ne _ _ _ _ (by decide), objGet_objSet_self]
  · rw [objGet_objSet_self]
  · exact hother "amount" (by decide) (by decide)
  · exact hother "id" (by decide) (by decide)
  · exact List.length_set _ _ _
  · intro i hi
    exact List.getElem?_set_ne (fun e => hi e.symm)
  · intro w1 d1 hne
    rw [htr, bucketAt_setBucket_ne _ _ _ _ _ _ hne]

/-- C6 on the scenario: the confirm of the second loss writes type "loss" and
the reason "no SL" into row 1 and keeps its amount "50". -/
theorem confirmLossWithReason_writes_row_witness :
    ∃ s1 rows1 row1, confirmLossWithReason scenarioEnv secondLossDraftState = some s1 ∧
      bucketAt s1.trades 0 3 = some rows1 ∧ rows1[1]? = some row1 ∧
      objGet row1 "type" = some (JSVal.str "loss") ∧
      objGet row1 "reason" = some (JSVal.str "no SL") ∧
      objGet row1 "amount" = some (JSVal.str "50") ∧
      rows1.length = 2 := by
  obtain ⟨s1, rows1, row1, h1, hb, hr, ht, hre, ha, _, _, hlen, _⟩ :=
    confirmLossWithReason_writes_row scenarioEnv secondLossDraftState
      { weekIdx := 0, dayIdx := 3, rowIdx := 1, isSecondLoss := true,
        amount := some (JSVal.str "50") }
      [[("type", JSVal.str "loss"), ("amount", JSVal.str "100"), ("id", JSVal.num 1),
        ("reason", JSVal.str "no SL")],
       [("type", JSVal.str ""), ("amount", JSVal.str "50"), ("id", JSVal.num 6)]]
      [("type", JSVal.str ""), ("amount", JSVal.str "50"), ("id", JSVal.num 6)]
      (by decide) (by decide) (by decide) (by decide) (by decide)
  refine ⟨s1, rows1, row1, h1, hb, hr, ht, ?_, ?_, hlen⟩
  · rw [hre]
    decide
  · rw [ha]
    decide

/-! ## Rejected edits -/

/-- C7: while `isDayLocked` is true for today's bucket, `addNewTrade` and
`handleTradeChange` (every bucket, row, field and value, the type "loss"
included) leave the ledger, the lock table and the draft as they are; the only
effect is an error or warning toast. -/
theorem locked_day_rejects_edits (env : Env) (s : AppState)
    (hlocked : isDayLocked env s.lockedDays env.currentWeekIdx env.currentDayIdx = true) :
    ((addNewTrade env s).trades = s.trades ∧
      (addNewTrade env s).lockedDays = s.lockedDays ∧
      (addNewTrade env s).pendingLossData = s.pendingLossData ∧
      (addNewTrade env s).showLossReasonModal = s.showLossReasonModal) ∧
    (∀ (w d r : Nat) (field : String) (value : JSVal),
      ∃ s1, handleTradeChange env s w d r field value = some s1 ∧
        s1.trades = s.trades ∧ s1.lockedDays = s.lockedDays ∧
        s1.pendingLossData = s.pendingLossData ∧
        s1.showLossReasonModal = s.showLossReasonModal ∧
        ∃ t, s1.toasts = s.toasts ++ [t]) := by
  constructor
  · simp only [addNewTrade, hlocked, if_true, addToast, and_self]
  · intro w d r field value
    by_cases htoday : isToday env w d = true
    · have hwd : w = env.currentWeekIdx ∧ d = env.currentDayIdx := by
        simpa [isToday] using htoday
      obtain ⟨rfl, rfl⟩ := hwd
      refine ⟨addToast s "Hari ini sudah terkunci! Coba lagi besok." "error", ?_,
        rfl, rfl, rfl, rfl, _, rfl⟩
      simp only [handleTradeChange, htoday, hlocked, Bool.not_true, Bool.false_eq_true,
        if_false, if_true]
    · refine ⟨addToast s "Hanya bisa edit hari ini!" "warning", ?_, rfl, rfl, rfl, rfl, _, rfl⟩
      have hf : isToday env w d = false := by simpa using htoday
      simp only [handleTradeChange, hf, Bool.not_false, if_true]

/-- C7 on the locked scenario state: choosing "loss" on row 0 is rejected and
opens no draft. -/
theorem locked_day_rejects_edits_witness :
    ∃ s1, handleTradeChange scenarioEnv lockedState 0 3 0 "type" (JSVal.str "loss") = some s1 ∧
      s1.trades = lockedState.trades ∧ s1.pendingLossData = none := by
  obtain ⟨s1, h1, ht, _, hd, _⟩ :=
    (locked_day_rejects_edits scenarioEnv lockedState (by decide)).2 0 3 0 "type"
      (JSVal.str "loss")
  refine ⟨s1, h1, ht, ?_⟩
  rw [hd]
  decide

/-- C8: for every bucket other than today's, `handleTradeChange` (every row,
field and value) and `deleteTrade` (every row) leave the ledger, the lock table
and the loss draft unchanged, whatever the lock table holds for that bucket. -/
theorem other_day_rejects_edit_and_delete (env : Env) (s : AppState) (w d : Nat)
    (hne : ¬ (w = env.currentWeekIdx ∧ d = env.currentDayIdx)) :
    (∀ (r : Nat) (field : String) (value : JSVal),
      ∃ s1, handleTradeChange env s w d r field value = some s1 ∧
        s1.trades = s.trades ∧ s1.lockedDays = s.lockedDays ∧
        s1.pendingLossData = s.pendingLossData ∧
        s1.lossReasonInput = s.lossReasonInput ∧
        s1.confessionChecked = s.confessionChecked ∧
        s1.showLossReasonModal = s.showLossReasonModal ∧
        s1.toasts = s.toasts ++ [{ message := "Hanya bisa edit hari ini!", kind := "warning" }]) ∧
    (∀ r : Nat,
      ∃ s1, deleteTrade env s w d r = some s1 ∧
        s1.trades = s.trades ∧ s1.lockedDays = s.lockedDays ∧
        s1.pendingLossData = s.pendingLossData ∧
        s1.lossReasonInput = s.lossReasonInput ∧
        s1.confessionChecked = s.confessionChecked ∧
        s1.showLossReasonModal = s.showLossReasonModal ∧
        s1.toasts = s.toasts ++
          [{ message := "Hanya bisa hapus trade hari ini!", kind := "warning" }]) := by
  have hf : isToday env w d = false := by
    simp only [isToday, Bool.and_eq_false_imp, decide_eq_true_eq, decide_eq_false_iff_not]
    exact fun hw hd => hne ⟨hw, hd⟩
  constructor
  · intro r field value
    refine ⟨addToast s "Hanya bisa edit hari ini!" "warning", ?_, rfl, rfl, rfl, rfl, rfl,
      rfl, rfl⟩
    simp only [handleTradeChange, hf, Bool.not_false, if_true]
  · intro r
    refine ⟨addToast s "Hanya bisa hapus trade hari ini!" "warning", ?_, rfl, rfl, rfl, rfl,
      rfl, rfl, rfl⟩
    simp only [deleteTrade, hf, Bool.not_false, if_true]

/-- C8 on the scenario: read on a Friday (day index 4), deleting row 0 of the
bucket (0,3), for which the table holds a lock record, changes neither the
ledger nor the lock table. -/
theorem other_day_rejects_edit_and_delete_witness :
    objGet lockedState.lockedDays (lockKey 0 3) ≠ none ∧
    ∃ s1, deleteTrade { scenarioEnv with currentDayIdx := 4 } lockedState 0 3 0 = some s1 ∧
      s1.trades = lockedState.trades ∧ s1.lockedDays = lockedState.lockedDays := by
  refine ⟨by decide, ?_⟩
  obtain ⟨s1, h1, ht, hl, _⟩ :=
    (other_day_rejects_edit_and_delete { scenarioEnv with currentDayIdx := 4 } lockedState
      0 3 (by decide)).2 0
  exact ⟨s1, h1, ht, hl⟩

/-! ## The expiry sweep -/

theorem sweepKey_get (today : String) (v : SweepVars) (key k : String) :
    objGet (sweepKey today v key).updatedLocks k =
      if k = key then
        (objGet v.updatedLocks k).filter (fun r => decide (r.dateKey = today))
      else objGet v.updatedLocks k := by
  unfold sweepKey
  by_cases hk : k = key
  · subst hk
    cases hget : objGet v.updatedLocks k with
    | none => simp [hget, Option.filter]
    | some lock =>
      by_cases hd : lock.dateKey = today
      · simp [hd, hget, Option.filter]
      · simp [hd, objGet_objDelete, Option.filter]
  · cases hget : objGet v.updatedLocks key with
    | none => simp [hk]
    | some lock =>
      by_cases hd : lock.dateKey = today
      · simp [hd, hk]
      · simp [hd, hk, objGet_objDelete]

theorem foldl_sweepKey_get (today : String) (keys : List String) (v : SweepVars)
    (k : String) :
    objGet (keys.foldl (sweepKey today) v).updatedLocks k =
      if k ∈ keys then
        (objGet v.updatedLocks k).filter (fun r => decide (r.dateKey = today))
      else objGet v.updatedLocks k := by
  induction keys generalizing v with
  | nil => simp
  | cons key rest ih =>
    rw [List.foldl_cons, ih, sweepKey_get]
    by_cases hk : k = key
    · subst hk
      cases hget : objGet v.updatedLocks k with
      | none => simp [Option.filter]
      | some lock =>
        by_cases hd : lock.dateKey = today <;> simp [Option.filter, hd]
    · simp [hk]

theorem sweepKey_cases (today : String) (v : SweepVars) (key : String) :
    sweepKey today v key = v ∨ (sweepKey today v key).changed = true := by
  unfold sweepKey
  cases objGet v.updatedLocks key with
  | none => exact Or.inl rfl
  | some lock =>
    by_cases hd : lock.dateKey = today
    · left; simp [hd]
    · right; simp [hd]

theorem sweepKey_lockedDays (today : String) (v : SweepVars) (key : String) :
    (sweepKey today v key).lockedDays = v.lockedDays := by
  unfold sweepKey
  cases objGet v.updatedLocks key with
  | none => rfl
  | some lock =>
    by_cases hd : lock.dateKey = today
    · simp [hd]
    · simp [hd]

theorem sweepKey_changed_mono (today : String) (v : SweepVars) (key : String)
    (h : v.changed = true) : (sweepKey today v key).changed = true := by
  rcases sweepKey_cases today v key with h1 | h1
  · rw [h1]; exact h
  · exact h1

theorem foldl_sweepKey_changed_mono (today : String) (keys : List String) (v : SweepVars)
    (h : v.changed = true) : (keys.foldl (sweepKey today) v).changed = true := by
  induction keys generalizing v with
  | nil => exact h
  | cons key rest ih => exact ih _ (sweepKey_changed_mono today v key h)

theorem foldl_sweepKey_unchanged (today : String) (keys : List String) (v : SweepVars)
    (h : (keys.foldl (sweepKey today) v).changed = false) :
    keys.foldl (sweepKey today) v = v := by
  induction keys generalizing v with
  | nil => rfl
  | cons key rest ih =>
    rw [List.foldl_cons] at h ⊢
    rcases sweepKey_cases today v key with h1 | h1
    · rw [h1] at h ⊢
      exact ih v h
    · rw [foldl_sweepKey_changed_mono today rest _ h1] at h
      cases h

theorem foldl_sweepKey_lockedDays (today : String) (keys : List String) (v : SweepVars) :
    (keys.foldl (sweepKey today) v).lockedDays = v.lockedDays := by
  induction keys generalizing v with
  | nil => rfl
  | cons key rest ih => rw [List.foldl_cons, ih, sweepKey_lockedDays]

theorem foldl_sweepKey_fresh (today : String) (keys : List String) (v : SweepVars)
    (h : ∀ k r, objGet v.updatedLocks k = some r → r.dateKey = today) :
    keys.foldl (sweepKey today) v = v := by
  induction keys with
  | nil => rfl
  | cons key rest ih =>
    have hkey : sweepKey today v key = v := by
      unfold sweepKey
      cases hget : objGet v.updatedLocks key with
      | none => rfl
      | some lock => simp [h key lock hget]
    rw [List.foldl_cons, hkey, ih]

theorem sweep_get (today : String) (lockedDays : LockTable) (k : String) :
    objGet (sweep today lockedDays).updatedLocks k =
      (objGet lockedDays k).filter (fun r => decide (r.dateKey = today)) := by
  unfold sweep
  rw [foldl_sweepKey_get]
  by_cases hk : k ∈ objKeys lockedDays
  · simp [hk]
  · have hnone : objGet lockedDays k = none := by
      cases hget : objGet lockedDays k with
      | none => rfl
      | some r =>
        exact absurd ((objGet_isSome_iff_mem_keys lockedDays k).mp (by simp [hget])) hk
    simp [hk, hnone, Option.filter]

theorem checkLocks_lockedDays_get (env : Env) (s : AppState) (k : String) :
    objGet (checkLocks env s).lockedDays k =
      (objGet s.lockedDays k).filter (fun r => decide (r.dateKey = env.today)) := by
  unfold checkLocks
  by_cases hc : (sweep env.today s.lockedDays).changed = true
  · simp only [hc, if_true]
    exact sweep_get env.today s.lockedDays k
  · rw [if_neg hc]
    have hc2 : (sweep env.today s.lockedDays).changed = false := by simpa using hc
    have hsame : (sweep env.today s.lockedDays).updatedLocks = s.lockedDays := by
      have := foldl_sweepKey_unchanged env.today (objKeys s.lockedDays)
        { lockedDays := s.lockedDays, updatedLocks := s.lockedDays, changed := false } hc2
      unfold sweep
      rw [this]
    rw [← sweep_get env.today s.lockedDays k, hsame]

/-- C9: for every lock table and today key, after `checkLocks` each key reads
the record it had before when that record is dated today, and reads nothing
when the record was dated otherwise or absent: exactly the records dated today
remain, under their keys and unchanged. When no record is stale the flag
`changed` stays false and the state is not updated at all. The captured table
`lockedDays` is never written: the sweep deletes from the copy only, and no
other part of the state changes. -/
theorem checkLocks_keeps_exactly_todays_records (env : Env) (s : AppState) :
    (∀ k r, objGet (checkLocks env s).lockedDays k = some r ↔
      (objGet s.lockedDays k = some r ∧ r.dateKey = env.today)) ∧
    (∀ k r, objGet s.lockedDays k = some r → r.dateKey ≠ env.today →
      objGet (checkLocks env s).lockedDays k = none) ∧
    ((∀ k r, objGet s.lockedDays k = some r → r.dateKey = env.today) →
      (sweep env.today s.lockedDays).changed = false ∧ checkLocks env s = s) ∧
    (sweep env.today s.lockedDays).lockedDays = s.lockedDays ∧
    ((checkLocks env s).trades = s.trades ∧
      (checkLocks env s).yesterdayLocked = s.yesterdayLocked ∧
      (checkLocks env s).pendingLossData = s.pendingLossData ∧
      (checkLocks env s).hasPromised = s.hasPromised) := by
  refine ⟨fun k r => ?_, fun k r hget hstale => ?_, fun hfresh => ?_, ?_, ?_⟩
  · rw [checkLocks_lockedDays_get]
    cases hget : objGet s.lockedDays k with
    | none => simp [Option.filter]
    | some r0 =>
      by_cases hd : r0.dateKey = env.today
      · simp only [Option.filter, hd, decide_True, if_true, Option.some.injEq]
        constructor
        · intro e; subst e; exact ⟨rfl, hd⟩
        · exact fun e => e.1
      · simp only [Option.filter, hd, decide_False, Bool.false_eq_true, if_false,
          Option.some.injEq]
        constructor
        · intro e; cases e
        · intro e
          obtain ⟨e1, e2⟩ := e
          subst e1
          exact absurd e2 hd
  · rw [checkLocks_lockedDays_get, hget]
    simp [Option.filter, hstale]
  · have hfold := foldl_sweepKey_fresh env.today (objKeys s.lockedDays)
      { lockedDays := s.lockedDays, updatedLocks := s.lockedDays, changed := false } hfresh
    have hc : (sweep env.today s.lockedDays).changed = false := by
      unfold sweep
      rw [hfold]
    refine ⟨hc, ?_⟩
    unfold checkLocks
    simp only [hc, Bool.false_eq_true, if_false]
  · unfold sweep
    rw [foldl_sweepKey_lockedDays]
  · unfold checkLocks
    by_cases hc : (sweep env.today s.lockedDays).changed = true
    · rw [if_pos hc]
      exact ⟨rfl, rfl, rfl, rfl⟩
    · rw [if_neg hc]
      exact ⟨rfl, rfl, rfl, rfl⟩

/-- C9 on a table holding one record of "2026-10-4" and one of "2026-10-5",
swept on "2026-10-5": the stale record is gone, the other is kept; a table
with today's record only is left alone. -/
theorem checkLocks_keeps_exactly_todays_records_witness :
    objGet (checkLocks scenarioEnv { initialState with lockedDays := mixedLocks }).lockedDays
      "0-2" = none ∧
    objGet (checkLocks scenarioEnv { initialState with lockedDays := mixedLocks }).lockedDays
      "0-3" = some { dateKey := "2026-10-5", timestamp := 11 } ∧
    checkLocks scenarioEnv lockedState = lockedState :=
  ⟨(checkLocks_keeps_exactly_todays_records scenarioEnv
      { initialState with lockedDays := mixedLocks }).2.1 "0-2"
      { dateKey := "2026-10-4", timestamp := 7 } (by decide) (by decide),
    ((checkLocks_keeps_exactly_todays_records scenarioEnv
      { initialState with lockedDays := mixedLocks }).1 "0-3"
      { dateKey := "2026-10-5", timestamp := 11 }).mpr ⟨by decide, by decide⟩,
    ((checkLocks_keeps_exactly_todays_records scenarioEnv lockedState).2.2.1
      (by
        intro k r h
        have hl : lockedState.lockedDays =
            [("0-3", { dateKey := "2026-10-5", timestamp := 11 })] := by decide
        rw [hl] at h
        simp only [objGet] at h
        split at h
        · cases h; rfl
        · cases h)).2⟩

/-! ## Deleting a trade -/

/-- C10: `deleteTrade` never changes the lock table. For today's bucket that is
locked, deleting an in-range row removes that entry (the rows before it stay in
place, the bucket is one shorter) and `isDayLocked` remains true, also when the
removed entry was a completed loss. -/
theorem deleteTrade_keeps_lock (env : Env) (s : AppState) (rows : List TradeEntry) (r : Nat)
    (hlocked : isDayLocked env s.lockedDays env.currentWeekIdx env.currentDayIdx = true)
    (hrows : bucketAt s.trades env.currentWeekIdx env.currentDayIdx = some rows)
    (hr : r < rows.length) :
    (∀ w d i s1, deleteTrade env s w d i = some s1 → s1.lockedDays = s.lockedDays) ∧
    ∃ s1, deleteTrade env s env.currentWeekIdx env.currentDayIdx r = some s1 ∧
      bucketAt s1.trades env.currentWeekIdx env.currentDayIdx = some (rows.eraseIdx r) ∧
      (rows.eraseIdx r).length + 1 = rows.length ∧
      countLosses s1.trades env.currentWeekIdx env.currentDayIdx =
        ((rows.eraseIdx r).filter isCompletedLoss).length ∧
      s1.lockedDays = s.lockedDays ∧
      isDayLocked env s1.lockedDays env.currentWeekIdx env.currentDayIdx = true := by
  constructor
  · intro w d i s1 h
    unfold deleteTrade at h
    split at h
    · cases h; rfl
    · cases hb : bucketAt s.trades w d with
      | none => simp [hb] at h
      | some rows0 =>
        simp only [hb] at h
        cases h
        rfl
  · have htoday : isToday env env.currentWeekIdx env.currentDayIdx = true := by
      simp [isToday]
    simp only [deleteTrade, htoday, hrows, Bool.not_true, Bool.false_eq_true, if_false]
    refine ⟨_, rfl, ?_, ?_, ?_, rfl, hlocked⟩
    · simp only [addToast, bucketAt_setBucket_self]
    · rw [List.length_eraseIdx_of_lt hr]
      omega
    · simp only [addToast, countLosses_setBucket_self]

/-- C10 on the locked scenario state: deleting the first completed loss leaves
one completed loss in the bucket, and the bucket is still locked. -/
theorem deleteTrade_keeps_lock_witness :
    countLosses lockedState.trades 0 3 = 2 ∧
    ∃ s1, deleteTrade scenarioEnv lockedState 0 3 0 = some s1 ∧
      countLosses s1.trades 0 3 = 1 ∧
      isDayLocked scenarioEnv s1.lockedDays 0 3 = true := by
  refine ⟨by decide, ?_⟩
  obtain ⟨s1, h1, _, _, hc, _, hl⟩ :=
    (deleteTrade_keeps_lock scenarioEnv lockedState
      [[("type", JSVal.str "loss"), ("amount", JSVal.str "100"), ("id", JSVal.num 1),
        ("reason", JSVal.str "no SL")],
       [("type", JSVal.str "loss"), ("amount", JSVal.str "50"), ("id", JSVal.num 6),
        ("reason", JSVal.str "no SL")]] 0
      (by decide) (by decide) (by decide)).2
  exact ⟨s1, h1, hc.trans (by decide), hl⟩

/-! ## The promise gate -/

/-- C11: `submitPromise` accepts exactly when the input without its leading and
trailing white space is the pledge "Saya berjanji tidak akan mengulangi
kesalahan yang sama". On acceptance `hasPromised[today]` reads true, every
other key of `hasPromised` reads as before, the "yesterdayLocked" marker is
removed, the modal is closed and the input cleared; otherwise `hasPromised`,
the marker, the modal flag and the input are unchanged and an error toast is
added. -/
theorem submitPromise_accepts_iff_exact_pledge (env : Env) (s : AppState) :
    requiredPromise = "Saya berjanji tidak akan mengulangi kesalahan yang sama" ∧
    (jsTrim s.promiseInput = requiredPromise →
      objGet (submitPromise env s).hasPromised env.today = some true ∧
      (∀ k, k ≠ env.today →
        objGet (submitPromise env s).hasPromised k = objGet s.hasPromised k) ∧
      (submitPromise env s).yesterdayLocked = none ∧
      (submitPromise env s).showPromiseModal = false ∧
      (submitPromise env s).promiseInput = "" ∧
      (submitPromise env s).toasts = s.toasts ++
        [{ message := "Janji diterima. Semoga hari ini lebih baik!", kind := "success" }]) ∧
    (jsTrim s.promiseInput ≠ requiredPromise →
      (submitPromise env s).hasPromised = s.hasPromised ∧
      (submitPromise env s).yesterdayLocked = s.yesterdayLocked ∧
      (submitPromise env s).showPromiseModal = s.showPromiseModal ∧
      (submitPromise env s).promiseInput = s.promiseInput ∧
      (submitPromise env s).toasts = s.toasts ++
        [{ message := "Ketik janji dengan benar!", kind := "error" }]) := by
  refine ⟨rfl, fun hok => ?_, fun hbad => ?_⟩
  · have hs : submitPromise env s = addToast
        { s with hasPromised := objSet s.hasPromised env.today true,
                 yesterdayLocked := none, showPromiseModal := false, promiseInput := "" }
        "Janji diterima. Semoga hari ini lebih baik!" "success" := by
      unfold submitPromise
      rw [if_neg (not_not.mpr hok)]
    rw [hs]
    refine ⟨?_, fun k hk => ?_, rfl, rfl, rfl, rfl⟩
    · exact objGet_objSet_self _ _ _
    · exact objGet_objSet_ne _ _ _ _ hk
  · have hs : submitPromise env s = addToast s "Ketik janji dengan benar!" "error" := by
      unfold submitPromise
      rw [if_pos hbad]
    rw [hs]
    exact ⟨rfl, rfl, rfl, rfl, rfl⟩

/-- C11 on concrete inputs: the pledge surrounded by blanks is accepted; the
pledge in lower case, with a final full stop, with a doubled inner blank, and
a proper prefix of it are all rejected with the modal left open. -/
theorem submitPromise_accepts_iff_exact_pledge_witness :
    (submitPromise scenarioEnv (promiseModalState
      "  Saya berjanji tidak akan mengulangi kesalahan yang sama \n")).showPromiseModal
      = false ∧
    (∀ bad ∈ ["saya berjanji tidak akan mengulangi kesalahan yang sama",
        "Saya berjanji tidak akan mengulangi kesalahan yang sama.",
        "Saya berjanji  tidak akan mengulangi kesalahan yang sama",
        "Saya berjanji tidak akan mengulangi kesalahan"],
      (submitPromise scenarioEnv (promiseModalState bad)).showPromiseModal = true) := by
  refine ⟨((submitPromise_accepts_iff_exact_pledge scenarioEnv (promiseModalState
      "  Saya berjanji tidak akan mengulangi kesalahan yang sama \n")).2.1
      (by decide)).2.2.2.1, ?_⟩
  intro bad hbad
  have hne : jsTrim (promiseModalState bad).promiseInput ≠ requiredPromise := by
    simp only [List.mem_cons, List.mem_singleton, List.not_mem_nil, or_false] at hbad
    rcases hbad with h | h | h | h <;> subst h <;> decide
  exact ((submitPromise_accepts_iff_exact_pledge scenarioEnv
    (promiseModalState bad)).2.2 hne).2.2.1

/-- C12: the load-time promise check sets the promise modal open exactly when a
non-empty "yesterdayLocked" marker is stored and `hasPromised[today]` is not
true; when `hasPromised[today]` is true, or no marker (or an empty one) is
stored, it returns the state as it was. It never changes the ledger, the lock
table, `hasPromised` or the marker. -/
theorem promiseCheck_opens_iff_marker_and_no_promise (env : Env) (s : AppState) :
    ((∃ key, s.yesterdayLocked = some key ∧ key ≠ "") ∧
        objGet s.hasPromised env.today ≠ some true →
      (promiseCheck env s).showPromiseModal = true) ∧
    (objGet s.hasPromised env.today = some true → promiseCheck env s = s) ∧
    (s.yesterdayLocked = none ∨ s.yesterdayLocked = some "" → promiseCheck env s = s) ∧
    ((promiseCheck env s).showPromiseModal ≠ s.showPromiseModal →
      (∃ key, s.yesterdayLocked = some key ∧ key ≠ "") ∧
        objGet s.hasPromised env.today ≠ some true) ∧
    ((promiseCheck env s).trades = s.trades ∧
      (promiseCheck env s).lockedDays = s.lockedDays ∧
      (promiseCheck env s).hasPromised = s.hasPromised ∧
      (promiseCheck env s).yesterdayLocked = s.yesterdayLocked) := by
  have hyes : objGet s.hasPromised env.today = some true → promiseCheck env s = s := by
    intro h
    unfold promiseCheck
    simp [h]
  have hno : s.yesterdayLocked = none ∨ s.yesterdayLocked = some "" →
      promiseCheck env s = s := by
    intro h
    unfold promiseCheck
    rcases h with h | h <;> simp [h]
  have hcases : promiseCheck env s = s ∨
      promiseCheck env s = { s with showPromiseModal := true } := by
    unfold promiseCheck
    dsimp only
    split
    · exact Or.inr rfl
    · exact Or.inl rfl
  refine ⟨?_, hyes, hno, ?_, ?_⟩
  · rintro ⟨⟨key, hkey, hne⟩, hp⟩
    unfold promiseCheck
    have hfalse : (objGet s.hasPromised env.today).getD false = false := by
      cases hget : objGet s.hasPromised env.today with
      | none => rfl
      | some b =>
        cases b with
        | false => rfl
        | true => exact absurd hget hp
    simp [hkey, hne, hfalse]
  · intro hchg
    by_contra hcon
    apply hchg
    have hsame : promiseCheck env s = s := by
      by_cases hp : objGet s.hasPromised env.today = some true
      · exact hyes hp
      · cases hm : s.yesterdayLocked with
        | none => exact hno (Or.inl hm)
        | some key =>
          by_cases hk : key = ""
          · subst hk
            exact hno (Or.inr hm)
          · exact absurd ⟨⟨key, hm, hk⟩, hp⟩ hcon
    rw [hsame]
  · rcases hcases with h | h <;> rw [h] <;> exact ⟨rfl, rfl, rfl, rfl⟩

/-- C12 on the locked scenario state read the next day: the marker is stored
and nothing is promised for "2026-10-6", so the modal opens; once the pledge is
given for that day the check leaves the state alone. -/
theorem promiseCheck_opens_iff_marker_and_no_promise_witness :
    (promiseCheck { scenarioEnv with today := "2026-10-6" } lockedState).showPromiseModal
      = true ∧
    promiseCheck { scenarioEnv with today := "2026-10-6" } promisedState = promisedState :=
  ⟨(promiseCheck_opens_iff_marker_and_no_promise { scenarioEnv with today := "2026-10-6" }
      lockedState).1 ⟨⟨"2026-10-5", by decide, by decide⟩, by decide⟩,
    (promiseCheck_opens_iff_marker_and_no_promise { scenarioEnv with today := "2026-10-6" }
      promisedState).2.1 (by decide)⟩

/-- C13: `submitPromise`, accepting or rejecting, leaves the lock table and the
ledger unchanged, so `isDayLocked` has the same value before and after it for
every bucket. -/
theorem submitPromise_keeps_locks_and_ledger (env : Env) (s : AppState) :
    (submitPromise env s).lockedDays = s.lockedDays ∧
    (submitPromise env s).trades = s.trades ∧
    ∀ w d, isDayLocked env (submitPromise env s).lockedDays w d =
      isDayLocked env s.lockedDays w d := by
  have hl : (submitPromise env s).lockedDays = s.lockedDays := by
    unfold submitPromise
    split <;> rfl
  have ht : (submitPromise env s).trades = s.trades := by
    unfold submitPromise
    split <;> rfl
  exact ⟨hl, ht, fun w d => by rw [hl]⟩

/-! ## Counting completed losses -/

/-- C14: for every ledger and bucket, `countLosses` is the number of entries of
the bucket whose type is "loss" and whose amount is non-empty and parses to a
number above zero; it is 0 when the week or the day is missing from the
ledger; an entry of type "loss" whose amount is undefined, empty, "0" or
unparseable is not counted. -/
theorem countLosses_counts_completed_losses (trades : Ledger) (w d : Nat) :
    countLosses trades w d = specCountLosses (bucketOrEmpty trades w d) ∧
    (trades w = none → countLosses trades w d = 0) ∧
    (∀ days, trades w = some days → days d = none → countLosses trades w d = 0) ∧
    (∀ (e : TradeEntry) (a : String), objGet e "amount" = some (JSVal.str a) →
      (a = "" ∨ a = "0" ∨ parseFloat a = ParsedFloat.nan) → isCompletedLoss e = false) ∧
    (∀ e : TradeEntry, objGet e "amount" = none → isCompletedLoss e = false) ∧
    (∀ (rows : List TradeEntry) (e : TradeEntry), bucketAt trades w d = some rows →
      isCompletedLoss e = false →
      countLosses (setBucket trades w d (rows ++ [e])) w d = countLosses trades w d) := by
  have hspec : ∀ rows : List TradeEntry,
      (rows.filter isCompletedLoss).length = specCountLosses rows := by
    intro rows
    induction rows with
    | nil => rfl
    | cons t rest ih =>
      simp only [List.filter_cons, specCountLosses]
      by_cases ht : isCompletedLoss t = true
      · have hc : objGet t "type" = some (JSVal.str "loss") ∧
            truthy (objGet t "amount") = true ∧
            parseFloatGtZero (objGet t "amount") = true := by
          simpa [isCompletedLoss, and_assoc] using ht
        rw [if_pos ht, if_pos hc, List.length_cons, ih]
        omega
      · have hc : ¬ (objGet t "type" = some (JSVal.str "loss") ∧
            truthy (objGet t "amount") = true ∧
            parseFloatGtZero (objGet t "amount") = true) := by
          simpa [isCompletedLoss, and_assoc] using ht
        rw [if_neg ht, if_neg hc, ih]
        omega
  refine ⟨hspec _, fun h => ?_, fun days h1 h2 => ?_, fun e a ha hbad => ?_, fun e ha => ?_,
    fun rows e hrows he => ?_⟩
  · simp [countLosses, bucketOrEmpty, h]
  · simp [countLosses, bucketOrEmpty, h1, h2]
  · unfold isCompletedLoss
    rw [ha]
    rcases hbad with h | h | h
    · subst h
      simp [truthy]
    · subst h
      have : parseFloatGtZero (some (JSVal.str "0")) = false := by decide
      simp [this]
    · simp [parseFloatGtZero, h, ParsedFloat.gtZero]
  · unfold isCompletedLoss
    rw [ha]
    simp [truthy]
  · rw [countLosses_setBucket_self, countLosses_of_bucketAt _ _ _ _ hrows,
      List.filter_append]
    simp [List.filter_cons, he]

/-! ## Appending and deleting entries -/

/-- C18: when today's bucket is not locked, `addNewTrade` makes today's bucket
the old rows (none when the week or day was missing) followed by exactly one
new entry with type "", amount "", no reason and the clock reading as id; the
old rows keep their positions and contents, every other bucket is unchanged,
and neither the lock table nor the draft changes. -/
theorem addNewTrade_appends_one_entry (env : Env) (s : AppState)
    (hunlocked : isDayLocked env s.lockedDays env.currentWeekIdx env.currentDayIdx = false) :
    ∃ e, bucketAt (addNewTrade env s).trades env.currentWeekIdx env.currentDayIdx =
        some (bucketOrEmpty s.trades env.currentWeekIdx env.currentDayIdx ++ [e]) ∧
      objGet e "type" = some (JSVal.str "") ∧
      objGet e "amount" = some (JSVal.str "") ∧
      objGet e "reason" = none ∧
      objGet e "id" = some (JSVal.num (env.now : Int)) ∧
      (bucketOrEmpty (addNewTrade env s).trades env.currentWeekIdx env.currentDayIdx).length =
        (bucketOrEmpty s.trades env.currentWeekIdx env.currentDayIdx).length + 1 ∧
      (∀ i, i < (bucketOrEmpty s.trades env.currentWeekIdx env.currentDayIdx).length →
        (bucketOrEmpty (addNewTrade env s).trades env.currentWeekIdx env.currentDayIdx)[i]? =
          (bucketOrEmpty s.trades env.currentWeekIdx env.currentDayIdx)[i]?) ∧
      (∀ w1 d1, ¬ (w1 = env.currentWeekIdx ∧ d1 = env.currentDayIdx) →
        bucketAt (addNewTrade env s).trades w1 d1 = bucketAt s.trades w1 d1) ∧
      (addNewTrade env s).lockedDays = s.lockedDays ∧
      (addNewTrade env s).pendingLossData = s.pendingLossData := by
  have hs : addNewTrade env s =
      { s with
        trades := setBucket s.trades env.currentWeekIdx env.currentDayIdx
          (bucketOrEmpty s.trades env.currentWeekIdx env.currentDayIdx ++
            [[("type", JSVal.str ""), ("amount", JSVal.str ""),
              ("id", JSVal.num (env.now : Int))]]) } := by
    unfold addNewTrade
    rw [hunlocked, bucketOrEmpty_eq]
    rfl
  rw [hs]
  refine ⟨_, bucketAt_setBucket_self _ _ _ _, ?_, ?_, ?_, ?_, ?_, ?_, ?_, rfl, rfl⟩
  · simp [objGet]
  · simp [objGet]
  · simp [objGet]
  · simp [objGet]
  · simp [bucketOrEmpty_eq, bucketAt_setBucket_self]
  · intro i hi
    simp only [bucketOrEmpty_eq _ (env.currentWeekIdx), bucketAt_setBucket_self,
      Option.getD_some]
    rw [← bucketOrEmpty_eq]
    exact List.getElem?_append_left hi
  · intro w1 d1 hne
    exact bucketAt_setBucket_ne _ _ _ _ _ _ hne

/-- C18 on the empty ledger: `addNewTrade` gives a one-entry bucket whose entry
has type "" and amount "". -/
theorem addNewTrade_appends_one_entry_witness :
    ∃ e, bucketAt (addNewTrade { scenarioEnv with now := 1 } initialState).trades 0 3 = some [e] ∧
      objGet e "type" = some (JSVal.str "") ∧ objGet e "amount" = some (JSVal.str "") ∧
      objGet e "reason" = none := by
  obtain ⟨e, hb, ht, ha, hr, _⟩ :=
    addNewTrade_appends_one_entry { scenarioEnv with now := 1 } initialState (by decide)
  exact ⟨e, hb, ht, ha, hr⟩

/-- C19: for today's bucket with rows e_0 .. e_(n-1) and a row index r < n,
`deleteTrade` yields the rows before r followed by the rows after r: the
length is n - 1, every index below r reads the same entry, every index from r
on reads the entry that was one position higher, and every other bucket is
unchanged. -/
theorem deleteTrade_removes_row_and_shifts (env : Env) (s : AppState)
    (rows : List TradeEntry) (r : Nat)
    (hrows : bucketAt s.trades env.currentWeekIdx env.currentDayIdx = some rows)
    (hr : r < rows.length) :
    ∃ s1 rows1, deleteTrade env s env.currentWeekIdx env.currentDayIdx r = some s1 ∧
      bucketAt s1.trades env.currentWeekIdx env.currentDayIdx = some rows1 ∧
      rows1 = rows.take r ++ rows.drop (r + 1) ∧
      rows1.length + 1 = rows.length ∧
      (∀ i, i < r → rows1[i]? = rows[i]?) ∧
      (∀ i, r ≤ i → rows1[i]? = rows[i + 1]?) ∧
      (∀ w1 d1, ¬ (w1 = env.currentWeekIdx ∧ d1 = env.currentDayIdx) →
        bucketAt s1.trades w1 d1 = bucketAt s.trades w1 d1) := by
  have htoday : isToday env env.currentWeekIdx env.currentDayIdx = true := by
    simp [isToday]
  simp only [deleteTrade, htoday, hrows, Bool.not_true, Bool.false_eq_true, if_false]
  refine ⟨_, rows.eraseIdx r, rfl, ?_, ?_, ?_, ?_, ?_, ?_⟩
  · simp only [addToast, bucketAt_setBucket_self]
  · exact List.eraseIdx_eq_take_drop_succ rows r
  · rw [List.length_eraseIdx_of_lt hr]
    omega
  · intro i hi
    exact List.getElem?_eraseIdx_of_lt rows r i hi
  · intro i hi
    exact List.getElem?_eraseIdx_of_ge rows r i hi
  · intro w1 d1 hne
    simp only [addToast]
    exact bucketAt_setBucket_ne _ _ _ _ _ _ hne

/-- C19 on the locked scenario state: deleting row 0 leaves the former row 1,
the loss of amount "50", at index 0. -/
theorem deleteTrade_removes_row_and_shifts_witness :
    ∃ s1 rows1, deleteTrade scenarioEnv lockedState 0 3 0 = some s1 ∧
      bucketAt s1.trades 0 3 = some rows1 ∧ rows1.length = 1 ∧
      (rows1[0]?).bind (fun e => objGet e "amount") = some (JSVal.str "50") := by
  obtain ⟨s1, rows1, h1, hb, heq, _, _, _, _⟩ :=
    deleteTrade_removes_row_and_shifts scenarioEnv lockedState
      [[("type", JSVal.str "loss"), ("amount", JSVal.str "100"), ("id", JSVal.num 1),
        ("reason", JSVal.str "no SL")],
       [("type", JSVal.str "loss"), ("amount", JSVal.str "50"), ("id", JSVal.num 6),
        ("reason", JSVal.str "no SL")]] 0 (by decide) (by decide)
  refine ⟨s1, rows1, h1, hb, ?_, ?_⟩
  · rw [heq]
    decide
  · rw [heq]
    decide

/-! ## Reasons and entry types -/

theorem entryAt_setBucket_self (trades : Ledger) (w d i : Nat) (rows : List TradeEntry) :
    entryAt (setBucket trades w d rows) w d i = rows[i]? := by
  simp [entryAt, bucketAt_setBucket_self]

theorem entryAt_setBucket_ne (trades : Ledger) (w d w1 d1 i : Nat) (rows : List TradeEntry)
    (h : ¬ (w1 = w ∧ d1 = d)) :
    entryAt (setBucket trades w d rows) w1 d1 i = entryAt trades w1 d1 i := by
  simp [entryAt, bucketAt_setBucket_ne _ _ _ _ _ _ h]

theorem entryAt_of_bucketAt (trades : Ledger) (w d i : Nat) (rows : List TradeEntry)
    (h : bucketAt trades w d = some rows) : entryAt trades w d i = rows[i]? := by
  simp [entryAt, h]

/-- Replacing one bucket by rows that respect the rule keeps the rule. -/
theorem reasonOnlyOnLoss_setBucket (trades : Ledger) (w d : Nat) (rows : List TradeEntry)
    (hinv : ReasonOnlyOnLoss trades)
    (hrows : ∀ (i : Nat) (e : TradeEntry), rows[i]? = some e → objGet e "reason" ≠ none →
      objGet e "type" = some (JSVal.str "loss")) :
    ReasonOnlyOnLoss (setBucket trades w d rows) := by
  intro w1 d1 i e he hreason
  by_cases hwd : w1 = w ∧ d1 = d
  · obtain ⟨rfl, rfl⟩ := hwd
    rw [entryAt_setBucket_self] at he
    exact hrows i e he hreason
  · rw [entryAt_setBucket_ne _ _ _ _ _ _ _ hwd] at he
    exact hinv w1 d1 i e he hreason

theorem addNewTrade_keeps_reasonOnlyOnLoss (env : Env) (s : AppState)
    (hinv : ReasonOnlyOnLoss s.trades) : ReasonOnlyOnLoss (addNewTrade env s).trades := by
  unfold addNewTrade
  split
  · exact hinv
  · apply reasonOnlyOnLoss_setBucket _ _ _ _ hinv
    intro i e he hreason
    cases hb : bucketAt s.trades env.currentWeekIdx env.currentDayIdx with
    | none =>
      rw [hb] at he
      cases i with
      | zero =>
        simp only [Option.getD_none, List.nil_append, List.getElem?_cons_zero,
          Option.some.injEq] at he
        subst he
        exact absurd (by simp [objGet]) hreason
      | succ j => simp at he
    | some rows =>
      rw [hb] at he
      simp only [Option.getD_some] at he
      by_cases hi : i < rows.length
      · rw [List.getElem?_append_left hi] at he
        exact hinv _ _ i e (by rw [entryAt_of_bucketAt _ _ _ _ _ hb]; exact he) hreason
      · rw [List.getElem?_append_right (by omega)] at he
        cases hj : i - rows.length with
        | zero =>
          rw [hj] at he
          simp only [List.getElem?_cons_zero, Option.some.injEq] at he
          subst he
          exact absurd (by simp [objGet]) hreason
        | succ j =>
          rw [hj] at he
          simp at he

theorem handleTradeChange_keeps_reasonOnlyOnLoss (env : Env) (s s1 : AppState)
    (w d r : Nat) (field : String) (value : JSVal)
    (h : handleTradeChange env s w d r field value = some s1)
    (hinv : ReasonOnlyOnLoss s.trades)
    (hgate : leavesReasonToGate s (Event.handleTradeChange w d r field value) = true) :
    ReasonOnlyOnLoss s1.trades := by
  unfold handleTradeChange at h
  split at h
  · cases h; exact hinv
  split at h
  · cases h; exact hinv
  split at h
  · cases hb : bucketAt s.trades w d with
    | none => simp [hb] at h
    | some rows =>
      cases hrow : rows[r]? with
      | none => simp [hb, hrow] at h
      | some row =>
        simp only [hb, hrow] at h
        cases h
        exact hinv
  · cases hb : bucketAt s.trades w d with
    | none => simp [hb] at h
    | some rows =>
      cases hrow : rows[r]? with
      | none => simp [hb, hrow] at h
      | some row =>
        simp only [hb, hrow] at h
        cases h
        apply reasonOnlyOnLoss_setBucket _ _ _ _ hinv
        intro i e he hreason
        have hentry : entryAt s.trades w d r = some row := by
          rw [entryAt_of_bucketAt _ _ _ _ _ hb]; exact hrow
        simp only [leavesReasonToGate, hentry, Option.bind_some, Bool.and_eq_true,
          Bool.or_eq_true, decide_eq_true_eq] at hgate
        obtain ⟨hfr, hft⟩ := hgate
        by_cases hi : i = r
        · subst hi
          have hlt : i < rows.length := by
            by_contra hge
            have : rows[i]? = none := List.getElem?_eq_none (by omega)
            rw [this] at hrow
            cases hrow
          rw [List.getElem?_set_self hlt] at he
          cases he
          rw [objGet_objSet_ne _ _ _ _ (fun e0 => hfr e0.symm)] at hreason
          rcases hft with hft | hft
          · rw [objGet_objSet_ne _ _ _ _ (fun e0 => hft e0.symm)]
            exact hinv w d i row hentry hreason
          · exact absurd hft hreason
        · rw [List.getElem?_set_ne (fun e0 => hi e0.symm)] at he
          exact hinv w d i e (by rw [entryAt_of_bucketAt _ _ _ _ _ hb]; exact he) hreason

theorem confirmLossWithReason_keeps_reasonOnlyOnLoss (env : Env) (s s1 : AppState)
    (h : confirmLossWithReason env s = some s1) (hinv : ReasonOnlyOnLoss s.trades) :
    ReasonOnlyOnLoss s1.trades := by
  unfold confirmLossWithReason at h
  cases hp : s.pendingLossData with
  | none =>
    simp only [hp] at h
    cases h
    exact hinv
  | some p =>
    simp only [hp] at h
    split at h
    · cases h; exact hinv
    split at h
    · cases h; exact hinv
    cases hb : bucketAt s.trades p.weekIdx p.dayIdx with
    | none => simp [hb] at h
    | some rows =>
      cases hrow : rows[p.rowIdx]? with
      | none => simp [hb, hrow] at h
      | some row =>
        simp only [hb, hrow] at h
        have hrule : ∀ (i : Nat) (e : TradeEntry),
            (rows.set p.rowIdx (objSet (objSet row "type" (JSVal.str "loss")) "reason"
              (JSVal.str (jsTrim s.lossReasonInput))))[i]? = some e →
            objGet e "reason" ≠ none → objGet e "type" = some (JSVal.str "loss") := by
          intro i e he hreason
          by_cases hi : i = p.rowIdx
          · subst hi
            have hlt : p.rowIdx < rows.length := by
              by_contra hge
              have : rows[p.rowIdx]? = none := List.getElem?_eq_none (by omega)
              rw [this] at hrow
              cases hrow
            rw [List.getElem?_set_self hlt] at he
            cases he
            rw [objGet_objSet_ne _ _ _ _ (by decide), objGet_objSet_self]
          · rw [List.getElem?_set_ne (fun e0 => hi e0.symm)] at he
            exact hinv p.weekIdx p.dayIdx i e
              (by rw [entryAt_of_bucketAt _ _ _ _ _ hb]; exact he) hreason
        split at h
        · cases h
          exact reasonOnlyOnLoss_setBucket _ _ _ _ hinv hrule
        · cases h
          exact reasonOnlyOnLoss_setBucket _ _ _ _ hinv hrule

theorem deleteTrade_keeps_reasonOnlyOnLoss (env : Env) (s s1 : AppState) (w d r : Nat)
    (h : deleteTrade env s w d r = some s1) (hinv : ReasonOnlyOnLoss s.trades) :
    ReasonOnlyOnLoss s1.trades := by
  unfold deleteTrade at h
  split at h
  · cases h; exact hinv
  · cases hb : bucketAt s.trades w d with
    | none => simp [hb] at h
    | some rows =>
      simp only [hb] at h
      cases h
      apply reasonOnlyOnLoss_setBucket _ _ _ _ hinv
      intro i e he hreason
      by_cases hi : i < r
      · rw [List.getElem?_eraseIdx_of_lt rows r i hi] at he
        exact hinv w d i e (by rw [entryAt_of_bucketAt _ _ _ _ _ hb]; exact he) hreason
      · rw [List.getElem?_eraseIdx_of_ge rows r i (by omega)] at he
        exact hinv w d (i + 1) e (by rw [entryAt_of_bucketAt _ _ _ _ _ hb]; exact he) hreason

theorem checkLocks_trades (env : Env) (s : AppState) : (checkLocks env s).trades = s.trades := by
  unfold checkLocks
  by_cases hc : (sweep env.today s.lockedDays).changed = true
  · rw [if_pos hc]
  · rw [if_neg hc]

theorem submitPromise_trades (env : Env) (s : AppState) :
    (submitPromise env s).trades = s.trades := by
  unfold submitPromise
  split <;> rfl

theorem step_keeps_reasonOnlyOnLoss (env : Env) (s : AppState) (ev : Event)
    (hinv : ReasonOnlyOnLoss s.trades) (hgate : leavesReasonToGate s ev = true) :
    ReasonOnlyOnLoss (step env s ev).trades := by
  cases ev with
  | addNewTrade => exact addNewTrade_keeps_reasonOnlyOnLoss env s hinv
  | handleTradeChange w d r field value =>
    simp only [step]
    cases h : handleTradeChange env s w d r field value with
    | none => exact hinv
    | some s1 =>
      exact handleTradeChange_keeps_reasonOnlyOnLoss env s s1 w d r field value h hinv hgate
  | confirmLossWithReason =>
    simp only [step]
    cases h : confirmLossWithReason env s with
    | none => exact hinv
    | some s1 => exact confirmLossWithReason_keeps_reasonOnlyOnLoss env s s1 h hinv
  | cancelLossSelection => exact hinv
  | deleteTrade w d r =>
    simp only [step]
    cases h : deleteTrade env s w d r with
    | none => exact hinv
    | some s1 => exact deleteTrade_keeps_reasonOnlyOnLoss env s s1 w d r h hinv
  | checkLocks =>
    simp only [step, checkLocks_trades]
    exact hinv
  | submitPromise =>
    simp only [step, submitPromise_trades]
    exact hinv
  | setLossReasonInput value => exact hinv
  | setConfessionChecked checked => exact hinv
  | setPromiseInput value => exact hinv

theorem runWith_keeps_reasonOnlyOnLoss (events : List (Env × Event)) (s : AppState)
    (hinv : ReasonOnlyOnLoss s.trades) (hgate : reasonsLeftToGate s events = true) :
    ReasonOnlyOnLoss (runWith s events).trades := by
  induction events generalizing s with
  | nil => exact hinv
  | cons ee rest ih =>
    simp only [reasonsLeftToGate, Bool.and_eq_true] at hgate
    have hstep := step_keeps_reasonOnlyOnLoss ee.1 s ee.2 hinv hgate.1
    exact ih (step ee.1 s ee.2) hstep hgate.2

/-- C20, as stated, fails. After the first confirmed loss of the scenario the
selector changes the type of that entry to "profit": the entry keeps its
reason "no SL". And a `handleTradeChange` with field "reason" writes a reason
on a fresh entry whose type is unset. In both reached states an entry carries
a reason without having type "loss". -/
theorem reason_on_entry_that_is_not_a_loss :
    ¬ ReasonOnlyOnLoss (run scenarioEnv initialState lossThenProfitEvents).trades ∧
    entryAt (run scenarioEnv initialState lossThenProfitEvents).trades 0 3 0 =
      some [("type", JSVal.str "profit"), ("amount", JSVal.str "100"), ("id", JSVal.num 1),
        ("reason", JSVal.str "no SL")] ∧
    ¬ ReasonOnlyOnLoss (run scenarioEnv initialState reasonFieldEvents).trades ∧
    entryAt (run scenarioEnv initialState reasonFieldEvents).trades 0 3 0 =
      some [("type", JSVal.str ""), ("amount", JSVal.str ""), ("id", JSVal.num 1),
        ("reason", JSVal.str "typed by hand")] := by
  refine ⟨fun h => ?_, by decide, fun h => ?_, by decide⟩
  · have := h 0 3 0 [("type", JSVal.str "profit"), ("amount", JSVal.str "100"),
      ("id", JSVal.num 1), ("reason", JSVal.str "no SL")] (by decide) (by decide)
    revert this
    decide
  · have := h 0 3 0 [("type", JSVal.str ""), ("amount", JSVal.str ""), ("id", JSVal.num 1),
      ("reason", JSVal.str "typed by hand")] (by decide) (by decide)
    revert this
    decide

/-- C20, amended: in every state reached from the initial empty ledger by any
sequence of events (the handlers, on any days) in which no `handleTradeChange`
has field "reason" and none has field "type" on an entry that carries a reason,
every trade entry that carries a reason has type "loss". -/
theorem reason_only_on_loss_when_left_to_gate (events : List (Env × Event))
    (hgate : reasonsLeftToGate initialState events = true) :
    ReasonOnlyOnLoss (runWith initialState events).trades := by
  apply runWith_keeps_reasonOnlyOnLoss events initialState _ hgate
  intro w d i e he _
  exfalso
  have hrows : ∀ rows, bucketAt initialTrades w d = some rows → rows = [] := by
    intro rows h
    unfold bucketAt initialTrades at h
    by_cases hw : w < WEEKS.length
    · by_cases hd : d < DAYS.length
      · simp only [hw, hd, if_true, Option.some.injEq] at h
        exact h.symm
      · simp [hw, hd] at h
    · simp [hw] at h
  have hinit : initialState.trades = initialTrades := rfl
  rw [hinit] at he
  unfold entryAt at he
  cases hb : bucketAt initialTrades w d with
  | none => simp [hb] at he
  | some rows =>
    rw [hb] at he
    rw [hrows rows hb] at he
    simp at he

/-- C20 amended, on the first loss of the scenario: the trace leaves reasons to
the gate, and the entry it produces carries the reason "no SL" with type
"loss". -/
theorem reason_only_on_loss_when_left_to_gate_witness :
    reasonsLeftToGate initialState firstLossEventsWith = true ∧
    ReasonOnlyOnLoss (runWith initialState firstLossEventsWith).trades ∧
    (entryAt (runWith initialState firstLossEventsWith).trades 0 3 0).bind
      (fun e => objGet e "reason") = some (JSVal.str "no SL") :=
  ⟨by decide, reason_only_on_loss_when_left_to_gate firstLossEventsWith (by decide),
    by decide⟩

/-! ## Day and week totals -/

/-- C16: in every number model, `calculateWeekTotal(w)` is the sum, taken from
0 in the order d = 0, 1, .., 6, of `calculateDayTotal(w, d)`; a day missing
from the ledger, like every day of a missing week, has day total 0. In a
number model whose addition is that of a commutative monoid the week total is
the sum over the seven day indices in any order. -/
theorem calculateWeekTotal_sums_seven_days {N : Type} (ops : NumOps N) (trades : Ledger)
    (w : Nat) :
    calculateWeekTotal ops trades w =
      ops.add (ops.add (ops.add (ops.add (ops.add (ops.add (ops.add ops.zero
        (calculateDayTotal ops trades w 0)) (calculateDayTotal ops trades w 1))
        (calculateDayTotal ops trades w 2)) (calculateDayTotal ops trades w 3))
        (calculateDayTotal ops trades w 4)) (calculateDayTotal ops trades w 5))
        (calculateDayTotal ops trades w 6) ∧
    (∀ d, bucketAt trades w d = none → calculateDayTotal ops trades w d = ops.zero) ∧
    (∀ [AddCommMonoid N], ops.zero = 0 → (∀ x y, ops.add x y = x + y) →
      calculateWeekTotal ops trades w =
        ∑ d in Finset.range 7, calculateDayTotal ops trades w d) := by
  have hexp : calculateWeekTotal ops trades w =
      ops.add (ops.add (ops.add (ops.add (ops.add (ops.add (ops.add ops.zero
        (calculateDayTotal ops trades w 0)) (calculateDayTotal ops trades w 1))
        (calculateDayTotal ops trades w 2)) (calculateDayTotal ops trades w 3))
        (calculateDayTotal ops trades w 4)) (calculateDayTotal ops trades w 5))
        (calculateDayTotal ops trades w 6) := by
    have hrange : List.range DAYS.length = [0, 1, 2, 3, 4, 5, 6] := by decide
    simp only [calculateWeekTotal, hrange, List.foldl_cons, List.foldl_nil]
  refine ⟨hexp, fun d hd => ?_, ?_⟩
  · simp [calculateDayTotal, bucketOrEmpty_eq, hd]
  · intro inst hzero hadd
    rw [hexp]
    simp only [hzero, hadd, Finset.sum_range_succ, Finset.sum_range_zero]

/-! ## Rounding -/

theorem roundHalfEven_cases (q : ℚ) :
    (roundHalfEven q = ⌊q⌋ ∧ q - ⌊q⌋ ≤ 1 / 2) ∨
    (roundHalfEven q = ⌊q⌋ + 1 ∧ 1 / 2 ≤ q - ⌊q⌋) := by
  unfold roundHalfEven
  by_cases h1 : q - ⌊q⌋ < 1 / 2
  · left
    rw [if_pos h1]
    exact ⟨rfl, le_of_lt h1⟩
  · rw [if_neg h1]
    by_cases h2 : 1 / 2 < q - ⌊q⌋
    · right
      rw [if_pos h2]
      exact ⟨rfl, le_of_lt h2⟩
    · rw [if_neg h2]
      have heq : q - ⌊q⌋ = 1 / 2 := le_antisymm (not_lt.mp h2) (not_lt.mp h1)
      by_cases h3 : ⌊q⌋ % 2 = 0
      · left
        rw [if_pos h3]
        exact ⟨rfl, le_of_eq heq⟩
      · right
        rw [if_neg h3]
        exact ⟨rfl, le_of_eq heq.symm⟩

theorem abs_roundHalfEven_sub_le (q : ℚ) : |(roundHalfEven q : ℚ) - q| ≤ 1 / 2 := by
  have hfl := Int.floor_le q
  have hlt := Int.lt_floor_add_one q
  rw [abs_le]
  rcases roundHalfEven_cases q with ⟨h, hb⟩ | ⟨h, hb⟩
  · rw [h]
    constructor <;> linarith
  · rw [h]
    push_cast
    constructor <;> linarith

theorem roundHalfEven_le_of_le (q : ℚ) (k : Int) (h : q ≤ k) : roundHalfEven q ≤ k := by
  have hfl := Int.floor_le q
  rcases roundHalfEven_cases q with ⟨hr, _⟩ | ⟨hr, hb⟩
  · rw [hr]
    have : (⌊q⌋ : ℚ) ≤ k := le_trans hfl h
    exact_mod_cast this
  · rw [hr]
    have : (⌊q⌋ : ℚ) < k := by linarith
    have : ⌊q⌋ < k := by exact_mod_cast this
    omega

theorem le_roundHalfEven_of_le (q : ℚ) (k : Int) (h : (k : ℚ) ≤ q) : k ≤ roundHalfEven q := by
  have hk : k ≤ ⌊q⌋ := Int.le_floor.mpr h
  rcases roundHalfEven_cases q with ⟨hr, _⟩ | ⟨hr, _⟩
  · rw [hr]; exact hk
  · rw [hr]; omega

theorem roundDouble_nonneg (q : ℚ) : 0 ≤ roundDouble q := by
  unfold roundDouble
  by_cases h : q ≤ 0
  · rw [if_pos h]
  · rw [if_neg h]
    have hq : 0 < q := lt_of_not_le h
    have hu : (0 : ℚ) < 2 ^ (Int.log 2 q - 52) := zpow_pos (by norm_num) _
    have h0 : (0 : Int) ≤ roundHalfEven (q / 2 ^ (Int.log 2 q - 52)) :=
      le_roundHalfEven_of_le _ 0 (by
        push_cast
        exact le_of_lt (div_pos hq hu))
    have h1 : (0 : ℚ) ≤ (roundHalfEven (q / 2 ^ (Int.log 2 q - 52)) : ℚ) := by
      exact_mod_cast h0
    exact mul_nonneg h1 (le_of_lt hu)

/-- The rounding error is at most half a unit in the last place, hence at most
`q / 2 ^ 53`. -/
theorem abs_roundDouble_sub_le (q : ℚ) (hq : 0 ≤ q) :
    |roundDouble q - q| ≤ q / 2 ^ 53 := by
  unfold roundDouble
  by_cases h : q ≤ 0
  · rw [if_pos h]
    have : q = 0 := le_antisymm h hq
    subst this
    simp
  · rw [if_neg h]
    have hpos : 0 < q := lt_of_not_le h
    have hu : (0 : ℚ) < 2 ^ (Int.log 2 q - 52) := zpow_pos (by norm_num) _
    have hlog : ((2 : ℕ) : ℚ) ^ Int.log 2 q ≤ q := Int.zpow_log_le_self (by norm_num) hpos
    have hsplit : (2 : ℚ) ^ (Int.log 2 q - 52) = 2 ^ Int.log 2 q / 2 ^ 52 := by
      rw [zpow_sub₀ (by norm_num : (2 : ℚ) ≠ 0)]
      norm_num
    have hule : (2 : ℚ) ^ (Int.log 2 q - 52) ≤ q / 2 ^ 52 := by
      rw [hsplit]
      apply div_le_div_of_nonneg_right _ (by positivity)
      exact_mod_cast hlog
    have herr := abs_roundHalfEven_sub_le (q / 2 ^ (Int.log 2 q - 52))
    have hfactor : (roundHalfEven (q / 2 ^ (Int.log 2 q - 52)) : ℚ) * 2 ^ (Int.log 2 q - 52) - q
        = ((roundHalfEven (q / 2 ^ (Int.log 2 q - 52)) : ℚ) - q / 2 ^ (Int.log 2 q - 52))
          * 2 ^ (Int.log 2 q - 52) := by
      field_simp
    rw [hfactor, abs_mul, abs_of_pos hu]
    calc |(roundHalfEven (q / 2 ^ (Int.log 2 q - 52)) : ℚ) - q / 2 ^ (Int.log 2 q - 52)|
          * 2 ^ (Int.log 2 q - 52)
        ≤ 1 / 2 * (q / 2 ^ 52) := mul_le_mul herr hule (le_of_lt hu) (by norm_num)
      _ = q / 2 ^ 53 := by ring

/-- A natural number below `2 ^ 53` bounds the rounded value of whatever it
bounds: it is itself a double. -/
theorem roundDouble_le_nat (q : ℚ) (c : Nat) (hc : (c : ℚ) < 2 ^ 53) (h : q ≤ c) :
    roundDouble q ≤ c := by
  unfold roundDouble
  by_cases h0 : q ≤ 0
  · rw [if_pos h0]
    exact Nat.cast_nonneg c
  · rw [if_neg h0]
    have hpos : 0 < q := lt_of_not_le h0
    have hu : (0 : ℚ) < 2 ^ (Int.log 2 q - 52) := zpow_pos (by norm_num) _
    have hlt : q < ((2 : ℕ) : ℚ) ^ (53 : Int) := by
      have : q < 2 ^ 53 := lt_of_le_of_lt h hc
      exact_mod_cast this
    have hlog : Int.log 2 q < 53 := (Int.lt_zpow_iff_log_lt (by norm_num) hpos).mp hlt
    obtain ⟨j, hj⟩ : ∃ j : Nat, (j : Int) = 52 - Int.log 2 q :=
      ⟨(52 - Int.log 2 q).toNat, Int.toNat_of_nonneg (by omega)⟩
    have hinv : ((2 : ℚ) ^ (Int.log 2 q - 52))⁻¹ = 2 ^ j := by
      rw [← zpow_neg, ← zpow_natCast, hj]
      congr 1
      omega
    have hle : q / 2 ^ (Int.log 2 q - 52) ≤ ((c * 2 ^ j : Nat) : Int) := by
      rw [div_eq_mul_inv, hinv]
      push_cast
      exact mul_le_mul_of_nonneg_right h (by positivity)
    have hr := roundHalfEven_le_of_le _ _ hle
    have hr2 : (roundHalfEven (q / 2 ^ (Int.log 2 q - 52)) : ℚ) ≤ (c : ℚ) * 2 ^ j := by
      exact_mod_cast hr
    calc (roundHalfEven (q / 2 ^ (Int.log 2 q - 52)) : ℚ) * 2 ^ (Int.log 2 q - 52)
        ≤ ((c : ℚ) * 2 ^ j) * 2 ^ (Int.log 2 q - 52) :=
          mul_le_mul_of_nonneg_right hr2 (le_of_lt hu)
      _ = c := by
          rw [← hinv]
          field_simp

/-- The double `(w / t) * 100` for counts `w ≤ t`, `0 < t`: it lies in
`[0, 100]` and differs from the exact `100 w / t` by at most `2 ^ (-45)`. -/
theorem winRateDouble_bounds (w t : Nat) (ht : 0 < t) (hwt : w ≤ t) :
    0 ≤ winRateDouble w t ∧ winRateDouble w t ≤ 100 ∧
    |winRateDouble w t - 100 * (w : ℚ) / (t : ℚ)| ≤ 1 / 2 ^ 45 := by
  have htq : (0 : ℚ) < t := by exact_mod_cast ht
  have hq0 : (0 : ℚ) ≤ (w : ℚ) / t := div_nonneg (Nat.cast_nonneg w) (le_of_lt htq)
  have hq1 : (w : ℚ) / t ≤ 1 := by
    rw [div_le_one htq]
    exact_mod_cast hwt
  have hy0 := roundDouble_nonneg ((w : ℚ) / t)
  have hy1 : roundDouble ((w : ℚ) / t) ≤ 1 := by
    have := roundDouble_le_nat ((w : ℚ) / t) 1 (by norm_num) (by simpa using hq1)
    simpa using this
  have hyerr := abs_roundDouble_sub_le ((w : ℚ) / t) hq0
  have hz0 : 0 ≤ roundDouble ((w : ℚ) / t) * 100 := by positivity
  have hz1 : roundDouble ((w : ℚ) / t) * 100 ≤ (100 : Nat) := by
    push_cast
    linarith
  have hx1 : winRateDouble w t ≤ 100 := by
    have := roundDouble_le_nat _ 100 (by norm_num) hz1
    simpa [winRateDouble] using this
  have hxerr := abs_roundDouble_sub_le _ hz0
  refine ⟨roundDouble_nonneg _, hx1, ?_⟩
  have hsplit : winRateDouble w t - 100 * (w : ℚ) / t =
      (roundDouble (roundDouble ((w : ℚ) / t) * 100) - roundDouble ((w : ℚ) / t) * 100) +
        100 * (roundDouble ((w : ℚ) / t) - (w : ℚ) / t) := by
    unfold winRateDouble
    ring
  rw [hsplit]
  have h1 : |roundDouble (roundDouble ((w : ℚ) / t) * 100) - roundDouble ((w : ℚ) / t) * 100|
      ≤ 100 / 2 ^ 53 := by
    refine le_trans hxerr ?_
    apply div_le_div_of_nonneg_right _ (by positivity)
    linarith
  have h2 : |100 * (roundDouble ((w : ℚ) / t) - (w : ℚ) / t)| ≤ 100 / 2 ^ 53 := by
    rw [abs_mul, abs_of_pos (by norm_num : (0 : ℚ) < 100)]
    have : |roundDouble ((w : ℚ) / t) - (w : ℚ) / t| ≤ 1 / 2 ^ 53 := by
      refine le_trans hyerr ?_
      apply div_le_div_of_nonneg_right hq1 (by positivity)
    calc 100 * |roundDouble ((w : ℚ) / t) - (w : ℚ) / t| ≤ 100 * (1 / 2 ^ 53) :=
          mul_le_mul_of_nonneg_left this (by norm_num)
      _ = 100 / 2 ^ 53 := by ring
  calc |(roundDouble (roundDouble ((w : ℚ) / t) * 100) - roundDouble ((w : ℚ) / t) * 100) +
        100 * (roundDouble ((w : ℚ) / t) - (w : ℚ) / t)|
      ≤ |roundDouble (roundDouble ((w : ℚ) / t) * 100) - roundDouble ((w : ℚ) / t) * 100| +
        |100 * (roundDouble ((w : ℚ) / t) - (w : ℚ) / t)| := abs_add _ _
    _ ≤ 100 / 2 ^ 53 + 100 / 2 ^ 53 := add_le_add h1 h2
    _ ≤ 1 / 2 ^ 45 := by norm_num

/-- The integer of tenths printed by `toFixed(1)`: within half a tenth of its
argument, and between 0 and 1000 for an argument in `[0, 100]`. -/
theorem toFixedTenths_bounds (x : ℚ) (h0 : 0 ≤ x) (h1 : x ≤ 100) :
    0 ≤ toFixedTenths x ∧ toFixedTenths x ≤ 1000 ∧
    |(toFixedTenths x : ℚ) - 10 * x| ≤ 1 / 2 := by
  unfold toFixedTenths
  have hfl := Int.floor_le (10 * x + 1 / 2)
  have hlt := Int.lt_floor_add_one (10 * x + 1 / 2)
  refine ⟨Int.floor_nonneg.mpr (by linarith), ?_, ?_⟩
  · have : ⌊10 * x + 1 / 2⌋ < 1001 := by
      rw [Int.floor_lt]
      push_cast
      linarith
    omega
  · rw [abs_le]
    constructor <;> linarith

/-- When the number of trades is below `2 ^ 45 / 20`, the printed tenths are a
nearest tenth of the exact rate `100 w / t`. -/
theorem toFixedTenths_winRateDouble_nearest (w t : Nat) (ht : 0 < t) (hwt : w ≤ t)
    (hsmall : 20 * t < 2 ^ 45) :
    |(toFixedTenths (winRateDouble w t) : ℚ) - 1000 * (w : ℚ) / (t : ℚ)| ≤ 1 / 2 := by
  obtain ⟨hx0, hx1, hxerr⟩ := winRateDouble_bounds w t ht hwt
  obtain ⟨_, _, hn⟩ := toFixedTenths_bounds (winRateDouble w t) hx0 hx1
  have htq : (0 : ℚ) < t := by exact_mod_cast ht
  set n := toFixedTenths (winRateDouble w t) with hndef
  set x := winRateDouble w t with hxdef
  have hloose : |(n : ℚ) - 1000 * (w : ℚ) / t| ≤ 1 / 2 + 10 / 2 ^ 45 := by
    have hsplit : (n : ℚ) - 1000 * (w : ℚ) / t =
        ((n : ℚ) - 10 * x) + 10 * (x - 100 * (w : ℚ) / t) := by ring
    rw [hsplit]
    have h10 : |10 * (x - 100 * (w : ℚ) / t)| ≤ 10 / 2 ^ 45 := by
      rw [abs_mul, abs_of_pos (by norm_num : (0 : ℚ) < 10)]
      calc 10 * |x - 100 * (w : ℚ) / t| ≤ 10 * (1 / 2 ^ 45) :=
            mul_le_mul_of_nonneg_left hxerr (by norm_num)
        _ = 10 / 2 ^ 45 := by ring
    exact le_trans (abs_add _ _) (add_le_add hn h10)
  have hD : (n : ℚ) - 1000 * (w : ℚ) / t = ((n * t - 1000 * w : Int) : ℚ) / t := by
    push_cast
    field_simp
  rw [hD, abs_div, abs_of_pos htq, div_le_iff₀ htq] at hloose ⊢
  have hcast : |((n * t - 1000 * w : Int) : ℚ)| = ((|n * t - 1000 * w| : Int) : ℚ) := by
    rw [Int.cast_abs]
  rw [hcast] at hloose ⊢
  have hsmallq : (20 : ℚ) * t < 2 ^ 45 := by exact_mod_cast hsmall
  have hlt : (2 * |n * (t : Int) - 1000 * w| : ℚ) < t + 1 := by
    have : (2 : ℚ) * ((|n * (t : Int) - 1000 * w| : Int) : ℚ) ≤ t + 20 * t / 2 ^ 45 := by
      have := mul_le_mul_of_nonneg_left hloose (by norm_num : (0 : ℚ) ≤ 2)
      calc (2 : ℚ) * ((|n * (t : Int) - 1000 * w| : Int) : ℚ)
          ≤ 2 * ((1 / 2 + 10 / 2 ^ 45) * t) := this
        _ = t + 20 * t / 2 ^ 45 := by ring
    have h20 : (20 : ℚ) * t / 2 ^ 45 < 1 := by
      rw [div_lt_one (by positivity)]
      exact hsmallq
    push_cast at this ⊢
    linarith
  have hint : 2 * |n * (t : Int) - 1000 * w| < (t : Int) + 1 := by exact_mod_cast hlt
  have hle : 2 * |n * (t : Int) - 1000 * w| ≤ (t : Int) := by omega
  have hleq : (2 : ℚ) * ((|n * (t : Int) - 1000 * w| : Int) : ℚ) ≤ t := by exact_mod_cast hle
  linarith

/-- A positive rational whose 53-bit significand is an integer is a double:
rounding returns it. -/
theorem roundDouble_exact (q : ℚ) (e k : Int) (hq : 0 < q)
    (hlo : (2 : ℚ) ^ e ≤ q) (hhi : q < (2 : ℚ) ^ (e + 1))
    (hk : q / (2 : ℚ) ^ (e - 52) = (k : ℚ)) : roundDouble q = q := by
  have hlog : Int.log 2 q = e := by
    have h1 : e ≤ Int.log 2 q :=
      (Int.zpow_le_iff_le_log (by norm_num) hq).mp (by exact_mod_cast hlo)
    have h2 : Int.log 2 q < e + 1 :=
      (Int.lt_zpow_iff_log_lt (by norm_num) hq).mp (by exact_mod_cast hhi)
    omega
  have hrhe : roundHalfEven (k : ℚ) = k := by
    unfold roundHalfEven
    simp
  unfold roundDouble
  rw [if_neg (not_le.mpr hq), hlog, hk, hrhe, ← hk]
  have hu : (2 : ℚ) ^ (e - 52) ≠ 0 := zpow_ne_zero _ (by norm_num)
  field_simp

/-! ## Overall statistics -/

theorem statsScan_eq_foldl {N : Type} (ops : NumOps N) (trades : Ledger) :
    statsScan ops trades = (allEntries trades).foldl (statsStep ops)
      { totalProfit := ops.zero, totalLoss := ops.zero, winCount := 0, lossCount := 0 } := by
  have hw : WEEKS.length = 4 := rfl
  have hd : DAYS.length = 7 := rfl
  unfold statsScan allEntries
  rw [hw, hd, List.foldl_flatten, List.foldl_map]
  congr 1
  funext acc w
  rw [List.foldl_flatten, List.foldl_map]

theorem countsAsWin_not_loss (t : TradeEntry) (h : countsAsWin t = true) :
    countsAsLoss t = false := by
  simp only [countsAsWin, Bool.and_eq_true, decide_eq_true_eq] at h
  simp [countsAsLoss, h.1]

theorem statsStep_win {N : Type} (ops : NumOps N) (acc : StatsAcc N) (t : TradeEntry)
    (h : countsAsWin t = true) :
    statsStep ops acc t =
      { acc with totalProfit := ops.add acc.totalProfit (specAmount ops t),
                 winCount := acc.winCount + 1 } := by
  simp only [countsAsWin, Bool.and_eq_true, decide_eq_true_eq] at h
  obtain ⟨htype, htruthy⟩ := h
  cases ha : objGet t "amount" with
  | none => simp [ha, truthy] at htruthy
  | some v =>
    rw [ha] at htruthy
    simp [statsStep, specAmount, ha, htruthy, htype]

theorem statsStep_loss {N : Type} (ops : NumOps N) (acc : StatsAcc N) (t : TradeEntry)
    (h : countsAsLoss t = true) :
    statsStep ops acc t =
      { acc with totalLoss := ops.add acc.totalLoss (specAmount ops t),
                 lossCount := acc.lossCount + 1 } := by
  simp only [countsAsLoss, Bool.and_eq_true, decide_eq_true_eq] at h
  obtain ⟨htype, htruthy⟩ := h
  cases ha : objGet t "amount" with
  | none => simp [ha, truthy] at htruthy
  | some v =>
    rw [ha] at htruthy
    simp [statsStep, specAmount, ha, htruthy, htype]

theorem statsStep_other {N : Type} (ops : NumOps N) (acc : StatsAcc N) (t : TradeEntry)
    (hw : countsAsWin t = false) (hl : countsAsLoss t = false) :
    statsStep ops acc t = acc := by
  cases ha : objGet t "amount" with
  | none => simp [statsStep, ha]
  | some v =>
    by_cases htruthy : truthy (some v) = true
    · have h1 : ¬ objGet t "type" = some (JSVal.str "profit") := by
        intro h
        simp [countsAsWin, h, ha, htruthy] at hw
      have h2 : ¬ objGet t "type" = some (JSVal.str "loss") := by
        intro h
        simp [countsAsLoss, h, ha, htruthy] at hl
      simp [statsStep, ha, htruthy, h1, h2]
    · simp [statsStep, ha, htruthy]

/-- The accumulators after a scan of a list, component by component. -/
theorem foldl_statsStep {N : Type} (ops : NumOps N) (rows : List TradeEntry)
    (acc : StatsAcc N) :
    (rows.foldl (statsStep ops) acc).winCount =
      acc.winCount + (rows.filter countsAsWin).length ∧
    (rows.foldl (statsStep ops) acc).lossCount =
      acc.lossCount + (rows.filter countsAsLoss).length ∧
    (rows.foldl (statsStep ops) acc).totalProfit =
      (rows.filter countsAsWin).foldl (fun a t => ops.add a (specAmount ops t))
        acc.totalProfit ∧
    (rows.foldl (statsStep ops) acc).totalLoss =
      (rows.filter countsAsLoss).foldl (fun a t => ops.add a (specAmount ops t))
        acc.totalLoss := by
  induction rows generalizing acc with
  | nil => simp
  | cons t rest ih =>
    rw [List.foldl_cons]
    obtain ⟨h1, h2, h3, h4⟩ := ih (statsStep ops acc t)
    rw [h1, h2, h3, h4]
    by_cases hw : countsAsWin t = true
    · have hl := countsAsWin_not_loss t hw
      rw [statsStep_win ops acc t hw]
      refine ⟨?_, ?_, ?_, ?_⟩
      · simp only [List.filter_cons, hw, if_true, List.length_cons]
        omega
      · simp only [List.filter_cons, hl, Bool.false_eq_true, if_false]
      · simp only [List.filter_cons, hw, if_true, List.foldl_cons]
      · simp only [List.filter_cons, hl, Bool.false_eq_true, if_false]
    · have hw2 : countsAsWin t = false := by simpa using hw
      by_cases hl : countsAsLoss t = true
      · rw [statsStep_loss ops acc t hl]
        refine ⟨?_, ?_, ?_, ?_⟩
        · simp only [List.filter_cons, hw2, Bool.false_eq_true, if_false]
        · simp only [List.filter_cons, hl, if_true, List.length_cons]
          omega
        · simp only [List.filter_cons, hw2, Bool.false_eq_true, if_false]
        · simp only [List.filter_cons, hl, if_true, List.foldl_cons]
      · have hl2 : countsAsLoss t = false := by simpa using hl
        rw [statsStep_other ops acc t hw2 hl2]
        refine ⟨?_, ?_, ?_, ?_⟩ <;>
          simp only [List.filter_cons, hw2, hl2, Bool.false_eq_true, if_false]

theorem filter_win_loss_length_le (rows : List TradeEntry) :
    (rows.filter countsAsWin).length + (rows.filter countsAsLoss).length ≤ rows.length := by
  induction rows with
  | nil => simp
  | cons t rest ih =>
    by_cases hw : countsAsWin t = true
    · have hl := countsAsWin_not_loss t hw
      simp only [List.filter_cons, hw, hl, if_true, List.length_cons]
      simp only [Bool.false_eq_true, if_false]
      omega
    · have hw2 : countsAsWin t = false := by simpa using hw
      by_cases hl : countsAsLoss t = true
      · simp only [List.filter_cons, hw2, hl, List.length_cons, Bool.false_eq_true, if_false,
          if_true]
        omega
      · have hl2 : countsAsLoss t = false := by simpa using hl
        simp only [List.filter_cons, hw2, hl2, List.length_cons, Bool.false_eq_true, if_false]
        omega

theorem length_flatten_le {α : Type} (lists : List (List α)) (bound : Nat)
    (h : ∀ l ∈ lists, l.length ≤ bound) : lists.flatten.length ≤ lists.length * bound := by
  induction lists with
  | nil => simp
  | cons l rest ih =>
    have h1 := h l (List.mem_cons_self _ _)
    have h2 := ih (fun x hx => h x (List.mem_cons_of_mem _ hx))
    simp only [List.flatten_cons, List.length_append, List.length_cons]
    calc l.length + rest.flatten.length ≤ bound + rest.length * bound := by omega
      _ = (rest.length + 1) * bound := by ring

theorem allEntries_length_le (trades : Ledger) (bound : Nat)
    (h : ∀ w, w < 4 → ∀ d, d < 7 → (bucketOrEmpty trades w d).length ≤ bound) :
    (allEntries trades).length ≤ 28 * bound := by
  unfold allEntries
  have hweek : ∀ l ∈ (List.range 4).map (fun w =>
      ((List.range 7).map (fun d => bucketOrEmpty trades w d)).flatten),
      l.length ≤ 7 * bound := by
    intro l hl
    obtain ⟨w, hw, rfl⟩ := List.mem_map.mp hl
    have hday : ∀ l ∈ (List.range 7).map (fun d => bucketOrEmpty trades w d),
        l.length ≤ bound := by
      intro l hl
      obtain ⟨d, hd, rfl⟩ := List.mem_map.mp hl
      exact h w (List.mem_range.mp hw) d (List.mem_range.mp hd)
    have := length_flatten_le _ bound hday
    simpa using this
  have := length_flatten_le _ (7 * bound) hweek
  simp only [List.length_map, List.length_range] at this
  omega

/-- C17: for every ledger and number model. The scan of `calculateStats`
counts as wins the entries of the 4 x 7 buckets with type "profit" and a
non-empty amount and as losses those with type "loss" and a non-empty amount;
`totalTrades` is their sum; `totalProfit` and `totalLoss` add up, in scan
order, the parsed amounts of the counted entries and `netTotal` is their
difference. `winRate` is the number 0 when there is no counted trade;
otherwise it is `toFixed(1)` of the double `x = (wins / totalTrades) * 100`:
the printed tenths `n` satisfy `0 ≤ n ≤ 1000` and `|n / 10 - x| ≤ 1 / 20`, the
double `x` lies in `[0, 100]` within `2 ^ (-45)` of the exact rate, and as long
as no array exceeds the JavaScript length limit `n / 10` is a nearest tenth of
the exact rate `100 * wins / totalTrades`. -/
theorem calculateStats_counts_totals_and_rate {N : Type} (ops : NumOps N) (trades : Ledger) :
    (statsScan ops trades).winCount = specWins trades ∧
    (statsScan ops trades).lossCount = specLosses trades ∧
    (calculateStats ops trades).totalTrades = specWins trades + specLosses trades ∧
    (calculateStats ops trades).totalProfit = specTotal ops countsAsWin trades ∧
    (calculateStats ops trades).totalLoss = specTotal ops countsAsLoss trades ∧
    (calculateStats ops trades).netTotal =
      ops.sub (calculateStats ops trades).totalProfit (calculateStats ops trades).totalLoss ∧
    (specWins trades + specLosses trades = 0 →
      (calculateStats ops trades).winRate = WinRate.zero) ∧
    (0 < specWins trades + specLosses trades →
      ∃ (n : Int) (x : ℚ),
        (calculateStats ops trades).winRate = WinRate.fixed n ∧
        x = winRateDouble (specWins trades) (specWins trades + specLosses trades) ∧
        n = toFixedTenths x ∧
        0 ≤ n ∧ n ≤ 1000 ∧ |(n : ℚ) / 10 - x| ≤ 1 / 20 ∧
        0 ≤ x ∧ x ≤ 100 ∧
        |x - 100 * (specWins trades : ℚ) / ((specWins trades + specLosses trades : Nat) : ℚ)|
          ≤ 1 / 2 ^ 45 ∧
        ((∀ w, w < 4 → ∀ d, d < 7 → (bucketOrEmpty trades w d).length < 2 ^ 32) →
          |(n : ℚ) - 1000 * (specWins trades : ℚ) /
            ((specWins trades + specLosses trades : Nat) : ℚ)| ≤ 1 / 2)) := by
  obtain ⟨hwin, hloss, hprofit, htloss⟩ := foldl_statsStep ops (allEntries trades)
    { totalProfit := ops.zero, totalLoss := ops.zero, winCount := 0, lossCount := 0 }
  rw [← statsScan_eq_foldl] at hwin hloss hprofit htloss
  simp only [Nat.zero_add] at hwin hloss
  have hw : (statsScan ops trades).winCount = specWins trades := hwin
  have hl : (statsScan ops trades).lossCount = specLosses trades := hloss
  refine ⟨hw, hl, ?_, hprofit, htloss, rfl, fun hzero => ?_, fun hpos => ?_⟩
  · simp only [calculateStats, hw, hl]
  · simp only [calculateStats, hw, hl, hzero, gt_iff_lt, lt_self_iff_false, if_false]
  · have hle : specWins trades ≤ specWins trades + specLosses trades := Nat.le_add_right _ _
    obtain ⟨hx0, hx1, hxerr⟩ :=
      winRateDouble_bounds (specWins trades) (specWins trades + specLosses trades) hpos hle
    obtain ⟨hn0, hn1, hnerr⟩ := toFixedTenths_bounds _ hx0 hx1
    refine ⟨_, _, ?_, rfl, rfl, hn0, hn1, ?_, hx0, hx1, hxerr, fun hlen => ?_⟩
    · simp only [calculateStats, hw, hl, gt_iff_lt, hpos, if_true]
    · rw [abs_le] at hnerr ⊢
      constructor <;> linarith [hnerr.1, hnerr.2]
    · apply toFixedTenths_winRateDouble_nearest _ _ hpos hle
      have hbound := allEntries_length_le trades (2 ^ 32)
        (fun w hw4 d hd7 => le_of_lt (hlen w hw4 d hd7))
      have hcount := filter_win_loss_length_le (allEntries trades)
      have : specWins trades + specLosses trades ≤ 28 * 2 ^ 32 := le_trans hcount hbound
      calc 20 * (specWins trades + specLosses trades) ≤ 20 * (28 * 2 ^ 32) :=
            Nat.mul_le_mul_left 20 this
        _ < 2 ^ 45 := by norm_num

/-- C17 on a ledger with one profit of "100" and one loss of "50": one win and
one loss, win rate "50.0", and in exact arithmetic total profit 100, total
loss 50 and net total 50. -/
theorem calculateStats_counts_totals_and_rate_witness :
    (calculateStats exactOps winThenLossLedger).totalTrades = 2 ∧
    (calculateStats exactOps winThenLossLedger).winRate = WinRate.fixed 500 ∧
    tenthsText 500 = "50.0" ∧
    (calculateStats exactOps winThenLossLedger).totalProfit = ExactNum.fin 100 ∧
    (calculateStats exactOps winThenLossLedger).totalLoss = ExactNum.fin 50 ∧
    (calculateStats exactOps winThenLossLedger).netTotal = ExactNum.fin 50 := by
  obtain ⟨_, _, htrades, hprofit, hloss, hnet, _, hrate⟩ :=
    calculateStats_counts_totals_and_rate exactOps winThenLossLedger
  have hwins : specWins winThenLossLedger = 1 := by decide
  have hlosses : specLosses winThenLossLedger = 1 := by decide
  have hwinrows : (allEntries winThenLossLedger).filter countsAsWin =
      [[("type", JSVal.str "profit"), ("amount", JSVal.str "100"), ("id", JSVal.num 1)]] := by
    decide
  have hlossrows : (allEntries winThenLossLedger).filter countsAsLoss =
      [[("type", JSVal.str "loss"), ("amount", JSVal.str "50"), ("id", JSVal.num 4),
        ("reason", JSVal.str "late entry")]] := by
    decide
  have hp100 : parseFloatOf (JSVal.str "100") = ParsedFloat.finite false 100 0 := by decide
  have hp50 : parseFloatOf (JSVal.str "50") = ParsedFloat.finite false 50 0 := by decide
  have hprofit1 : (calculateStats exactOps winThenLossLedger).totalProfit = ExactNum.fin 100 := by
    rw [hprofit]
    simp [specTotal, hwinrows, specAmount, objGet, truthy, amountOrZero, hp100, exactOps,
      ExactNum.add]
  have hloss1 : (calculateStats exactOps winThenLossLedger).totalLoss = ExactNum.fin 50 := by
    rw [hloss]
    simp [specTotal, hlossrows, specAmount, objGet, truthy, amountOrZero, hp50, exactOps,
      ExactNum.add]
  have hhalf : roundDouble ((1 : ℚ) / 2) = 1 / 2 :=
    roundDouble_exact _ (-1) (2 ^ 52) (by norm_num) (by norm_num [zpow_neg])
      (by norm_num) (by norm_num [zpow_neg])
  have hfifty : roundDouble (50 : ℚ) = 50 :=
    roundDouble_exact _ 5 (25 * 2 ^ 48) (by norm_num) (by norm_num) (by norm_num)
      (by norm_num [zpow_neg])
  have hx : winRateDouble 1 2 = 50 := by
    unfold winRateDouble
    norm_num
    rw [hhalf]
    norm_num
    exact hfifty
  have hn : toFixedTenths (50 : ℚ) = 500 := by
    unfold toFixedTenths
    rw [Int.floor_eq_iff]
    norm_num
  obtain ⟨n, x, hwr, hxdef, hndef, _⟩ := hrate (by rw [hwins, hlosses]; norm_num)
  rw [hwins, hlosses] at hxdef
  refine ⟨by rw [htrades, hwins, hlosses], ?_, by decide, hprofit1, hloss1, ?_⟩
  · rw [hwr, hndef, hxdef]
    norm_num
    rw [hx, hn]
  · rw [hnet, hprofit1, hloss1]
    simp [exactOps, ExactNum.add, ExactNum.neg]
    norm_num

/-- C15, evaluated on a bucket holding one entry with amount "100" and the type
still unset (the state every new trade passes through, since the type selector
is disabled until an amount is typed): in every number model
`calculateDayTotal` returns `0 - 100`, while the sum of the profit amounts
minus the sum of the loss amounts is `0 - 0`; in exact arithmetic, which
agrees with doubles on these integers, the code gives -100 and the
specification 0. On the same ledger `calculateStats` leaves the entry out: no
trade is counted and the net total is 0. -/
theorem calculateDayTotal_subtracts_untyped_amount :
    bucketOrEmpty untypedAmountLedger 0 3 =
      [[("type", JSVal.str ""), ("amount", JSVal.str "100"), ("id", JSVal.num 1)]] ∧
    (∀ (N : Type) (ops : NumOps N),
      calculateDayTotal ops untypedAmountLedger 0 3 =
        ops.sub ops.zero (amountOrZero ops (JSVal.str "100")) ∧
      specDayTotal ops (bucketOrEmpty untypedAmountLedger 0 3) = ops.sub ops.zero ops.zero) ∧
    calculateDayTotal exactOps untypedAmountLedger 0 3 = ExactNum.fin (-100) ∧
    specDayTotal exactOps (bucketOrEmpty untypedAmountLedger 0 3) = ExactNum.fin 0 ∧
    calculateDayTotal exactOps untypedAmountLedger 0 3 ≠
      specDayTotal exactOps (bucketOrEmpty untypedAmountLedger 0 3) ∧
    (calculateStats exactOps untypedAmountLedger).totalTrades = 0 ∧
    (calculateStats exactOps untypedAmountLedger).netTotal = ExactNum.fin 0 := by
  have hb : bucketOrEmpty untypedAmountLedger 0 3 =
      [[("type", JSVal.str ""), ("amount", JSVal.str "100"), ("id", JSVal.num 1)]] := by
    decide
  have hp : parseFloatOf (JSVal.str "100") = ParsedFloat.finite false 100 0 := by decide
  have hcode : ∀ (N : Type) (ops : NumOps N),
      calculateDayTotal ops untypedAmountLedger 0 3 =
        ops.sub ops.zero (amountOrZero ops (JSVal.str "100")) := by
    intro N ops
    simp [calculateDayTotal, hb, dayTotalStep, objGet, truthy]
  have hspec : ∀ (N : Type) (ops : NumOps N),
      specDayTotal ops (bucketOrEmpty untypedAmountLedger 0 3) = ops.sub ops.zero ops.zero := by
    intro N ops
    simp [specDayTotal, specSumOfType, hb, objGet]
  have hamount : amountOrZero exactOps (JSVal.str "100") = ExactNum.fin 100 := by
    simp [amountOrZero, hp, exactOps]
  have h1 : calculateDayTotal exactOps untypedAmountLedger 0 3 = ExactNum.fin (-100) := by
    rw [hcode, hamount]
    simp [exactOps, ExactNum.add, ExactNum.neg]
  have h2 : specDayTotal exactOps (bucketOrEmpty untypedAmountLedger 0 3) = ExactNum.fin 0 := by
    rw [hspec]
    simp [exactOps, ExactNum.add, ExactNum.neg]
  have hall : allEntries untypedAmountLedger =
      [[("type", JSVal.str ""), ("amount", JSVal.str "100"), ("id", JSVal.num 1)]] := by
    decide
  have hscan : statsScan exactOps untypedAmountLedger =
      { totalProfit := ExactNum.fin 0, totalLoss := ExactNum.fin 0, winCount := 0,
        lossCount := 0 } := by
    rw [statsScan_eq_foldl, hall]
    simp [statsStep, objGet, truthy, exactOps]
  refine ⟨hb, fun N ops => ⟨hcode N ops, hspec N ops⟩, h1, h2, ?_, ?_, ?_⟩
  · rw [h1, h2]
    intro h
    have h3 : (-100 : ℚ) = 0 := ExactNum.fin.inj h
    norm_num at h3
  · have hdef : (calculateStats exactOps untypedAmountLedger).totalTrades =
        (statsScan exactOps untypedAmountLedger).winCount +
          (statsScan exactOps untypedAmountLedger).lossCount := rfl
    rw [hdef, hscan]
    rfl
  · have hdef : (calculateStats exactOps untypedAmountLedger).netTotal =
        exactOps.sub (statsScan exactOps untypedAmountLedger).totalProfit
          (statsScan exactOps untypedAmountLedger).totalLoss := rfl
    rw [hdef, hscan]
    simp [exactOps, ExactNum.add, ExactNum.neg]

/-- C16 on the ledger with one profit of "100" and one loss of "50" on day 3
of week 0, in exact arithmetic: the week total is the sum of the seven day
totals and equals 50. -/
theorem calculateWeekTotal_sums_seven_days_witness :
    calculateWeekTotal exactOps winThenLossLedger 0 =
      ∑ d in Finset.range 7, calculateDayTotal exactOps winThenLossLedger 0 d ∧
    calculateDayTotal exactOps winThenLossLedger 0 3 = ExactNum.fin 50 ∧
    calculateWeekTotal exactOps winThenLossLedger 0 = ExactNum.fin 50 := by
  have hsum := (calculateWeekTotal_sums_seven_days exactOps winThenLossLedger 0).2.2
    rfl (fun _ _ => rfl)
  have hexp := (calculateWeekTotal_sums_seven_days exactOps winThenLossLedger 0).1
  have hempty : ∀ d, bucketOrEmpty winThenLossLedger 0 d = [] →
      calculateDayTotal exactOps winThenLossLedger 0 d = ExactNum.fin 0 := by
    intro d h
    simp [calculateDayTotal, h, exactOps]
  have hp100 : parseFloatOf (JSVal.str "100") = ParsedFloat.finite false 100 0 := by decide
  have hp50 : parseFloatOf (JSVal.str "50") = ParsedFloat.finite false 50 0 := by decide
  have hb3 : bucketOrEmpty winThenLossLedger 0 3 =
      [[("type", JSVal.str "profit"), ("amount", JSVal.str "100"), ("id", JSVal.num 1)],
       [("type", JSVal.str "loss"), ("amount", JSVal.str "50"), ("id", JSVal.num 4),
        ("reason", JSVal.str "late entry")]] := by decide
  have h3 : calculateDayTotal exactOps winThenLossLedger 0 3 = ExactNum.fin 50 := by
    simp [calculateDayTotal, hb3, dayTotalStep, objGet, truthy, amountOrZero, hp100, hp50,
      exactOps, ExactNum.add, ExactNum.neg]
    norm_num
  refine ⟨hsum, h3, ?_⟩
  rw [hexp, hempty 0 (by decide), hempty 1 (by decide), hempty 2 (by decide), h3,
    hempty 4 (by decide), hempty 5 (by decide), hempty 6 (by decide)]
  simp [exactOps, ExactNum.add]

/-- C14 on the locked scenario ledger: two completed losses in bucket (0,3),
none in a week that the ledger does not hold, and an entry of type "loss" with
amount "0" is not a completed loss. -/
theorem countLosses_counts_completed_losses_witness :
    countLosses lockedState.trades 0 3 = 2 ∧
    countLosses lockedState.trades 9 0 = 0 ∧
    isCompletedLoss [("type", JSVal.str "loss"), ("amount", JSVal.str "0")] = false :=
  ⟨by decide,
    (countLosses_counts_completed_losses lockedState.trades 9 0).2.1 rfl,
    (countLosses_counts_completed_losses lockedState.trades 0 3).2.2.2.1
      [("type", JSVal.str "loss"), ("amount", JSVal.str "0")] "0" (by decide)
      (Or.inr (Or.inl rfl))⟩

/-! ## Calendar -/

/-- For a day of month, the ceiling of the double `day / 7` is the ceiling of
the exact quotient: rounding cannot cross an integer. -/
theorem ceil_roundDouble_div_seven (d : Nat) (h1 : 1 ≤ d) (h31 : d ≤ 31) :
    ⌈roundDouble ((d : ℚ) / 7)⌉ = (((d + 6) / 7 : Nat) : Int) ∧
    ⌈(d : ℚ) / 7⌉ = (((d + 6) / 7 : Nat) : Int) := by
  have hlo : 7 * ((d + 6) / 7) ≤ d + 6 := Nat.mul_div_le (d + 6) 7
  have hhi : d + 6 < 7 * ((d + 6) / 7) + 7 := by
    have := Nat.lt_div_mul_add (a := d + 6) (b := 7) (by norm_num)
    omega
  have hn5 : (d + 6) / 7 ≤ 5 := by omega
  set n := (d + 6) / 7 with hn
  have hloq : (7 : ℚ) * n ≤ d + 6 := by exact_mod_cast hlo
  have hdn : d ≤ 7 * n := by omega
  have hhiq : (d : ℚ) ≤ 7 * n := by exact_mod_cast hdn
  have hn5q : (n : ℚ) ≤ 5 := by exact_mod_cast hn5
  have hq0 : (0 : ℚ) ≤ (d : ℚ) / 7 := by positivity
  have hqn : (d : ℚ) / 7 ≤ n := by
    rw [div_le_iff₀ (by norm_num)]
    linarith
  have hqlow : (n : ℚ) - 1 + 1 / 7 ≤ (d : ℚ) / 7 := by
    rw [le_div_iff₀ (by norm_num)]
    linarith
  constructor
  · rw [Int.ceil_eq_iff]
    constructor
    · have herr := abs_roundDouble_sub_le ((d : ℚ) / 7) hq0
      rw [abs_le] at herr
      have hsmall : (d : ℚ) / 7 / 2 ^ 53 < 1 / 7 := by
        have : (d : ℚ) / 7 ≤ 5 := le_trans hqn hn5q
        calc (d : ℚ) / 7 / 2 ^ 53 ≤ 5 / 2 ^ 53 :=
              div_le_div_of_nonneg_right this (by positivity)
          _ < 1 / 7 := by norm_num
      push_cast
      linarith [herr.1]
    · have := roundDouble_le_nat ((d : ℚ) / 7) n
        (lt_of_le_of_lt hn5q (by norm_num)) hqn
      exact_mod_cast this
  · rw [Int.ceil_eq_iff]
    constructor
    · push_cast
      linarith
    · exact_mod_cast hqn

/-- C21: for every day of month d with 1 ≤ d ≤ 31, `getCurrentWeekIndex`
returns min(ceil(d / 7) - 1, 3): 0 on days 1-7, 1 on days 8-14, 2 on days
15-21 and 3 on days 22-31; the result lies in 0..3 and does not decrease when
the day grows. -/
theorem getCurrentWeekIndex_table (d : Nat) (h1 : 1 ≤ d) (h31 : d ≤ 31) :
    getCurrentWeekIndex d = min (⌈(d : ℚ) / 7⌉ - 1) 3 ∧
    (d ≤ 7 → getCurrentWeekIndex d = 0) ∧
    (8 ≤ d → d ≤ 14 → getCurrentWeekIndex d = 1) ∧
    (15 ≤ d → d ≤ 21 → getCurrentWeekIndex d = 2) ∧
    (22 ≤ d → getCurrentWeekIndex d = 3) ∧
    0 ≤ getCurrentWeekIndex d ∧ getCurrentWeekIndex d ≤ 3 ∧
    (∀ d2, d ≤ d2 → d2 ≤ 31 → getCurrentWeekIndex d ≤ getCurrentWeekIndex d2) := by
  obtain ⟨hr, he⟩ := ceil_roundDouble_div_seven d h1 h31
  have hform : getCurrentWeekIndex d = min ((((d + 6) / 7 : Nat) : Int) - 1) 3 := by
    unfold getCurrentWeekIndex
    rw [hr]
  refine ⟨by rw [hform, he], fun h => ?_, fun h8 h14 => ?_, fun h15 h21 => ?_, fun h22 => ?_,
    ?_, ?_, fun d2 hd hd31 => ?_⟩
  · rw [hform]; omega
  · rw [hform]; omega
  · rw [hform]; omega
  · rw [hform]; omega
  · rw [hform]; omega
  · rw [hform]; omega
  · have hform2 : getCurrentWeekIndex d2 = min ((((d2 + 6) / 7 : Nat) : Int) - 1) 3 := by
      unfold getCurrentWeekIndex
      rw [(ceil_roundDouble_div_seven d2 (by omega) hd31).1]
    rw [hform, hform2]
    omega

/-- C21 on the days 7, 8, 22 and 31. -/
theorem getCurrentWeekIndex_table_witness :
    getCurrentWeekIndex 7 = 0 ∧ getCurrentWeekIndex 8 = 1 ∧
    getCurrentWeekIndex 22 = 3 ∧ getCurrentWeekIndex 31 = 3 :=
  ⟨(getCurrentWeekIndex_table 7 (by norm_num) (by norm_num)).2.1 (by norm_num),
    (getCurrentWeekIndex_table 8 (by norm_num) (by norm_num)).2.2.1 (by norm_num) (by norm_num),
    (getCurrentWeekIndex_table 22 (by norm_num) (by norm_num)).2.2.2.2.1 (by norm_num),
    (getCurrentWeekIndex_table 31 (by norm_num) (by norm_num)).2.2.2.2.1 (by norm_num)⟩

/-- C22: for every native weekday number n in 0..6, `getCurrentDayIndex`
returns 6 when n = 0 and n - 1 otherwise, which is (n + 6) mod 7; the result
is a valid index into the 7-element list `DAYS`; and the mapping is a
bijection on 0..6. -/
theorem getCurrentDayIndex_bijection :
    (∀ n, n ≤ 6 →
      getCurrentDayIndex n = (if n = 0 then 6 else n - 1) ∧
      getCurrentDayIndex n = (n + 6) % 7 ∧
      getCurrentDayIndex n ≤ 6 ∧
      getCurrentDayIndex n < DAYS.length) ∧
    (∀ n1 n2, n1 ≤ 6 → n2 ≤ 6 → getCurrentDayIndex n1 = getCurrentDayIndex n2 → n1 = n2) ∧
    (∀ k, k ≤ 6 → ∃ n, n ≤ 6 ∧ getCurrentDayIndex n = k) ∧
    DAYS[getCurrentDayIndex 1]? = some "Senin" ∧ DAYS[getCurrentDayIndex 0]? = some "Minggu" := by
  have hlen : DAYS.length = 7 := rfl
  refine ⟨fun n hn => ?_, fun n1 n2 h1 h2 h => ?_, fun k hk => ?_, by decide, by decide⟩
  · unfold getCurrentDayIndex
    rw [hlen]
    split <;> refine ⟨rfl, ?_, ?_, ?_⟩ <;> omega
  · unfold getCurrentDayIndex at h
    split at h <;> split at h <;> omega
  · refine ⟨(k + 1) % 7, ?_, ?_⟩
    · omega
    · unfold getCurrentDayIndex
      split <;> omega

/-- C22 on Sunday, Monday and Saturday. -/
theorem getCurrentDayIndex_bijection_witness :
    getCurrentDayIndex 0 = 6 ∧ getCurrentDayIndex 1 = 0 ∧ getCurrentDayIndex 6 = 5 :=
  ⟨(getCurrentDayIndex_bijection.1 0 (by decide)).1,
    (getCurrentDayIndex_bijection.1 1 (by decide)).1,
    (getCurrentDayIndex_bijection.1 6 (by decide)).1⟩

/-- The character of a decimal digit carries its value and is not a dash. -/
theorem digitChar_decimal (k : Nat) (hk : k < 10) :
    (Nat.digitChar k).toNat - 48 = k ∧ Nat.digitChar k ≠ '-' := by
  interval_cases k <;> exact ⟨by decide, by decide⟩

/-- A run of digits followed by one more digit. -/
theorem digitsValue_append_singleton (pre : List Char) (c : Char) :
    digitsValue (pre ++ [c]) = 10 * digitsValue pre + (c.toNat - 48) := by
  unfold digitsValue
  rw [List.foldl_append]
  rfl

/-- With enough fuel, `Nat.toDigitsCore` prepends a non-empty run of decimal
digits whose value is the number. -/
theorem toDigitsCore_spec (fuel : Nat) :
    ∀ (n : Nat) (ds : List Char), n < fuel →
      ∃ pre, Nat.toDigitsCore 10 fuel n ds = pre ++ ds ∧ digitsValue pre = n ∧
        (∀ c ∈ pre, c ≠ '-') := by
  induction fuel with
  | zero => intro n ds h; omega
  | succ fuel ih =>
    intro n ds h
    have hd := digitChar_decimal (n % 10) (Nat.mod_lt n (by norm_num))
    unfold Nat.toDigitsCore
    dsimp only
    by_cases h0 : n / 10 = 0
    · rw [if_pos h0]
      refine ⟨[Nat.digitChar (n % 10)], rfl, ?_, ?_⟩
      · have := digitsValue_append_singleton [] (Nat.digitChar (n % 10))
        simp only [List.nil_append] at this
        rw [this, hd.1]
        have : digitsValue [] = 0 := rfl
        rw [this]
        omega
      · intro c hc
        rw [List.mem_singleton] at hc
        rw [hc]
        exact hd.2
    · rw [if_neg h0]
      obtain ⟨pre, hpre, hval, hdash⟩ := ih (n / 10) (Nat.digitChar (n % 10) :: ds) (by omega)
      refine ⟨pre ++ [Nat.digitChar (n % 10)], ?_, ?_, ?_⟩
      · rw [hpre]
        simp
      · rw [digitsValue_append_singleton, hval, hd.1]
        omega
      · intro c hc
        rw [List.mem_append, List.mem_singleton] at hc
        rcases hc with hc | hc
        · exact hdash c hc
        · rw [hc]
          exact hd.2

/-- The decimal text of a natural number reads back as the number and holds no
dash. -/
theorem toString_nat_spec (n : Nat) :
    digitsValue (toString n).data = n ∧ '-' ∉ (toString n).data := by
  obtain ⟨pre, hpre, hval, hdash⟩ := toDigitsCore_spec (n + 1) n [] (by omega)
  have hdata : (toString n).data = pre := by
    show (Nat.repr n).data = pre
    unfold Nat.repr Nat.toDigits
    rw [hpre]
    simp [List.asString]
  rw [hdata]
  exact ⟨hval, fun h => hdash _ h rfl⟩

/-- Two lists cut at the first occurrence of a separator agree part by part. -/
theorem append_cons_inj_of_fresh {α : Type} (a : α) :
    ∀ (l1 l2 r1 r2 : List α), a ∉ l1 → a ∉ l2 → l1 ++ a :: r1 = l2 ++ a :: r2 →
      l1 = l2 ∧ r1 = r2 := by
  intro l1
  induction l1 with
  | nil =>
    intro l2 r1 r2 _ h2 h
    cases l2 with
    | nil => exact ⟨rfl, (List.cons.inj h).2⟩
    | cons b l2 =>
      exfalso
      have hb : a = b := (List.cons.inj h).1
      exact h2 (by rw [hb]; exact List.mem_cons_self _ _)
  | cons b l1 ih =>
    intro l2 r1 r2 h1 h2 h
    cases l2 with
    | nil =>
      exfalso
      have hb : b = a := (List.cons.inj h).1
      exact h1 (by rw [hb]; exact List.mem_cons_self _ _)
    | cons c l2 =>
      have hinj := List.cons.inj h
      have hrec := ih l2 r1 r2 (fun hm => h1 (List.mem_cons_of_mem _ hm))
        (fun hm => h2 (List.mem_cons_of_mem _ hm)) hinj.2
      exact ⟨by rw [hinj.1, hrec.1], hrec.2⟩

/-- The characters of a date key. -/
theorem getTodayKey_data (y m d : Nat) :
    (getTodayKey y m d).data =
      (toString y).data ++ '-' :: ((toString m).data ++ '-' :: (toString d).data) := by
  unfold getTodayKey
  simp [String.data_append]

/-- Equal date keys come from equal dates. -/
theorem getTodayKey_inj (y1 m1 d1 y2 m2 d2 : Nat)
    (h : getTodayKey y1 m1 d1 = getTodayKey y2 m2 d2) : y1 = y2 ∧ m1 = m2 ∧ d1 = d2 := by
  have hdata := congrArg String.data h
  rw [getTodayKey_data, getTodayKey_data] at hdata
  have hy1 := toString_nat_spec y1
  have hy2 := toString_nat_spec y2
  have hm1 := toString_nat_spec m1
  have hm2 := toString_nat_spec m2
  have hd1 := toString_nat_spec d1
  have hd2 := toString_nat_spec d2
  obtain ⟨hy, hrest⟩ := append_cons_inj_of_fresh '-' _ _ _ _ hy1.2 hy2.2 hdata
  obtain ⟨hm, hd⟩ := append_cons_inj_of_fresh '-' _ _ _ _ hm1.2 hm2.2 hrest
  refine ⟨?_, ?_, ?_⟩
  · rw [← hy1.1, ← hy2.1, hy]
  · rw [← hm1.1, ← hm2.1, hm]
  · rw [← hd1.1, ← hd2.1, hd]

/-- C23: `getTodayKey` depends on the calendar date only and is injective on
it: for two dates with non-negative years, the keys "y1-m1-d1" and "y2-m2-d2"
are equal if and only if y1 = y2, m1 = m2 and d1 = d2. -/
theorem getTodayKey_injective (y1 m1 d1 y2 m2 d2 : Nat) :
    getTodayKey y1 m1 d1 = getTodayKey y2 m2 d2 ↔ (y1 = y2 ∧ m1 = m2 ∧ d1 = d2) := by
  constructor
  · exact getTodayKey_inj y1 m1 d1 y2 m2 d2
  · rintro ⟨rfl, rfl, rfl⟩
    rfl

/-- The week index of a day of month in closed form. -/
theorem getCurrentWeekIndex_eq (d : Nat) (h1 : 1 ≤ d) (h31 : d ≤ 31) :
    getCurrentWeekIndex d = min ((((d + 6) / 7 : Nat) : Int) - 1) 3 := by
  unfold getCurrentWeekIndex
  rw [(ceil_roundDouble_div_seven d h1 h31).1]

/-- The day index of a native weekday number in closed form. -/
theorem getCurrentDayIndex_eq_mod (n : Nat) (h : n ≤ 6) :
    getCurrentDayIndex n = (n + 6) % 7 := by
  unfold getCurrentDayIndex
  split <;> omega

/-- C28: in a month whose weekdays advance by one per day, two days of month
d1 < d2 in 1..31 have the same (week index, day index) bucket if and only if
d1 ≥ 22 and d2 = d1 + 7. For such a pair the two dates have different keys,
`isToday` holds on day d2 for the bucket of day d1, and on every ledger
`countLosses` and the bucket read on day d2 are those of the bucket of day d1. -/
theorem bucketOfDay_collides_iff (offset d1 d2 : Nat)
    (h1 : 1 ≤ d1) (h12 : d1 < d2) (h31 : d2 ≤ 31) :
    (bucketOfDay offset d1 = bucketOfDay offset d2 ↔ (22 ≤ d1 ∧ d2 = d1 + 7)) ∧
    (22 ≤ d1 → d2 = d1 + 7 → ∀ (year month now1 now2 : Nat) (trades : Ledger),
      (envOfDate year month d1 offset now1).today ≠ (envOfDate year month d2 offset now2).today ∧
      isToday (envOfDate year month d2 offset now2)
        (envOfDate year month d1 offset now1).currentWeekIdx
        (envOfDate year month d1 offset now1).currentDayIdx = true ∧
      bucketAt trades (envOfDate year month d2 offset now2).currentWeekIdx
          (envOfDate year month d2 offset now2).currentDayIdx =
        bucketAt trades (envOfDate year month d1 offset now1).currentWeekIdx
          (envOfDate year month d1 offset now1).currentDayIdx ∧
      countLosses trades (envOfDate year month d2 offset now2).currentWeekIdx
          (envOfDate year month d2 offset now2).currentDayIdx =
        countLosses trades (envOfDate year month d1 offset now1).currentWeekIdx
          (envOfDate year month d1 offset now1).currentDayIdx) := by
  have hw1 := getCurrentWeekIndex_eq d1 h1 (by omega)
  have hw2 := getCurrentWeekIndex_eq d2 (by omega) h31
  have hm1 : (offset + d1) % 7 ≤ 6 := by omega
  have hm2 : (offset + d2) % 7 ≤ 6 := by omega
  have hd1 := getCurrentDayIndex_eq_mod _ hm1
  have hd2 := getCurrentDayIndex_eq_mod _ hm2
  have hiff : bucketOfDay offset d1 = bucketOfDay offset d2 ↔ (22 ≤ d1 ∧ d2 = d1 + 7) := by
    unfold bucketOfDay
    rw [Prod.mk.injEq, hw1, hw2, hd1, hd2]
    omega
  refine ⟨hiff, fun h22 h7 year month now1 now2 trades => ?_⟩
  have hb := hiff.2 ⟨h22, h7⟩
  unfold bucketOfDay at hb
  rw [Prod.mk.injEq] at hb
  have hwk : (envOfDate year month d2 offset now2).currentWeekIdx =
      (envOfDate year month d1 offset now1).currentWeekIdx := by
    show (getCurrentWeekIndex d2).toNat = (getCurrentWeekIndex d1).toNat
    rw [hb.1]
  have hdy : (envOfDate year month d2 offset now2).currentDayIdx =
      (envOfDate year month d1 offset now1).currentDayIdx := hb.2.symm
  refine ⟨?_, ?_, ?_, ?_⟩
  · intro hkey
    have := getTodayKey_inj year month d1 year month d2 hkey
    omega
  · unfold isToday
    rw [hwk, hdy]
    simp
  · rw [hwk, hdy]
  · rw [hwk, hdy]

/-- C28 on the days 22 and 29 of a month. -/
theorem bucketOfDay_collides_iff_witness :
    bucketOfDay 0 22 = bucketOfDay 0 29 ∧ bucketOfDay 0 21 ≠ bucketOfDay 0 28 :=
  ⟨((bucketOfDay_collides_iff 0 22 29 (by norm_num) (by norm_num) (by norm_num)).1).2
      ⟨by norm_num, by norm_num⟩,
    fun h => absurd
      (((bucketOfDay_collides_iff 0 21 28 (by norm_num) (by norm_num) (by norm_num)).1).1 h).1
      (by norm_num)⟩

/-! ## The sweep, repeated -/

/-- After the sweep every record left in the table is dated today. -/
theorem checkLocks_records_fresh (env : Env) (s : AppState) (k : String) (r : LockRecord)
    (h : objGet (checkLocks env s).lockedDays k = some r) : r.dateKey = env.today := by
  rw [checkLocks_lockedDays_get] at h
  cases hget : objGet s.lockedDays k with
  | none => rw [hget] at h; cases h
  | some r0 =>
    rw [hget] at h
    by_cases hd : r0.dateKey = env.today
    · have : r0 = r := by simpa [Option.filter, hd] using h
      rw [← this]
      exact hd
    · simp [Option.filter, hd] at h

/-- C29: for a fixed today key the sweep `checkLocks` keeps `isDayLocked` on
every bucket, a second sweep reports no change, and the sweep is idempotent. -/
theorem checkLocks_idempotent_keeps_isDayLocked (env : Env) (s : AppState) :
    (∀ w d, isDayLocked env (checkLocks env s).lockedDays w d =
      isDayLocked env s.lockedDays w d) ∧
    (sweep env.today (checkLocks env s).lockedDays).changed = false ∧
    (sweep env.today (checkLocks env s).lockedDays).updatedLocks =
      (checkLocks env s).lockedDays ∧
    checkLocks env (checkLocks env s) = checkLocks env s := by
  have hfold : sweep env.today (checkLocks env s).lockedDays =
      { lockedDays := (checkLocks env s).lockedDays,
        updatedLocks := (checkLocks env s).lockedDays, changed := false } := by
    unfold sweep
    exact foldl_sweepKey_fresh env.today _ _ (fun k r h => checkLocks_records_fresh env s k r h)
  refine ⟨fun w d => ?_, ?_, ?_, ?_⟩
  · unfold isDayLocked
    rw [checkLocks_lockedDays_get]
    cases hget : objGet s.lockedDays (lockKey w d) with
    | none => rfl
    | some r =>
      by_cases hd : r.dateKey = env.today
      · simp [Option.filter, hd]
      · simp [Option.filter, hd]
  · rw [hfold]
  · rw [hfold]
  · have hc : (sweep env.today (checkLocks env s).lockedDays).changed = false := by rw [hfold]
    show (if (sweep env.today (checkLocks env s).lockedDays).changed = true then _ else _) = _
    rw [hc]
    rfl

/-! ## The confession and the lock -/

/-- Replacing a row by one that is counted whenever the old row was does not
lower the count. -/
theorem filter_set_length_ge {α : Type} (q : α → Bool) (l : List α) (i : Nat) (x old : α)
    (hold : l[i]? = some old) (hq : q old = true → q x = true) :
    (l.filter q).length ≤ ((l.set i x).filter q).length := by
  induction l generalizing i with
  | nil => simp
  | cons a rest ih =>
    cases i with
    | zero =>
      have ha : a = old := by simpa using hold
      subst ha
      simp only [List.set_cons_zero, List.filter_cons]
      cases hqa : q a
      · cases q x <;> simp
      · simp [hq hqa]
    | succ j =>
      have hj : rest[j]? = some old := by simpa using hold
      have := ih j hj
      simp only [List.set_cons_succ, List.filter_cons]
      cases q a <;> simp <;> omega

/-- A completed loss stays one when its type is set to "loss" and a reason is
attached: the amount is kept. -/
theorem isCompletedLoss_loss_reason (row : TradeEntry) (reason : String)
    (h : isCompletedLoss row = true) :
    isCompletedLoss (objSet (objSet row "type" (JSVal.str "loss")) "reason"
      (JSVal.str reason)) = true := by
  have htype : objGet (objSet (objSet row "type" (JSVal.str "loss")) "reason"
      (JSVal.str reason)) "type" = some (JSVal.str "loss") := by
    rw [objGet_objSet_ne _ "reason" "type" _ (by decide), objGet_objSet_self]
  have hamt : objGet (objSet (objSet row "type" (JSVal.str "loss")) "reason"
      (JSVal.str reason)) "amount" = objGet row "amount" := by
    rw [objGet_objSet_ne _ "reason" "amount" _ (by decide),
      objGet_objSet_ne _ "type" "amount" _ (by decide)]
  unfold isCompletedLoss at h ⊢
  rw [htype, hamt]
  simp only [Bool.and_eq_true, decide_eq_true_eq] at h ⊢
  exact ⟨⟨trivial, h.1.2⟩, h.2⟩

/-- C27: a `confirmLossWithReason` that is accepted (it returns a state with
the draft cleared) leaves the completed-loss count of the draft's bucket as it
was or raises it by one, and changes the lock table or the marker only when the
new count is two or more. Hence, when the draft was opened by
`handleTradeChange` on a ledger equal to the one being confirmed, a confirm
that reaches two completed losses (the lock branch) had `isSecondLoss = true`
and the confession ticked. -/
theorem confirmLossWithReason_lock_needs_confession (env : Env) (s s1 : AppState)
    (p : PendingLossData)
    (hp : s.pendingLossData = some p)
    (hres : confirmLossWithReason env s = some s1)
    (hacc : s1.pendingLossData = none) :
    countLosses s.trades p.weekIdx p.dayIdx ≤ countLosses s1.trades p.weekIdx p.dayIdx ∧
    countLosses s1.trades p.weekIdx p.dayIdx ≤ countLosses s.trades p.weekIdx p.dayIdx + 1 ∧
    ((s1.lockedDays ≠ s.lockedDays ∨ s1.yesterdayLocked ≠ s.yesterdayLocked) →
      2 ≤ countLosses s1.trades p.weekIdx p.dayIdx) ∧
    (∀ (env0 : Env) (s0 sOpen : AppState) (rowIdx : Nat),
      isToday env0 p.weekIdx p.dayIdx = true →
      isDayLocked env0 s0.lockedDays p.weekIdx p.dayIdx = false →
      handleTradeChange env0 s0 p.weekIdx p.dayIdx rowIdx "type" (JSVal.str "loss") =
        some sOpen →
      sOpen.pendingLossData = some p →
      s.trades = s0.trades →
      2 ≤ countLosses s1.trades p.weekIdx p.dayIdx →
      p.isSecondLoss = true ∧ s.confessionChecked = true) := by
  have hreason : jsTrim s.lossReasonInput ≠ "" := by
    intro h
    have hrej : confirmLossWithReason env s =
        some (addToast s "Harus isi alasan kenapa loss!" "error") := by
      simp [confirmLossWithReason, hp, h]
    rw [hrej] at hres
    rw [← Option.some.inj hres] at hacc
    simp [addToast, hp] at hacc
  have hconf : p.isSecondLoss = true → s.confessionChecked = true := by
    intro h2
    by_contra hc
    have hcf : s.confessionChecked = false := by simpa using hc
    have hrej : confirmLossWithReason env s =
        some (addToast s "Harus centang pengakuan!" "error") := by
      simp [confirmLossWithReason, hp, hreason, h2, hcf]
    rw [hrej] at hres
    rw [← Option.some.inj hres] at hacc
    simp [addToast, hp] at hacc
  have hgate : (p.isSecondLoss && !s.confessionChecked) = false := by
    cases h1 : p.isSecondLoss
    · rfl
    · simp [hconf h1]
  cases hrows : bucketAt s.trades p.weekIdx p.dayIdx with
  | none =>
    have hnone : confirmLossWithReason env s = none := by
      simp [confirmLossWithReason, hp, hreason, hgate, hrows]
    rw [hnone] at hres
    cases hres
  | some rows =>
    cases hrow : rows[p.rowIdx]? with
    | none =>
      have hnone : confirmLossWithReason env s = none := by
        simp [confirmLossWithReason, hp, hreason, hgate, hrows, hrow]
      rw [hnone] at hres
      cases hres
    | some row =>
      obtain ⟨s2, h2, htr, _, _, hlock, hnolock⟩ :=
        confirmLossWithReason_accept env s p rows row hp hrows hrow hreason hconf
      have hs : s2 = s1 := Option.some.inj (h2.symm.trans hres)
      subst hs
      have hc0 := countLosses_of_bucketAt s.trades _ _ rows hrows
      have hc1 : countLosses s2.trades p.weekIdx p.dayIdx =
          ((rows.set p.rowIdx (objSet (objSet row "type" (JSVal.str "loss")) "reason"
            (JSVal.str (jsTrim s.lossReasonInput)))).filter isCompletedLoss).length := by
        rw [htr, countLosses_setBucket_self]
      have hge := filter_set_length_ge isCompletedLoss rows p.rowIdx
        (objSet (objSet row "type" (JSVal.str "loss")) "reason"
          (JSVal.str (jsTrim s.lossReasonInput))) row hrow
        (isCompletedLoss_loss_reason row _)
      have hle := filter_set_length_le isCompletedLoss rows p.rowIdx
        (objSet (objSet row "type" (JSVal.str "loss")) "reason"
          (JSVal.str (jsTrim s.lossReasonInput)))
      refine ⟨by omega, by omega, fun hchg => ?_, ?_⟩
      · by_contra hlt
        have := hnolock (by omega)
        rcases hchg with hchg | hchg
        · exact hchg this.1
        · exact hchg this.2
      · intro env0 s0 sOpen rowIdx htoday hunl hopen hdraft hsame h2c
        have hsec : p.isSecondLoss = decide (countLosses s0.trades p.weekIdx p.dayIdx ≥ 1) := by
          simp only [handleTradeChange, htoday, hunl, Bool.not_true, Bool.false_eq_true,
            if_false, and_self, if_true] at hopen
          cases hb : bucketAt s0.trades p.weekIdx p.dayIdx with
          | none => rw [hb] at hopen; cases hopen
          | some rows0 =>
            rw [hb] at hopen
            dsimp only at hopen
            cases hr0 : rows0[rowIdx]? with
            | none => rw [hr0] at hopen; cases hopen
            | some row0 =>
              rw [hr0] at hopen
              dsimp only at hopen
              rw [← Option.some.inj hopen] at hdraft
              have := Option.some.inj hdraft
              rw [← this]
        have h1 : p.isSecondLoss = true := by
          rw [hsec, ← hsame]
          simp only [ge_iff_le, decide_eq_true_eq]
          omega
        exact ⟨h1, hconf h1⟩

/-- C27 on the scenario: the second loss of the day is confirmed on the ledger
on which its draft was opened; the count goes from 1 to 2, the draft is a
second loss and the confession is ticked. -/
theorem confirmLossWithReason_lock_needs_confession_witness :
    countLosses secondLossDraftState.trades 0 3 = 1 ∧
    countLosses lockedState.trades 0 3 = 2 ∧
    countLosses lockedState.trades 0 3 ≤ countLosses secondLossDraftState.trades 0 3 + 1 ∧
    secondLossDraftState.confessionChecked = true :=
  have h := confirmLossWithReason_lock_needs_confession { scenarioEnv with now := 11 }
    secondLossDraftState lockedState
    { weekIdx := 0, dayIdx := 3, rowIdx := 1, isSecondLoss := true,
      amount := some (JSVal.str "50") }
    (by decide) rfl (by decide)
  ⟨by decide, by decide, h.2.1,
    (h.2.2.2 { scenarioEnv with now := 8 }
      (run scenarioEnv initialState (firstLossEvents ++ secondLossDraftEvents.take 2))
      (run scenarioEnv initialState (firstLossEvents ++ secondLossDraftEvents.take 3)) 1
      (by decide) (by decide) rfl (by decide) rfl (by decide)).2⟩

/-! ## The API key -/

/-- C30: `saveApiKey` accepts the ten-character input "sk-or-v1-x" (it is not
shorter than ten), stores it and closes the settings, yet `hasApiKey`, which
wants more than ten characters, is false right afterwards. -/
theorem saveApiKey_accepts_key_hasApiKey_refuses :
    utf16Length (jsTrim tenCharKeyState.apiKeyInput) = 10 ∧
    (saveApiKey tenCharKeyState).service.storedKey = some "sk-or-v1-x" ∧
    (saveApiKey tenCharKeyState).showSettings = false ∧
    (saveApiKey tenCharKeyState).error = "" ∧
    hasApiKey (saveApiKey tenCharKeyState).service = false := by
  decide

/-! ## Categorisation: failure and memoisation -/

/-- A cached text is answered from the cache without a request. -/
theorem categorizeReason_cached (toLowerCase : String → String) (st : ServiceState)
    (reason label : String) (outcome : FetchOutcome)
    (h : objGet st.categoryCache (jsTrim (toLowerCase reason)) = some label) :
    categorizeReason toLowerCase st reason outcome =
      { result := Settled.resolves label, service := st, requests := 0 } := by
  simp only [categorizeReason, h]

/-- With a key and no cache entry, a request that returns a readable payload
resolves to the cleaned category and caches it under the normalised text. -/
theorem categorizeReason_success (toLowerCase : String → String) (st : ServiceState)
    (reason : String) (outcome : FetchOutcome)
    (hkey : getApiKey st ≠ "")
    (hmiss : objGet st.categoryCache (jsTrim (toLowerCase reason)) = none)
    (hok : outcome = FetchOutcome.noContent ∨ ∃ text, outcome = FetchOutcome.content text) :
    ∃ label, categorizeReason toLowerCase st reason outcome =
      { result := Settled.resolves label,
        service :=
          { st with
            categoryCache := objSet st.categoryCache (jsTrim (toLowerCase reason)) label },
        requests := 1 } := by
  rcases hok with h | ⟨text, h⟩
  · subst h
    refine ⟨cleanCategory (if jsTrim "" = "" then reason else jsTrim ""), ?_⟩
    simp only [categorizeReason, hmiss, hkey, if_false]
  · subst h
    refine ⟨cleanCategory (if jsTrim text = "" then reason else jsTrim text), ?_⟩
    simp only [categorizeReason, hmiss, hkey, if_false]

/-- With a key and no cache entry, a failed request resolves to the fallback
label and leaves the state as it was. -/
theorem categorizeReason_failure (toLowerCase : String → String) (st : ServiceState)
    (reason : String) (outcome : FetchOutcome)
    (hkey : getApiKey st ≠ "")
    (hmiss : objGet st.categoryCache (jsTrim (toLowerCase reason)) = none)
    (hfail : outcome = FetchOutcome.rejects ∨ outcome = FetchOutcome.notOk ∨
      outcome = FetchOutcome.unreadable) :
    categorizeReason toLowerCase st reason outcome =
      { result := Settled.resolves (fallbackLabel reason), service := st, requests := 1 } := by
  rcases hfail with h | h | h <;> subst h <;>
    simp only [categorizeReason, hmiss, hkey, if_false]

/-- C24, counterexample: with a key stored, a request that fails (transport
error, or a response that is not ok) makes `categorizeReason` resolve to a
label; it does not reject. -/
theorem categorizeReason_failed_request_resolves :
    getApiKey keyedService ≠ "" ∧
    (categorizeReason asciiLower keyedService "entry terlalu cepat"
      FetchOutcome.rejects).result = Settled.resolves "entry terlalu cepat" ∧
    (categorizeReason asciiLower keyedService "entry terlalu cepat"
      FetchOutcome.notOk).result = Settled.resolves "entry terlalu cepat" ∧
    ¬ ∃ message, (categorizeReason asciiLower keyedService "entry terlalu cepat"
      FetchOutcome.rejects).result = Settled.rejects message := by
  refine ⟨by decide, by decide, by decide, ?_⟩
  rintro ⟨message, h⟩
  have h2 : (categorizeReason asciiLower keyedService "entry terlalu cepat"
      FetchOutcome.rejects).result = Settled.resolves "entry terlalu cepat" := by decide
  rw [h2] at h
  cases h

/-- C24, amended: when the normalised text is not cached and a key is stored,
a failed request (transport error, response not ok, unreadable payload) makes
`categorizeReason` resolve to the fallback label (the reason itself when it has
at most 25 code units, otherwise its first 25 followed by "..."), after one
request and with the key and the cache unchanged. It rejects, with "API key not
configured" and without a request, exactly when no key is stored and the text
is not cached. -/
theorem categorizeReason_failure_gives_fallback (toLowerCase : String → String)
    (st : ServiceState) (reason : String)
    (hmiss : objGet st.categoryCache (jsTrim (toLowerCase reason)) = none) :
    (getApiKey st ≠ "" → ∀ outcome, (outcome = FetchOutcome.rejects ∨
        outcome = FetchOutcome.notOk ∨ outcome = FetchOutcome.unreadable) →
      (categorizeReason toLowerCase st reason outcome).result =
        Settled.resolves (fallbackLabel reason) ∧
      (categorizeReason toLowerCase st reason outcome).service = st ∧
      (categorizeReason toLowerCase st reason outcome).requests = 1) ∧
    (utf16Length reason ≤ 25 → fallbackLabel reason = reason) ∧
    (25 < utf16Length reason →
      fallbackLabel reason = String.mk (takeUtf16 25 reason.data) ++ "...") ∧
    (∀ outcome, (∃ message, (categorizeReason toLowerCase st reason outcome).result =
        Settled.rejects message) ↔ getApiKey st = "") ∧
    (getApiKey st = "" → ∀ outcome,
      (categorizeReason toLowerCase st reason outcome).result =
        Settled.rejects "API key not configured" ∧
      (categorizeReason toLowerCase st reason outcome).requests = 0) := by
  have hnokey : getApiKey st = "" → ∀ outcome,
      categorizeReason toLowerCase st reason outcome =
        { result := Settled.rejects "API key not configured", service := st,
          requests := 0 } := by
    intro h outcome
    simp only [categorizeReason, hmiss, h, if_true]
  refine ⟨fun hkey outcome hfail => ?_, fun h => ?_, fun h => ?_, fun outcome => ?_,
    fun h outcome => ?_⟩
  · rw [categorizeReason_failure toLowerCase st reason outcome hkey hmiss hfail]
    exact ⟨rfl, rfl, rfl⟩
  · unfold fallbackLabel
    rw [if_neg (by omega)]
  · unfold fallbackLabel
    rw [if_pos (by omega)]
  · constructor
    · rintro ⟨message, hm⟩
      by_contra hkey
      cases outcome with
      | rejects =>
        rw [categorizeReason_failure toLowerCase st reason _ hkey hmiss (Or.inl rfl)] at hm
        cases hm
      | notOk =>
        rw [categorizeReason_failure toLowerCase st reason _ hkey hmiss
          (Or.inr (Or.inl rfl))] at hm
        cases hm
      | unreadable =>
        rw [categorizeReason_failure toLowerCase st reason _ hkey hmiss
          (Or.inr (Or.inr rfl))] at hm
        cases hm
      | noContent =>
        obtain ⟨label, hl⟩ := categorizeReason_success toLowerCase st reason _ hkey hmiss
          (Or.inl rfl)
        rw [hl] at hm
        cases hm
      | content text =>
        obtain ⟨label, hl⟩ := categorizeReason_success toLowerCase st reason _ hkey hmiss
          (Or.inr ⟨text, rfl⟩)
        rw [hl] at hm
        cases hm
    · intro h
      exact ⟨_, by rw [hnokey h outcome]⟩
  · rw [hnokey h outcome]
    exact ⟨rfl, rfl⟩

/-- C24, amended, on the scenario: a transport error on "entry terlalu cepat"
resolves to that text and leaves the service as it was. -/
theorem categorizeReason_failure_gives_fallback_witness :
    (categorizeReason asciiLower keyedService "entry terlalu cepat"
      FetchOutcome.rejects).result = Settled.resolves (fallbackLabel "entry terlalu cepat") ∧
    (categorizeReason asciiLower keyedService "entry terlalu cepat"
      FetchOutcome.rejects).service = keyedService ∧
    (categorizeReason asciiLower keyedService "entry terlalu cepat"
      FetchOutcome.rejects).requests = 1 :=
  (categorizeReason_failure_gives_fallback asciiLower keyedService "entry terlalu cepat"
    (by decide)).1 (by decide) FetchOutcome.rejects (Or.inl rfl)

/-- C25, counterexample: the first request fails, so nothing is cached; the
second call on the same text sends a second request and returns another label. -/
theorem categorizeReason_twice_two_requests :
    (categorizeReason asciiLower keyedService "entry terlalu cepat"
      FetchOutcome.rejects).requests +
      (categorizeReason asciiLower
        (categorizeReason asciiLower keyedService "entry terlalu cepat"
          FetchOutcome.rejects).service
        "entry terlalu cepat" (FetchOutcome.content "Entry Terlalu Cepat")).requests = 2 ∧
    (categorizeReason asciiLower keyedService "entry terlalu cepat"
      FetchOutcome.rejects).result = Settled.resolves "entry terlalu cepat" ∧
    (categorizeReason asciiLower
      (categorizeReason asciiLower keyedService "entry terlalu cepat"
        FetchOutcome.rejects).service
      "entry terlalu cepat" (FetchOutcome.content "Entry Terlalu Cepat")).result =
      Settled.resolves "Entry Terlalu Cepat" := by
  decide

/-- C25, amended: with a key stored, take two consecutive calls of
`categorizeReason` on texts equal after lower-casing and trimming, with no
`clearCache` in between. When the text is already cached, or the request of the
first call returns a readable payload, the two calls send at most one request
(exactly one when the text was not cached), the second call sends none and
returns the label of the first. When the text is not cached and the first
request fails, nothing is cached and the second call sends a request of its
own. -/
theorem categorizeReason_memoizes_on_success (toLowerCase : String → String)
    (st : ServiceState) (reason1 reason2 : String) (outcome1 outcome2 : FetchOutcome)
    (hnorm : jsTrim (toLowerCase reason1) = jsTrim (toLowerCase reason2))
    (hkey : getApiKey st ≠ "") :
    (((objGet st.categoryCache (jsTrim (toLowerCase reason1))).isSome = true ∨
        outcome1 = FetchOutcome.noContent ∨ ∃ text, outcome1 = FetchOutcome.content text) →
      (categorizeReason toLowerCase
        (categorizeReason toLowerCase st reason1 outcome1).service reason2 outcome2).requests
        = 0 ∧
      (categorizeReason toLowerCase
        (categorizeReason toLowerCase st reason1 outcome1).service reason2 outcome2).result =
        (categorizeReason toLowerCase st reason1 outcome1).result ∧
      (categorizeReason toLowerCase st reason1 outcome1).requests ≤ 1 ∧
      (objGet st.categoryCache (jsTrim (toLowerCase reason1)) = none →
        (categorizeReason toLowerCase st reason1 outcome1).requests = 1)) ∧
    (objGet st.categoryCache (jsTrim (toLowerCase reason1)) = none →
      (outcome1 = FetchOutcome.rejects ∨ outcome1 = FetchOutcome.notOk ∨
        outcome1 = FetchOutcome.unreadable) →
      (categorizeReason toLowerCase st reason1 outcome1).service = st ∧
      (categorizeReason toLowerCase
        (categorizeReason toLowerCase st reason1 outcome1).service reason2 outcome2).requests
        = 1) := by
  constructor
  · intro hok
    cases hget : objGet st.categoryCache (jsTrim (toLowerCase reason1)) with
    | some label =>
      rw [categorizeReason_cached toLowerCase st reason1 label outcome1 hget]
      rw [categorizeReason_cached toLowerCase st reason2 label outcome2 (hnorm ▸ hget)]
      exact ⟨rfl, rfl, Nat.zero_le 1, fun h => by cases h⟩
    | none =>
      rw [hget] at hok
      have hok2 : outcome1 = FetchOutcome.noContent ∨
          ∃ text, outcome1 = FetchOutcome.content text := by
        rcases hok with h | h
        · cases h
        · exact h
      obtain ⟨label, hl⟩ := categorizeReason_success toLowerCase st reason1 outcome1 hkey
        hget hok2
      rw [hl]
      dsimp only
      rw [categorizeReason_cached toLowerCase _ reason2 label outcome2
        (by rw [← hnorm]; exact objGet_objSet_self _ _ _)]
      exact ⟨rfl, rfl, Nat.le_refl 1, fun _ => rfl⟩
  · intro hmiss hfail
    rw [categorizeReason_failure toLowerCase st reason1 outcome1 hkey hmiss hfail]
    dsimp only
    have hmiss2 : objGet st.categoryCache (jsTrim (toLowerCase reason2)) = none := by
      rw [← hnorm]
      exact hmiss
    refine ⟨rfl, ?_⟩
    cases outcome2 with
    | rejects =>
      rw [categorizeReason_failure toLowerCase st reason2 _ hkey hmiss2 (Or.inl rfl)]
    | notOk =>
      rw [categorizeReason_failure toLowerCase st reason2 _ hkey hmiss2 (Or.inr (Or.inl rfl))]
    | unreadable =>
      rw [categorizeReason_failure toLowerCase st reason2 _ hkey hmiss2 (Or.inr (Or.inr rfl))]
    | noContent =>
      obtain ⟨label, hl⟩ := categorizeReason_success toLowerCase st reason2 _ hkey hmiss2
        (Or.inl rfl)
      rw [hl]
    | content text =>
      obtain ⟨label, hl⟩ := categorizeReason_success toLowerCase st reason2 _ hkey hmiss2
        (Or.inr ⟨text, rfl⟩)
      rw [hl]

/-- C25, amended, on the scenario: "entry terlalu cepat" and then
" Entry Terlalu Cepat " with a first request that answers "Entry Terlalu Cepat":
the second call sends no request and returns the label of the first. -/
theorem categorizeReason_memoizes_on_success_witness :
    (categorizeReason asciiLower
      (categorizeReason asciiLower keyedService "entry terlalu cepat"
        (FetchOutcome.content "Entry Terlalu Cepat")).service
      " Entry Terlalu Cepat " FetchOutcome.rejects).requests = 0 ∧
    (categorizeReason asciiLower
      (categorizeReason asciiLower keyedService "entry terlalu cepat"
        (FetchOutcome.content "Entry Terlalu Cepat")).service
      " Entry Terlalu Cepat " FetchOutcome.rejects).result =
      (categorizeReason asciiLower keyedService "entry terlalu cepat"
        (FetchOutcome.content "Entry Terlalu Cepat")).result :=
  have h := (categorizeReason_memoizes_on_success asciiLower keyedService
    "entry terlalu cepat" " Entry Terlalu Cepat " (FetchOutcome.content "Entry Terlalu Cepat")
    FetchOutcome.rejects (by decide) (by decide)).1 (Or.inr (Or.inr ⟨_, rfl⟩))
  ⟨h.1, h.2.1⟩

/-! ## Reactions and summaries: the placeholder -/

theorem getSubstitutionFrom_no_dollar (matched before after : List Char) (f : List Char)
    (hf : ∀ c ∈ f, c ≠ '$') : getSubstitutionFrom matched before after false f = f := by
  induction f with
  | nil => rfl
  | cons c tail ih =>
    have hc : c ≠ '$' := hf c (List.mem_cons_self _ _)
    simp only [getSubstitutionFrom, Bool.false_eq_true, if_false, if_neg hc,
      ih (fun x hx => hf x (List.mem_cons_of_mem _ hx))]

theorem plainAmountText_spec (f : List Char) (h : plainAmountText f = true) :
    (∀ c ∈ f, c ≠ '$') ∧ (∀ c ∈ f, c ≠ 'A') := by
  unfold plainAmountText at h
  simp only [Bool.and_eq_true, List.all_eq_true, bne_iff_ne, ne_eq] at h
  exact ⟨fun c hc => (h.1 c hc).1, fun c hc => (h.1 c hc).2⟩

theorem getSubstitution_dollar_plain (matched before after : List Char) (f : List Char)
    (h : plainAmountText f = true) :
    getSubstitution matched before after ('$' :: f) = '$' :: f := by
  have hd := (plainAmountText_spec f h).1
  cases f with
  | nil => rfl
  | cons d rest =>
    have h1 : d ≠ '$' := hd d (List.mem_cons_self _ _)
    unfold plainAmountText at h
    simp only [Bool.and_eq_true, bne_iff_ne, ne_eq] at h
    obtain ⟨_, ⟨h2, h3⟩, h4⟩ := h
    simp only [getSubstitution, getSubstitutionFrom, Bool.false_eq_true, if_false, if_true,
      if_neg h1, if_neg h2, if_neg h3, if_neg h4]
    rw [getSubstitutionFrom_no_dollar _ _ _ _ (fun x hx => hd x (List.mem_cons_of_mem _ hx))]

theorem replaceAmountFrom_eq_specFillFrom (f : List Char) (h : plainAmountText f = true)
    (l : List Char) : ∀ (before : List Char) (skip : Nat),
    replaceAmountFrom ('$' :: f) before skip l = specFillFrom ('$' :: f) skip l := by
  induction l with
  | nil => intro before skip; cases skip <;> rfl
  | cons c rest ih =>
    intro before skip
    cases skip with
    | succ k =>
      simp only [replaceAmountFrom, specFillFrom]
      exact ih _ _
    | zero =>
      simp only [replaceAmountFrom, specFillFrom, getSubstitution_dollar_plain _ _ _ f h, ih]

theorem amount_data : "AMOUNT".data = ['A', 'M', 'O', 'U', 'N', 'T'] := rfl

theorem prefix_of_prefix_replaceAmountFrom (f : List Char) (h : plainAmountText f = true)
    (w : List Char) (hw : ∀ c ∈ w, c ≠ '$') :
    ∀ (l before : List Char), w <+: replaceAmountFrom ('$' :: f) before 0 l → w <+: l := by
  induction w with
  | nil => intro l before _; exact List.nil_prefix
  | cons x w2 ih =>
    intro l before hpre
    have hx : x ≠ '$' := hw x (List.mem_cons_self _ _)
    cases l with
    | nil =>
      simp only [replaceAmountFrom] at hpre
      exact hpre
    | cons c rest =>
      simp only [replaceAmountFrom, getSubstitution_dollar_plain _ _ _ f h] at hpre
      split at hpre
      · rw [List.cons_append, List.cons_prefix_cons] at hpre
        exact absurd hpre.1 hx
      · split at hpre
        · rw [List.cons_append, List.cons_prefix_cons] at hpre
          exact absurd hpre.1 hx
        · rw [List.cons_prefix_cons] at hpre ⊢
          exact ⟨hpre.1, ih (fun y hy => hw y (List.mem_cons_of_mem _ hy)) rest _ hpre.2⟩

theorem amount_infix_of_append (f X : List Char) (hf : ∀ c ∈ f, c ≠ 'A')
    (h : "AMOUNT".data <:+: f ++ X) : "AMOUNT".data <:+: X := by
  induction f with
  | nil => exact h
  | cons d f2 ih =>
    rw [List.cons_append, List.infix_cons_iff] at h
    rcases h with h | h
    · rw [amount_data, List.cons_prefix_cons] at h
      exact absurd h.1.symm (hf d (List.mem_cons_self _ _))
    · exact ih (fun y hy => hf y (List.mem_cons_of_mem _ hy)) h

theorem no_amount_in_replaceAmountFrom (f : List Char) (h : plainAmountText f = true)
    (l : List Char) : ∀ (before : List Char) (skip : Nat),
    ¬ "AMOUNT".data <:+: replaceAmountFrom ('$' :: f) before skip l := by
  have hrep : ∀ c ∈ '$' :: f, c ≠ 'A' := by
    intro c hc
    rcases List.mem_cons.1 hc with hc | hc
    · rw [hc]; decide
    · exact (plainAmountText_spec f h).2 c hc
  induction l with
  | nil =>
    intro before skip hin
    have : replaceAmountFrom ('$' :: f) before skip [] = [] := by cases skip <;> rfl
    rw [this, amount_data] at hin
    simp at hin
  | cons c rest ih =>
    intro before skip hin
    cases skip with
    | succ k =>
      simp only [replaceAmountFrom] at hin
      exact ih _ _ hin
    | zero =>
      simp only [replaceAmountFrom, getSubstitution_dollar_plain _ _ _ f h] at hin
      split at hin
      · exact ih _ _ (amount_infix_of_append _ _ hrep hin)
      · rename_i hno7
        split at hin
        · exact ih _ _ (amount_infix_of_append _ _ hrep hin)
        · rename_i hno6
          rw [List.infix_cons_iff] at hin
          rcases hin with hin | hin
          · rw [List.cons_prefix_cons] at hin
            have hrest := prefix_of_prefix_replaceAmountFrom f h ['M', 'O', 'U', 'N', 'T']
              (by decide) rest _ hin.2
            apply hno6
            rw [List.isPrefixOf_iff_prefix, List.cons_prefix_cons]
            exact ⟨hin.1, hrest⟩
          · exact ih _ _ hin

theorem replaceAmountFrom_ne_nil (f : List Char) (h : plainAmountText f = true)
    (c : Char) (rest before : List Char) :
    replaceAmountFrom ('$' :: f) before 0 (c :: rest) ≠ [] := by
  simp only [replaceAmountFrom, getSubstitution_dollar_plain _ _ _ f h]
  split
  · simp
  · split <;> simp

/-! ## Reactions and summaries: never rejecting -/

/-- The index drawn by `getRandomFallback` lies inside the array: the value of
`Math.random()` is a double below 1, so at most `1 - 2 ^ (-53)`. -/
theorem randomIndex_lt (random : ℚ) (n : Nat) (h0 : 0 ≤ random)
    (h1 : random ≤ 1 - 1 / 2 ^ 53) (hn : 0 < n) :
    (⌊roundDouble (random * (n : ℚ))⌋).toNat < n := by
  have hnq : (0 : ℚ) < n := by exact_mod_cast hn
  have hq0 : 0 ≤ random * (n : ℚ) := mul_nonneg h0 (le_of_lt hnq)
  have herr := abs_roundDouble_sub_le (random * (n : ℚ)) hq0
  rw [abs_le] at herr
  have hqle : random * (n : ℚ) ≤ (1 - 1 / 2 ^ 53) * (n : ℚ) :=
    mul_le_mul_of_nonneg_right h1 (le_of_lt hnq)
  have h2 : random * (n : ℚ) + random * (n : ℚ) / 2 ^ 53 ≤
      (1 - 1 / 2 ^ 53) * (n : ℚ) * (1 + 1 / 2 ^ 53) := by
    have he : random * (n : ℚ) + random * (n : ℚ) / 2 ^ 53 =
        random * (n : ℚ) * (1 + 1 / 2 ^ 53) := by ring
    rw [he]
    exact mul_le_mul_of_nonneg_right hqle (by positivity)
  have h3 : (1 - 1 / 2 ^ 53) * (n : ℚ) * (1 + 1 / 2 ^ 53) < n := by
    have he : (1 - 1 / 2 ^ 53) * (n : ℚ) * (1 + 1 / 2 ^ 53) = n - n / 2 ^ 106 := by ring
    rw [he]
    have : 0 < (n : ℚ) / 2 ^ 106 := by positivity
    linarith
  have hR : roundDouble (random * (n : ℚ)) < ((n : ℤ) : ℚ) := by
    push_cast
    linarith [herr.2]
  have hfl : ⌊roundDouble (random * (n : ℚ))⌋ < (n : ℤ) := Int.floor_lt.2 hR
  have hfl0 : 0 ≤ ⌊roundDouble (random * (n : ℚ))⌋ :=
    Int.floor_nonneg.2 (roundDouble_nonneg _)
  omega

/-- With a draw of `Math.random()` below 1 and a non-empty pool,
`getRandomFallback` returns one template of the pool, filled. -/
theorem getRandomFallback_some (random : ℚ) (pool : List String) (formatted : String)
    (h0 : 0 ≤ random) (h1 : random ≤ 1 - 1 / 2 ^ 53) (hpool : pool ≠ []) :
    ∃ reaction ∈ pool, getRandomFallback random pool formatted =
      some (fillAmount reaction formatted) := by
  have hlen : 0 < pool.length := List.length_pos.2 hpool
  have hidx := randomIndex_lt random pool.length h0 h1 hlen
  refine ⟨pool[(⌊roundDouble (random * (pool.length : ℚ))⌋).toNat], List.getElem_mem _, ?_⟩
  unfold getRandomFallback
  rw [List.getElem?_eq_getElem hidx]

/-- A filled template is not empty, holds no placeholder any more, and is the
template with every placeholder replaced by the dollar sign and the formatted
amount as they stand. -/
theorem fillAmount_spec (reaction formatted : String)
    (hplain : plainAmountText formatted.data = true) (hne : reaction ≠ "") :
    fillAmount reaction formatted ≠ "" ∧
    ¬ "AMOUNT".data <:+: (fillAmount reaction formatted).data ∧
    (fillAmount reaction formatted).data =
      specFillFrom ('$' :: formatted.data) 0 reaction.data := by
  refine ⟨?_, ?_, ?_⟩
  · intro h
    have hdata : (fillAmount reaction formatted).data = [] := by rw [h]
    cases hr : reaction.data with
    | nil => exact hne (String.ext hr)
    | cons c rest =>
      unfold fillAmount at hdata
      rw [hr] at hdata
      exact replaceAmountFrom_ne_nil _ hplain c rest [] hdata
  · exact no_amount_in_replaceAmountFrom _ hplain _ _ _
  · exact replaceAmountFrom_eq_specFillFrom _ hplain _ _ _

/-- The property of a fallback text: one template of the pool, filled. -/
theorem fallback_facts (random : ℚ) (pool : List String) (formatted : String)
    (h0 : 0 ≤ random) (h1 : random ≤ 1 - 1 / 2 ^ 53) (hpool : pool ≠ [])
    (hne : ∀ t ∈ pool, t ≠ "") (hplain : plainAmountText formatted.data = true) :
    ∃ text, getRandomFallback random pool formatted = some text ∧ text ≠ "" ∧
      ∃ reaction ∈ pool, text = fillAmount reaction formatted ∧
        text.data = specFillFrom ('$' :: formatted.data) 0 reaction.data ∧
        ¬ "AMOUNT".data <:+: text.data := by
  obtain ⟨reaction, hmem, hsome⟩ := getRandomFallback_some random pool formatted h0 h1 hpool
  obtain ⟨ha, hb, hc⟩ := fillAmount_spec reaction formatted hplain (hne reaction hmem)
  exact ⟨_, hsome, ha, reaction, hmem, rfl, hc, hb⟩

/-- The four pools are non-empty and hold no empty template. -/
theorem fallback_pools_usable :
    (∀ pool, pool = FALLBACK_WIN_REACTIONS ∨ pool = FALLBACK_LOSS_REACTIONS ∨
      pool = FALLBACK_SUMMARY_WIN ∨ pool = FALLBACK_SUMMARY_LOSS →
      pool ≠ [] ∧ ∀ t ∈ pool, t ≠ "") := by
  intro pool h
  rcases h with h | h | h | h <;> subst h <;> exact ⟨by decide, by decide⟩

/-- What is returned when the fallback is taken. -/
theorem fallback_branch (st : ServiceState) (outcome : FetchOutcome) (random : ℚ)
    (pool : List String) (formatted : String) (result : Option String)
    (hres : result = getRandomFallback random pool formatted)
    (hno : ¬ ∃ ai, getApiKey st ≠ "" ∧ outcome = FetchOutcome.content ai ∧ jsTrim ai ≠ "")
    (h0 : 0 ≤ random) (h1 : random ≤ 1 - 1 / 2 ^ 53) (hpool : pool ≠ [])
    (hne : ∀ t ∈ pool, t ≠ "") (hplain : plainAmountText formatted.data = true) :
    ∃ text, result = some text ∧ text ≠ "" ∧
      ((∃ ai, getApiKey st ≠ "" ∧ outcome = FetchOutcome.content ai ∧ jsTrim ai ≠ "" ∧
          text = jsTrim ai) ∨
        ((¬ ∃ ai, getApiKey st ≠ "" ∧ outcome = FetchOutcome.content ai ∧ jsTrim ai ≠ "") ∧
          ∃ reaction ∈ pool, text = fillAmount reaction formatted ∧
            text.data = specFillFrom ('$' :: formatted.data) 0 reaction.data ∧
            ¬ "AMOUNT".data <:+: text.data)) := by
  obtain ⟨text, hsome, hne2, hrest⟩ := fallback_facts random pool formatted h0 h1 hpool hne hplain
  exact ⟨text, hres.trans hsome, hne2, Or.inr ⟨hno, hrest⟩⟩

/-- C26: `getTradeReaction` and `getDailySummary` never reject. For every key
state, every type, every array of entries, every day total, every outcome of
the request (no key stored, transport error, response not ok, unreadable
payload, missing or blank content) and every draw of `Math.random()` in [0, 1),
with a formatted amount that `replace` inserts as it stands, each resolves to a
non-empty text: the trimmed AI text when a key is stored and that text is not
empty, and otherwise one template of the matching pool (win or loss by
`type === "profit"`, respectively `dayTotal >= 0`) in which every placeholder
has been replaced by the dollar sign and the formatted amount, so that it holds
no "AMOUNT" any more. -/
theorem reactions_never_reject (st : ServiceState) (random1 random2 : ℚ) (type : JSVal)
    (todayTrades : List TradeEntry) (dayTotal : ExactNum) (formatted : String)
    (outcome : FetchOutcome)
    (hr1 : 0 ≤ random1 ∧ random1 ≤ 1 - 1 / 2 ^ 53)
    (hr2 : 0 ≤ random2 ∧ random2 ≤ 1 - 1 / 2 ^ 53)
    (hplain : plainAmountText formatted.data = true) :
    (∃ text, getTradeReaction st random1 random2 type formatted outcome = some text ∧
      text ≠ "" ∧
      ((∃ ai, getApiKey st ≠ "" ∧ outcome = FetchOutcome.content ai ∧ jsTrim ai ≠ "" ∧
          text = jsTrim ai) ∨
        ((¬ ∃ ai, getApiKey st ≠ "" ∧ outcome = FetchOutcome.content ai ∧ jsTrim ai ≠ "") ∧
          ∃ reaction ∈ (if type = JSVal.str "profit" then FALLBACK_WIN_REACTIONS
              else FALLBACK_LOSS_REACTIONS),
            text = fillAmount reaction formatted ∧
            text.data = specFillFrom ('$' :: formatted.data) 0 reaction.data ∧
            ¬ "AMOUNT".data <:+: text.data))) ∧
    (∃ text, getDailySummary st random1 random2 todayTrades dayTotal formatted outcome =
        some text ∧
      text ≠ "" ∧
      ((∃ ai, getApiKey st ≠ "" ∧ outcome = FetchOutcome.content ai ∧ jsTrim ai ≠ "" ∧
          text = jsTrim ai) ∨
        ((¬ ∃ ai, getApiKey st ≠ "" ∧ outcome = FetchOutcome.content ai ∧ jsTrim ai ≠ "") ∧
          ∃ reaction ∈ (if dayTotal.geZero = true then FALLBACK_SUMMARY_WIN
              else FALLBACK_SUMMARY_LOSS),
            text = fillAmount reaction formatted ∧
            text.data = specFillFrom ('$' :: formatted.data) 0 reaction.data ∧
            ¬ "AMOUNT".data <:+: text.data))) := by
  have hbody : ∀ (pool : List String) (result : Option String),
      pool ≠ [] ∧ (∀ t ∈ pool, t ≠ "") →
      result = (if getApiKey st = "" then getRandomFallback random1 pool formatted
        else
          match (match outcome with
            | FetchOutcome.rejects => none
            | FetchOutcome.unreadable => none
            | FetchOutcome.notOk => getRandomFallback random1 pool formatted
            | FetchOutcome.noContent => getRandomFallback random1 pool formatted
            | FetchOutcome.content text =>
              if jsTrim text = "" then getRandomFallback random1 pool formatted
              else some (jsTrim text) : Option String) with
          | some reaction => some reaction
          | none => getRandomFallback random2 pool formatted) →
      ∃ text, result = some text ∧ text ≠ "" ∧
        ((∃ ai, getApiKey st ≠ "" ∧ outcome = FetchOutcome.content ai ∧ jsTrim ai ≠ "" ∧
            text = jsTrim ai) ∨
          ((¬ ∃ ai, getApiKey st ≠ "" ∧ outcome = FetchOutcome.content ai ∧
              jsTrim ai ≠ "") ∧
            ∃ reaction ∈ pool, text = fillAmount reaction formatted ∧
              text.data = specFillFrom ('$' :: formatted.data) 0 reaction.data ∧
              ¬ "AMOUNT".data <:+: text.data)) := by
    intro pool result hpool hres
    have hfb : ∀ random, 0 ≤ random ∧ random ≤ 1 - 1 / 2 ^ 53 →
        ∃ text, getRandomFallback random pool formatted = some text :=
      fun random hr =>
        (fallback_facts random pool formatted hr.1 hr.2 hpool.1 hpool.2 hplain).imp
          (fun _ h => h.1)
    by_cases hkey : getApiKey st = ""
    · rw [if_pos hkey] at hres
      exact fallback_branch st outcome random1 pool formatted result hres
        (fun ⟨_, h, _⟩ => h hkey) hr1.1 hr1.2 hpool.1 hpool.2 hplain
    · rw [if_neg hkey] at hres
      obtain ⟨t1, ht1⟩ := hfb random1 hr1
      cases outcome with
      | rejects =>
        exact fallback_branch st _ random2 pool formatted result hres
          (fun ⟨_, _, h, _⟩ => by cases h) hr2.1 hr2.2 hpool.1 hpool.2 hplain
      | unreadable =>
        exact fallback_branch st _ random2 pool formatted result hres
          (fun ⟨_, _, h, _⟩ => by cases h) hr2.1 hr2.2 hpool.1 hpool.2 hplain
      | notOk =>
        have hres1 : result = getRandomFallback random1 pool formatted := by
          rw [hres]
          simp only [ht1]
        exact fallback_branch st _ random1 pool formatted result hres1
          (fun ⟨_, _, h, _⟩ => by cases h) hr1.1 hr1.2 hpool.1 hpool.2 hplain
      | noContent =>
        have hres1 : result = getRandomFallback random1 pool formatted := by
          rw [hres]
          simp only [ht1]
        exact fallback_branch st _ random1 pool formatted result hres1
          (fun ⟨_, _, h, _⟩ => by cases h) hr1.1 hr1.2 hpool.1 hpool.2 hplain
      | content text =>
        by_cases ht : jsTrim text = ""
        · have hres1 : result = getRandomFallback random1 pool formatted := by
            rw [hres]
            simp only [ht, if_true, ht1]
          refine fallback_branch st _ random1 pool formatted result hres1 ?_
            hr1.1 hr1.2 hpool.1 hpool.2 hplain
          rintro ⟨ai, _, h, hai⟩
          cases h
          exact hai ht
        · have hres1 : result = some (jsTrim text) := by
            rw [hres]
            simp only [ht, if_false]
          exact ⟨jsTrim text, hres1, ht, Or.inl ⟨text, hkey, rfl, ht, rfl⟩⟩
  constructor
  · refine hbody _ _ ?_ rfl
    split
    · exact fallback_pools_usable _ (Or.inl rfl)
    · exact fallback_pools_usable _ (Or.inr (Or.inl rfl))
  · refine hbody _ _ ?_ rfl
    split
    · exact fallback_pools_usable _ (Or.inr (Or.inr (Or.inl rfl)))
    · exact fallback_pools_usable _ (Or.inr (Or.inr (Or.inr rfl)))

/-- C26 on an example: no key stored, a profit of 1,234 and a day total of
-1,234, both draws of `Math.random()` equal to 0. -/
theorem reactions_never_reject_witness :
    (∃ text, getTradeReaction keylessService 0 0 (JSVal.str "profit") "1,234"
        FetchOutcome.rejects = some text ∧ text ≠ "" ∧ ¬ "AMOUNT".data <:+: text.data) ∧
    (∃ text, getDailySummary keylessService 0 0 [] (ExactNum.fin (-1234)) "1,234"
        FetchOutcome.rejects = some text ∧ text ≠ "" ∧ ¬ "AMOUNT".data <:+: text.data) :=
  have h := reactions_never_reject keylessService 0 0 (JSVal.str "profit") []
    (ExactNum.fin (-1234)) "1,234" FetchOutcome.rejects
    ⟨le_refl 0, by norm_num⟩ ⟨le_refl 0, by norm_num⟩ (by decide)
  ⟨h.1.imp (fun _ hx => ⟨hx.1, hx.2.1, hx.2.2.elim
      (fun ha => absurd ha.choose_spec.1 (fun hk => hk (by decide)))
      (fun hb => hb.2.choose_spec.2.2.2)⟩),
    h.2.imp (fun _ hx => ⟨hx.1, hx.2.1, hx.2.2.elim
      (fun ha => absurd ha.choose_spec.1 (fun hk => hk (by decide)))
      (fun hb => hb.2.choose_spec.2.2.2)⟩)⟩

/-- The draw 0 picks the first template: the reaction to a profit of 1,234 and
the summary of a day that lost 1,234, without a key. -/
theorem reactions_example :
    getTradeReaction keylessService 0 0 (JSVal.str "profit") "1,234" FetchOutcome.rejects =
      some "Profit $1,234! 🔥 Mantap jiwa! Tapi inget ya, satu trade profit bukan berarti kamu Warren Buffett. Stay humble! 😎" ∧
    getDailySummary keylessService 0 0 [] (ExactNum.fin (-1234)) "1,234"
        FetchOutcome.rejects =
      some "Hari ini merah $1,234... 😔 Gapapa, every trader punya bad days. Review mistakes, learn, dan besok bangkit lagi! 💪" := by
  have hidx : ∀ n : Nat, (⌊roundDouble (0 * (n : ℚ))⌋).toNat = 0 := by
    intro n
    simp [roundDouble]
  constructor
  · have h : getTradeReaction keylessService 0 0 (JSVal.str "profit") "1,234"
        FetchOutcome.rejects = getRandomFallback 0 FALLBACK_WIN_REACTIONS "1,234" := rfl
    rw [h]
    unfold getRandomFallback
    rw [hidx]
    set_option maxRecDepth 100000 in decide
  · have h : getDailySummary keylessService 0 0 [] (ExactNum.fin (-1234)) "1,234"
        FetchOutcome.rejects = getRandomFallback 0 FALLBACK_SUMMARY_LOSS "1,234" := by
      simp [getDailySummary, ExactNum.geZero, keylessService, getApiKey]
      norm_num
    rw [h]
    unfold getRandomFallback
    rw [hidx]
    set_option maxRecDepth 100000 in decide

/-- The two validators side by side: an input that `saveApiKey` accepts is
stored, and `hasApiKey` then holds exactly when the stored key has more than
ten code units; an input that `saveApiKey` rejects leaves the service as it
was. -/
theorem saveApiKey_then_hasApiKey (s : RegretState) :
    (10 ≤ utf16Length (jsTrim s.apiKeyInput) →
      (saveApiKey s).service.storedKey = some (jsTrim s.apiKeyInput) ∧
      (hasApiKey (saveApiKey s).service = true ↔ 10 < utf16Length (jsTrim s.apiKeyInput))) ∧
    (utf16Length (jsTrim s.apiKeyInput) < 10 →
      (saveApiKey s).service = s.service ∧ (saveApiKey s).error = "API key terlalu pendek") := by
  constructor
  · intro h
    have hsave : (saveApiKey s).service =
        clearCache (setApiKey s.service (jsTrim s.apiKeyInput)) := by
      unfold saveApiKey
      rw [if_neg (by omega)]
    rw [hsave]
    refine ⟨rfl, ?_⟩
    have hkey : getApiKey (clearCache (setApiKey s.service (jsTrim s.apiKeyInput))) =
        jsTrim s.apiKeyInput := rfl
    unfold hasApiKey
    rw [hkey]
    constructor
    · intro hh
      simp only [Bool.and_eq_true, decide_eq_true_eq] at hh
      exact hh.2
    · intro hh
      simp only [Bool.and_eq_true, decide_eq_true_eq]
      refine ⟨fun he => ?_, hh⟩
      rw [he] at hh
      exact absurd hh (by decide)
  · intro h
    unfold saveApiKey
    rw [if_pos h]
    exact ⟨rfl, rfl⟩

end TradeTrack
